import Mathlib

/-!
# hbbtv-lib

A shallow embedding of the modules of hbbtv-lib.

* `src/cs/sync_manager.js`: a `SyncManager` instance is a record of the two fields the
  methods read and write (`syncMan`, `masterMedia`), the members a caller may have added to
  it, and three observation traces: the notifications passed to `emit`, the operations
  invoked on the host MediaSynchroniser, and the messages passed to `log`.  Every method is
  a function from the instance and its arguments to a completion (a returned value or a
  raised exception) and the instance afterwards.
* `src/main/appman.js`: the module variables `ks`, `app`, `val` and the keyset of the
  terminal, with the trace of its `setValue` calls.
* `src/tools/query_string.js` and `src/tools/useragent.js`: pure functions of the query
  string and of the user-agent string.

The built-in operations the code calls are embedded as the language defines them:
`parseInt` with the conversion of its argument to a string and the rounding of the integer
read to a double, `Number::toString`, truthiness, `String.prototype.substring` on UTF-16
code units, and the regular expressions of `checkTLSpec` and of the user-agent parser.
-/

namespace HbbTV

/-! ## JavaScript values and completions -/

/-- Exceptions the modelled code can raise. -/
inductive JsError where
  /-- A member access or call on `undefined`, or a call of a member that is not a function. -/
  | typeError
  /-- An exception raised inside a host operation. -/
  | hostError
  /-- The value of `throw new Error(msg)`. -/
  | error (msg : String)
  deriving DecidableEq, Repr

/-- Completion of a call: a returned value or a raised exception. -/
inductive Outcome (α : Type) where
  | returned (v : α)
  | raised (e : JsError)
  deriving DecidableEq, Repr

/-- A JavaScript number, given the way `Number::toString` reads it.  A finite number other
than zero is `± s × 10 ^ (n - k)`, where `s` has `k` decimal digits, the last of them not
`0`, and is the shortest such integer that denotes the number: `1e21` is `s = 1`, `n = 22`;
`0.5` is `s = 5`, `n = 0`; `1234.5` is `s = 12345`, `n = 4`. -/
inductive JSDouble where
  | nan
  | infinity (negative : Bool)
  | zero (negative : Bool)
  | finite (negative : Bool) (s : Nat) (n : Int)
  deriving DecidableEq, Repr

/-- Values read from the members of a correlation tuple.  A value that is no `undefined`,
`null`, boolean, number or string (an object, a symbol, a bigint) is given by what the code
observes of it: whether it is truthy, and the completion of its conversion to a string
(the array `[7]` is truthy and converts to `7`; a symbol is truthy and its conversion
raises a `TypeError`). -/
inductive JSVal where
  | undefined
  | null
  | bool (b : Bool)
  | number (x : JSDouble)
  | str (s : String)
  | other (truthy : Bool) (toStr : Outcome String)
  deriving DecidableEq, Repr

/-- Result of `parseInt`: `NaN`, an integer other than `-0`, `-0`, or an infinity. -/
inductive JSNumber where
  | nan
  | int (n : Int)
  | negZero
  | infinity (negative : Bool)
  deriving DecidableEq, Repr

/-- JavaScript truthiness: `undefined`, `null`, `false`, `NaN`, the two zeros and `""` are
falsy. -/
def JSVal.truthy : JSVal → Bool
  | .undefined => false
  | .null => false
  | .bool b => b
  | .number .nan => false
  | .number (.zero _) => false
  | .number (.infinity _) => true
  | .number (.finite _ _ _) => true
  | .str s => s.data != []
  | .other t _ => t

/-- The number is an integer (`-0` included), neither `NaN` nor an infinity. -/
def JSNumber.isInteger : JSNumber → Bool
  | .int _ => true
  | .negZero => true
  | _ => false

/-! ## Numbers and their digits -/

/-- The number of binary digits of `n`, counted with at most `fuel` halvings. -/
def bitLengthAux : Nat → Nat → Nat
  | 0, _ => 0
  | fuel + 1, n => if n = 0 then 0 else bitLengthAux fuel (n / 2) + 1

/-- The number of binary digits of `n`. -/
def bitLength (n : Nat) : Nat := bitLengthAux n n

/-- The number value of a natural number: the nearest double, the even one of two that are
equally near, and `none` (infinity) from `2 ^ 1024 - 2 ^ 970` on.  A double holds 53
binary digits: the `e` digits below them are rounded away. -/
def roundToDouble (n : Nat) : Option Nat :=
  if n < 2 ^ 53 then some n
  else
    let e := bitLength n - 53
    let q := n / 2 ^ e
    let r := n % 2 ^ e
    let q1 := if 2 ^ e < 2 * r ∨ (2 * r = 2 ^ e ∧ q % 2 = 1) then q + 1 else q
    if q1 * 2 ^ e < 2 ^ 1024 then some (q1 * 2 ^ e) else none

/-- The decimal digits of `n`, most significant first, in front of `acc`. -/
def decimalDigitsAux : Nat → Nat → List Char → List Char
  | 0, _, acc => acc
  | fuel + 1, n, acc =>
    if n < 10 then Char.ofNat (48 + n) :: acc
    else decimalDigitsAux fuel (n / 10) (Char.ofNat (48 + n % 10) :: acc)

/-- The decimal digits of `n`, most significant first (`0` is the one digit `0`). -/
def decimalDigits (n : Nat) : List Char := decimalDigitsAux (n + 1) n []

/-- Removes trailing zeros of the decimal notation of `n`, at most `fuel` of them. -/
def stripZerosAux : Nat → Nat → Nat
  | 0, n => n
  | fuel + 1, n => if n ≠ 0 ∧ n % 10 = 0 then stripZerosAux fuel (n / 10) else n

/-- The integer `n` without the trailing zeros of its decimal notation. -/
def stripZeros (n : Nat) : Nat := stripZerosAux n n

/-- The two decimals without a digit below `10 ^ p` that enclose `x`, which are
`lo = ⌊x / 10 ^ p⌋ × 10 ^ p` and `lo + 10 ^ p`: the one whose number value is the double
`x`; of two, the nearer one, and the one with the even digit string when they are equally
near. -/
def shortestCandidate (x p : Nat) : Option Nat :=
  let lo := x / 10 ^ p * 10 ^ p
  let hi := lo + 10 ^ p
  if roundToDouble lo = some x then
    if roundToDouble hi = some x then
      if x - lo < hi - x then some lo
      else if hi - x < x - lo then some hi
      else if x / 10 ^ p % 2 = 0 then some lo else some hi
    else some lo
  else if roundToDouble hi = some x then some hi
  else none

/-- The decimal with the fewest digits whose number value is the double `x`, an integer of
at least one: the first candidate found as the number of digits kept grows from one. -/
def shortestInteger (x : Nat) : Nat :=
  ((List.range (decimalDigits x).length).reverse.findSome? (shortestCandidate x)).getD x

/-- The number value of the integer `n`: the nearest double, with the digits and the
exponent that `Number::toString` reads of it. -/
def JSDouble.ofInt (n : Int) : JSDouble :=
  if n = 0 then .zero false
  else
    match roundToDouble n.natAbs with
    | none => .infinity (decide (n < 0))
    | some x =>
      .finite (decide (n < 0)) (stripZeros (shortestInteger x))
        ((decimalDigits (shortestInteger x)).length : Nat)

/-- The number value of the integer `n`, as a member of a correlation tuple. -/
def JSVal.num (n : Int) : JSVal := .number (.ofInt n)

/-- The operation `Number::toString(x)` for radix 10: the digits of `s` followed by zeros
when `k ≤ n ≤ 21`; with a decimal point after `n` digits when `0 < n ≤ 21`; after `0.` and
`-n` zeros when `-6 < n ≤ 0`; and in exponent form otherwise. -/
def JSDouble.toChars : JSDouble → List Char
  | .nan => "NaN".data
  | .zero _ => "0".data
  | .infinity false => "Infinity".data
  | .infinity true => "-Infinity".data
  | .finite negative s n =>
    let ds := decimalDigits s
    let k : Int := (ds.length : Nat)
    let body : List Char :=
      if k ≤ n ∧ n ≤ 21 then ds ++ List.replicate (n - k).toNat '0'
      else if 0 < n ∧ n ≤ 21 then ds.take n.toNat ++ '.' :: ds.drop n.toNat
      else if -6 < n ∧ n ≤ 0 then '0' :: '.' :: (List.replicate (-n).toNat '0' ++ ds)
      else
        let exponent := (if n - 1 < 0 then '-' else '+') :: decimalDigits (n - 1).natAbs
        if k = 1 then ds ++ 'e' :: exponent
        else ds.take 1 ++ '.' :: (ds.drop 1 ++ 'e' :: exponent)
    if negative then '-' :: body else body

/-! ## `parseInt` -/

/-- Characters skipped by `parseInt` before the number (white space and line terminators). -/
def isStrWhiteSpaceChar (c : Char) : Bool :=
  let n := c.toNat
  n == 9 || n == 10 || n == 11 || n == 12 || n == 13 || n == 32 || n == 0xA0 ||
  n == 0x1680 || (0x2000 ≤ n && n ≤ 0x200A) || n == 0x2028 || n == 0x2029 ||
  n == 0x202F || n == 0x205F || n == 0x3000 || n == 0xFEFF

/-- Value of a character as a digit (`0-9`, `a-z`, `A-Z`), when it is one. -/
def digitValue (c : Char) : Option Nat :=
  let n := c.toNat
  if 48 ≤ n ∧ n ≤ 57 then some (n - 48)
  else if 97 ≤ n ∧ n ≤ 122 then some (n - 97 + 10)
  else if 65 ≤ n ∧ n ≤ 90 then some (n - 65 + 10)
  else none

/-- Reads the longest run of radix-`r` digits at the head of the input; `acc` is the value
read so far and `seen` tells whether a digit has been read. -/
def readDigits (r : Nat) : List Char → Nat → Bool → Option Nat
  | [], acc, seen => if seen then some acc else none
  | c :: cs, acc, seen =>
    match digitValue c with
    | some d => if d < r then readDigits r cs (acc * r + d) true
                else if seen then some acc else none
    | none => if seen then some acc else none

/-- Drops the leading characters `parseInt` ignores. -/
def skipWhiteSpace : List Char → List Char
  | [] => []
  | c :: cs => if isStrWhiteSpaceChar c then skipWhiteSpace cs else c :: cs

/-- The digits part of `parseInt` without a radix argument: a `0x`/`0X` head selects
radix 16, otherwise radix 10. -/
def parseUnsigned : List Char → Option Nat
  | '0' :: 'x' :: cs => readDigits 16 cs 0 false
  | '0' :: 'X' :: cs => readDigits 16 cs 0 false
  | cs => readDigits 10 cs 0 false

/-- The number `parseInt` returns for the sign and the integer read: `NaN` when no digit
was read, otherwise the number value of the signed integer, which is `-0` for a zero
after `-`.  Every digit read counts (the language lets an implementation take the decimal
digits after the 20th for zeros; the engines read them all). -/
def signedNumber (negative : Bool) : Option Nat → JSNumber
  | none => .nan
  | some n =>
    match roundToDouble n with
    | none => .infinity negative
    | some v =>
      if v = 0 then (if negative then .negZero else .int 0)
      else if negative then .int (-(v : Int)) else .int v

/-- The text of `s` after its leading white space and one sign character. -/
def numeralText (s : List Char) : List Char :=
  match skipWhiteSpace s with
  | '-' :: cs => cs
  | '+' :: cs => cs
  | cs => cs

/-- The first character of `s` after its leading white space is `-`. -/
def hasMinusSign (s : List Char) : Bool :=
  match skipWhiteSpace s with
  | '-' :: _ => true
  | _ => false

/-- The function `parseInt(string)` on a string: white space, sign, digits. -/
def parseIntChars (s : List Char) : JSNumber :=
  signedNumber (hasMinusSign s) (parseUnsigned (numeralText s))

/-- The operation `ToString(v)`. -/
def JSVal.toJSString : JSVal → Outcome String
  | .undefined => .returned "undefined"
  | .null => .returned "null"
  | .bool true => .returned "true"
  | .bool false => .returned "false"
  | .number x => .returned (String.mk x.toChars)
  | .str s => .returned s
  | .other _ r => r

/-- The function `parseInt(v)` with one argument: the argument is converted to a string,
which can raise, and the string is read. -/
def parseInt (v : JSVal) : Outcome JSNumber :=
  match v.toJSString with
  | .raised e => .raised e
  | .returned s => .returned (parseIntChars s.data)

/-- The class of the decimal digits `0-9`. -/
def isDecimalDigitChar (c : Char) : Bool := decide (48 ≤ c.toNat ∧ c.toNat ≤ 57)

/-- The class of the hexadecimal digits `0-9`, `a-f`, `A-F`. -/
def isHexDigitChar (c : Char) : Bool :=
  isDecimalDigitChar c || decide (97 ≤ c.toNat ∧ c.toNat ≤ 102) ||
    decide (65 ≤ c.toNat ∧ c.toNat ≤ 70)

/-- The text begins with a digit that `parseInt` reads: a hexadecimal digit after a head
`0x` or `0X`, a decimal digit otherwise. -/
def beginsWithDigit : List Char → Bool
  | '0' :: 'x' :: cs => (cs.head?.map isHexDigitChar).getD false
  | '0' :: 'X' :: cs => (cs.head?.map isHexDigitChar).getD false
  | c :: _ => isDecimalDigitChar c
  | [] => false

/-- The integer that a list of decimal digits denotes after the digits that gave `a`. -/
def digitsValue (a : Nat) (p : List Char) : Nat :=
  p.foldl (fun v c => v * 10 + (c.toNat - 48)) a

/-- The text after the leading digits of a number in its string form: nothing, a decimal
point, or the exponent mark. -/
def NumeralEnd (rest : List Char) : Prop :=
  rest = [] ∨ (∃ cs, rest = '.' :: cs) ∨ (∃ cs, rest = 'e' :: cs)

/-! ## Regular expressions, as far as `checkTLSpec` needs them -/

/-- Regular expressions over characters. -/
inductive Regex where
  | none
  | eps
  | chr (c : Char)
  | range (lo hi : Char)
  | seq (a b : Regex)
  | alt (a b : Regex)
  | star (a : Regex)
  deriving Repr

namespace Regex

/-- The literal `s`. -/
def lit : List Char → Regex
  | [] => eps
  | c :: cs => seq (chr c) (lit cs)

/-- One or more: `a+`. -/
def plus (a : Regex) : Regex := seq a (star a)

/-- Zero or one: `a?`. -/
def opt (a : Regex) : Regex := alt a eps

/-- Whether the expression matches the empty string. -/
def nullable : Regex → Bool
  | none => false
  | eps => true
  | chr _ => false
  | range _ _ => false
  | seq a b => nullable a && nullable b
  | alt a b => nullable a || nullable b
  | star _ => true

/-- Brzozowski derivative: what remains to be matched after reading `c`. -/
def deriv : Regex → Char → Regex
  | none, _ => none
  | eps, _ => none
  | chr d, c => if c = d then eps else none
  | range lo hi, c => if lo.toNat ≤ c.toNat ∧ c.toNat ≤ hi.toNat then eps else none
  | seq a b, c =>
    if nullable a then alt (seq (deriv a c) b) (deriv b c) else seq (deriv a c) b
  | alt a b, c => alt (deriv a c) (deriv b c)
  | star a, c => seq (deriv a c) (star a)

/-- Whether the expression matches the whole input. -/
def matchesAll (r : Regex) : List Char → Bool
  | [] => nullable r
  | c :: cs => matchesAll (deriv r c) cs

end Regex

/-- Line terminators of the JavaScript regular-expression grammar. -/
def isLineTerminator (c : Char) : Bool :=
  c.toNat == 10 || c.toNat == 13 || c.toNat == 0x2028 || c.toNat == 0x2029

/-- Whether `r` matches a segment starting at the head of the input and ending where `$`
holds under the `m` flag: at the end of the input or just before a line terminator. -/
def matchToLineEnd (r : Regex) : List Char → Bool
  | [] => r.nullable
  | c :: cs => (r.nullable && isLineTerminator c) || matchToLineEnd (r.deriv c) cs

/-- The method `/^r$/gm.test(s)` on a fresh expression object (`lastIndex = 0`): a match is
searched for from every position where `^` holds under the `m` flag, that is at the start
of the input and just after each line terminator.  `atStart` tells whether `^` holds at the
head of the remaining input. -/
def testMultiline (r : Regex) : Bool → List Char → Bool
  | atStart, [] => atStart && r.nullable
  | atStart, c :: cs =>
    (atStart && matchToLineEnd r (c :: cs)) || testMultiline r (isLineTerminator c) cs

/-- The class `[0-9]`. -/
def reDigit : Regex := .range '0' '9'

/-- The class `[a-z0-9]`. -/
def reLowerAlnum : Regex := .alt (.range 'a' 'z') (.range '0' '9')

/-- Body of the expression of `checkTLSpec`, between `^` and `$`:
`urn:dvb:css:timeline:(mpd:period:rel:[0-9]+(:[a-z0-9]+)?|pts|ct|temi:[0-9]+:[0-9]+)`. -/
def tlSpecRegex : Regex :=
  .seq (.lit "urn:dvb:css:timeline:".data)
    (.alt (.seq (.lit "mpd:period:rel:".data)
            (.seq reDigit.plus (Regex.opt (.seq (.chr ':') reLowerAlnum.plus))))
      (.alt (.lit "pts".data)
        (.alt (.lit "ct".data)
          (.seq (.lit "temi:".data)
            (.seq reDigit.plus (.seq (.chr ':') reDigit.plus))))))

/-- The function `checkTLSpec(tls)`: `regex.test(tls)` with the expression written with the
flags `gm`.  The expression object is created by the call, so the search starts at
index 0. -/
def checkTLSpec (tls : String) : Bool :=
  testMultiline tlSpecRegex true tls.data

/-! ## Media elements -/

/-- What the code reads from a media element: `tagName`, `getAttribute("type")` (`none` when
the attribute is missing), `playState`, `readyState`, `HAVE_CURRENT_DATA` (`none` when the
member is undefined) and `currentSrc`. -/
structure Element where
  tagName : String
  typeAttr : Option String
  playState : Option Int
  readyState : Option Int
  HAVE_CURRENT_DATA : Option Int
  currentSrc : String
  deriving DecidableEq, Repr

/-- A value passed where a media element is expected. -/
inductive Media where
  /-- A falsy value: `undefined`, `null`. -/
  | absent
  /-- A truthy value that has no `tagName` member, such as an empty object. -/
  | nonElement
  /-- A truthy value with the members of `Element`. -/
  | element (e : Element)
  deriving DecidableEq, Repr

/-- JavaScript truthiness of a media argument. -/
def Media.truthy : Media → Bool
  | .absent => false
  | .nonElement => true
  | .element _ => true

/-- The method `String.prototype.toLowerCase`, as far as a comparison with the words
`object`, `video` and `audio` can tell: no character outside `A-Z` lower-cases to one of
their letters. -/
def toLowerCase (s : String) : List Char := s.data.map Char.toLower

/-- The method `s.indexOf(pat)`, searching from the head of `s`, whose first character has
index `i`; `-1` when `pat` does not occur. -/
def indexOfFrom (pat : List Char) : List Char → Int → Int
  | [], i => if pat.isEmpty then i else -1
  | c :: cs, i => if pat.isPrefixOf (c :: cs) then i else indexOfFrom pat cs (i + 1)

/-- The method `s.indexOf(pat)`. -/
def indexOf (s pat : String) : Int := indexOfFrom pat.data s.data 0

/-- Comparison `a >= b` of two numbers, false when either is `undefined`. -/
def jsGe : Option Int → Option Int → Bool
  | some a, some b => decide (b ≤ a)
  | _, _ => false

/-- Comparison `a == n` of a member with a number literal. -/
def jsEqNum : Option Int → Int → Bool
  | some a, n => a == n
  | none, _ => false

/-- The function `inferTLSpecFromMedia(o)`; `none` stands for the returned `false`. -/
def inferTLSpecFromMedia : Media → Outcome (Option String)
  | .absent => .returned none
  | .nonElement => .raised .typeError
  | .element o =>
    if toLowerCase o.tagName = "object".data then
      match o.typeAttr with
      | some "video/broadcast" => .returned (some "urn:dvb:css:timeline:pts")
      | some "video/mp4" => .returned (some "urn:dvb:css:timeline:ct")
      | some "audio/mp4" => .returned (some "urn:dvb:css:timeline:ct")
      | some "application/dash+xml" =>
        .returned (some "urn:dvb:css:timeline:mpd:period:rel:1000")
      | _ => .returned none
    else if toLowerCase o.tagName = "video".data ∨ toLowerCase o.tagName = "audio".data then
      if indexOf o.currentSrc ".mp4" > 0 then
        .returned (some "urn:dvb:css:timeline:ct")
      else if indexOf o.currentSrc ".mpd" > 0 then
        .returned (some "urn:dvb:css:timeline:mpd:period:rel:1000")
      else .returned none
    else .returned none

/-- The test `!o instanceof HTMLElement` that opens `checkMediaState`.  It parses as
`(!o) instanceof HTMLElement`: the left operand is a boolean, which is an instance of
nothing, so the test is false for every `o`. -/
def notInstanceofHTMLElement (_o : Media) : Bool := false

/-- The function `checkMediaState(o)`. -/
def checkMediaState (o : Media) : Outcome Bool :=
  if notInstanceofHTMLElement o then .returned false
  else
    match o with
    | .absent => .raised .typeError
    | .nonElement => .raised .typeError
    | .element e =>
      if toLowerCase e.tagName = "object".data then
        if e.typeAttr = some "video/broadcast" then
          .returned (jsEqNum e.playState 2 || jsEqNum e.playState 1)
        else
          .returned (jsGe e.playState (some 1) && jsGe (some 4) e.playState)
      else if toLowerCase e.tagName = "video".data ∨ toLowerCase e.tagName = "audio".data then
        .returned (jsGe e.readyState e.HAVE_CURRENT_DATA)
      else .returned false

/-! ## Correlation timestamps -/

/-- The object built by `new CorrelationTimestamp(m, o)`. -/
structure CorrelationTimestamp where
  tlvMaster : JSNumber
  tlvOther : JSNumber
  deriving DecidableEq, Repr

/-- The four members `translate_correlation_ts` reads from a correlation tuple. -/
structure Correlation where
  point : JSVal
  materialPoint : JSVal
  parentTime : JSVal
  childTime : JSVal
  deriving DecidableEq, Repr

/-- The two assignments `ts.tlvMaster = parseInt(m); ts.tlvOther = parseInt(o);` in this
order: an exception raised by the first or, after it, by the second leaves the function. -/
def CorrelationTimestamp.ofParsed (m o : Outcome JSNumber) : Outcome CorrelationTimestamp :=
  match m with
  | .raised e => .raised e
  | .returned a =>
    match o with
    | .raised e => .raised e
    | .returned b => .returned ⟨a, b⟩

/-- The function `translate_correlation_ts(cor)`; `none` is an absent (falsy) argument, and a
truthy argument is given by the four members the function reads of it (`undefined` for a
member that is missing). -/
def translate_correlation_ts : Option Correlation → Outcome CorrelationTimestamp
  | none => .returned ⟨.int 0, .int 0⟩
  | some cor =>
    if cor.point.truthy && cor.materialPoint.truthy then
      CorrelationTimestamp.ofParsed (parseInt cor.point) (parseInt cor.materialPoint)
    else if cor.parentTime.truthy && cor.childTime.truthy then
      CorrelationTimestamp.ofParsed (parseInt cor.parentTime) (parseInt cor.childTime)
    else .returned ⟨.int 0, .int 0⟩

/-! ## The host MediaSynchroniser and the instance -/

/-- Operations of the host MediaSynchroniser that the manager invokes. -/
inductive HostOp where
  | initMediaSynchroniser
  | addMediaObject
  | removeMediaObject
  | enableInterDeviceSync
  | disableInterDeviceSync
  deriving DecidableEq, Repr

/-- One invocation of a host operation, with its arguments.  The completion callbacks
passed to `enableInterDeviceSync` and `disableInterDeviceSync` are the functions
`onInterDeviceSyncEnabled` and `onInterDeviceSyncDisabled` below. -/
inductive HostCall where
  | initMediaSynchroniser (master : Media) (tl_spec : String)
  | addMediaObject (obj : Media) (tl_spec : String) (cor : CorrelationTimestamp)
  | removeMediaObject (obj : Media)
  | enableInterDeviceSync
  | disableInterDeviceSync
  deriving DecidableEq, Repr

/-- The operation a host call invokes. -/
def HostCall.op : HostCall → HostOp
  | .initMediaSynchroniser _ _ => .initMediaSynchroniser
  | .addMediaObject _ _ _ => .addMediaObject
  | .removeMediaObject _ => .removeMediaObject
  | .enableInterDeviceSync => .enableInterDeviceSync
  | .disableInterDeviceSync => .disableInterDeviceSync

/-- The object returned by `oipfObjectFactory.createMediaSynchroniser()`, as the manager sees
it: the number read from `currentTime`, the operations that raise when they are invoked,
and whether the handler of the manager is stored in the slots `onerror` and `onError`. -/
structure MediaSynchroniser where
  currentTime : Int
  failing : List HostOp
  onerror : Bool
  onError : Bool
  deriving DecidableEq, Repr

/-- An argument of a notification. -/
inductive Arg where
  | num (n : Int)
  | bool (b : Bool)
  | str (s : String)
  deriving DecidableEq, Repr

/-- One call of `emit(name, ...args)`. -/
structure Emission where
  name : Nat
  args : List Arg
  deriving DecidableEq, Repr

/-- A `SyncManager` instance: the fields `syncMan` and `masterMedia` (`none` and `absent` for
`null` and `undefined`); whether callable members `log` and `removeAudioTrack` can be
reached from the instance (the source file and the inherited `EventEmitter` define
neither, so they are there only when the caller has added them); the event names that have
a listener; and the traces of `emit` calls, host invocations and logged messages. -/
structure SyncManager where
  syncMan : Option MediaSynchroniser
  masterMedia : Media
  hasLog : Bool
  hasRemoveAudioTrack : Bool
  listeners : List Nat
  emitted : List Emission
  hostCalls : List HostCall
  logged : List String
  deriving DecidableEq, Repr

namespace SyncManager

/-- Event name constant `SyncManager.EVT_CII_DISABLED`. -/
def EVT_CII_DISABLED : Nat := 0

/-- Event name constant `SyncManager.EVT_CII_ENABLED`. -/
def EVT_CII_ENABLED : Nat := 1

/-- Event name constant `SyncManager.EVT_ERROR`. -/
def EVT_ERROR : Nat := 2

/-- Event name constant `SyncManager.EVT_MS_ERROR`. -/
def EVT_MS_ERROR : Nat := 3

/-- The inherited `emit(name, ...args)`: the call is appended to the trace.  Listeners are
taken to return normally and not to call back into the instance. -/
def emit (self : SyncManager) (name : Nat) (args : List Arg) : SyncManager :=
  { self with emitted := self.emitted ++ [⟨name, args⟩] }

/-- The call `this.log(msg)`: a `TypeError` when no member `log` is reachable; a member
supplied by the caller is taken to record the message and return. -/
def log (self : SyncManager) (msg : String) : Outcome Unit × SyncManager :=
  if self.hasLog then (.returned (), { self with logged := self.logged ++ [msg] })
  else (.raised .typeError, self)

/-- An invocation `this.syncMan.op(args)` on the host object `sm`: the invocation is appended
to the trace and raises when `sm` lists the operation as failing. -/
def host (self : SyncManager) (sm : MediaSynchroniser) (call : HostCall) :
    Outcome Unit × SyncManager :=
  let self1 := { self with hostCalls := self.hostCalls ++ [call] }
  if call.op ∈ sm.failing then (.raised .hostError, self1) else (.returned (), self1)

end SyncManager

/-- Truthiness of a string argument that may be missing: `undefined` and `""` are falsy. -/
def truthyStr : Option String → Bool
  | none => false
  | some s => s.data != []

/-- The string a missing-or-present string argument concatenates as. -/
def strOrUndefined : Option String → String
  | none => "undefined"
  | some s => s

/-- The method `Number.prototype.toString` on the result of `parseInt`. -/
def JSNumber.toJSString : JSNumber → String
  | .nan => "NaN"
  | .int n => String.mk (JSDouble.ofInt n).toChars
  | .negZero => "0"
  | .infinity false => "Infinity"
  | .infinity true => "-Infinity"

/-- The method `CorrelationTimestamp.prototype.toString`. -/
def CorrelationTimestamp.toJSString (ts : CorrelationTimestamp) : String :=
  "tlvMaster = " ++ ts.tlvMaster.toJSString ++ "; tlvOther = " ++ ts.tlvOther.toJSString

/-- The `switch (lastError)` of the error handler: the description and the transience flag
of each code, `("unknown", false)` for a code with no `case`. -/
def errorInfo (lastError : Int) : String × Bool :=
  if lastError = 1 then
    ("Synchronization is unachievable because the terminal could not delay presentation of " ++
     "content (represented by a media object added using the addMediaObject() method) " ++
     "sufficiently to synchronize it with the master media. For example: the buffer size for " ++
     "media synchronization is not sufficient.", true)
  else if lastError = 2 then
    ("The presentation of media object(that was added using the addMediaObject() method) " ++
     "failed. The specific reason is given by the error handler of that media object. ", true)
  else if lastError = 3 then
    ("The media or the selected timeline for the media could not be found or the media " ++
     "timeline is no longer present (for media represented by a media object that was added " ++
     "using the addMediaObject() method). ", true)
  else if lastError = 4 then
    (" Media object is already associated with the MediaSynchroniser.", true)
  else if lastError = 5 then
    ("The correlation timestamp set for a media object is null or has an invalid format.", true)
  else if lastError = 6 then
    ("Inter-device synchronization with a master terminal failed because of unavailability, e.g. " ++
     "an endpoint is not available or disappeared. Applications should rediscover available " ++
     "terminals as defined in clause 14.7.2 before continuing with inter-device synchronization. ", false)
  else if lastError = 7 then
    (" The call failed because the MediaSynchroniser is not yet initialized.", true)
  else if lastError = 8 then
    ("The media object referenced as an argument in the call needed to have already been " ++
     "added to the MediaSynchroniser using the addMediaObject() method, but it has not " ++
     "been. ", true)
  else if lastError = 9 then
    ("The media object (that was passed using the addMediaObject() method) is not in a " ++
     "suitable state to participate in synchronization. See clause 9.7.1. ", true)
  else if lastError = 10 then
    ("Inter-device synchronization with a master terminal failed because of a fault in protocol " ++
     "interaction, e.g. the master terminal did not provide required messages or data. " ++
     "Applications can consider trying again. ", false)
  else if lastError = 11 then
    ("Synchronization is unachievable because the terminal could not present the content " ++
     "(represented by a media object added using the addMediaObject() method) " ++
     "sufficiently early to synchronize it with the master media. ", true)
  else if lastError = 13 then
    ("The method call failed because the MediaSynchroniser is in a permanent error state or " ++
     "because it has been replaced by a newer initialized MediaSynchroniser. ", true)
  else if lastError = 14 then
    ("The presentation of the master media (that was specified as an argument when the " ++
     "initMediaSynchroniser() method was called) failed. The specific reason is given by " ++
     "the error handler of that media object. ", false)
  else if lastError = 15 then
    ("The master media object or the selected timeline for a media object could not be found " ++
     "or the media timeline is no longer present. ", false)
  else if lastError = 16 then
    (" The master media object is not in a suitable state to participate in synchronization. See " ++
     "clause 9.7.1. ", false)
  else if lastError = 17 then
    (" The method call failed because the MediaSynchroniser is already initialized.", true)
  else if lastError = 18 then
    ("The MediaSynchroniser has been replaced by a new MediaSynchroniser being " ++
     "initialized. ", false)
  else if lastError = 19 then
    ("The master terminal has reported that the presentationStatus of the master media has " ++
     "changed to 'transitioning' (see clause 13.6.3). ", true)
  else ("unknown", false)

/-! ## The methods -/

namespace SyncManager

/-- The tail of `setMasterMedia` once every check has passed, with the timeline specifier
`tl` that was supplied or inferred: record the master, invoke the host, log, return `true`. -/
def initWith (self : SyncManager) (sm : MediaSynchroniser) (master : Media) (tl : String) :
    Outcome Bool × SyncManager :=
  let self1 := { self with masterMedia := master }
  match self1.host sm (.initMediaSynchroniser master tl) with
  | (.raised e, self2) => (.raised e, self2)
  | (.returned _, self2) =>
    match self2.log ("initMediaSync: " ++ tl) with
    | (.raised e, self3) => (.raised e, self3)
    | (.returned _, self3) => (.returned true, self3)

/-- The method `SyncManager.prototype.setMasterMedia(master, tl_spec)`. -/
def setMasterMedia (self : SyncManager) (master : Media) (tl_spec : Option String) :
    Outcome Bool × SyncManager :=
  match self.syncMan with
  | none =>
    (.returned false,
      self.emit EVT_ERROR [.str "Internal HbbTV MediaSynchroniser object is null."])
  | some sm =>
    if self.masterMedia.truthy then
      (.returned false,
        self.emit EVT_ERROR [.str "The media synchroniser already has a master element."])
    else if !master.truthy then
      (.returned false,
        self.emit EVT_ERROR [.str "Need to call with a supported HbbTV media element."])
    else
      match checkMediaState master with
      | .raised e => (.raised e, self)
      | .returned false =>
        (.returned false,
          self.emit EVT_ERROR [.str ("The media element is not in a sufficient state to get " ++
            "a master in HbbTV media synchronisation.")])
      | .returned true =>
        if truthyStr tl_spec && !checkTLSpec (strOrUndefined tl_spec) then
          (.returned false,
            self.emit EVT_ERROR
              [.str ("The timeline spec is not valid: " ++ strOrUndefined tl_spec)])
        else if !truthyStr tl_spec then
          match inferTLSpecFromMedia master with
          | .raised e => (.raised e, self)
          | .returned inferred =>
            if !truthyStr inferred then
              (.returned false,
                self.emit EVT_ERROR
                  [.str "Can't infer timeline spec from given media element."])
            else self.initWith sm master (strOrUndefined inferred)
        else self.initWith sm master (strOrUndefined tl_spec)

/-- The first function assigned to `SyncManager.prototype.addMediaObject`, with three
parameters.  The later assignment to the same member replaces it, so no call reaches it. -/
def addMediaObject_shadowed (self : SyncManager) (obj : Media) (tl_spec : Option String)
    (cor : Option Correlation) : Outcome Bool × SyncManager :=
  match self.syncMan with
  | none =>
    (.returned false,
      self.emit EVT_ERROR [.str "Internal HbbTV MediaSynchroniser object is null."])
  | some sm =>
    if !self.masterMedia.truthy then
      (.returned false,
        self.emit EVT_ERROR
          [.str "The media synchroniser is not initialised with a master element."])
    else if !obj.truthy then
      (.returned false,
        self.emit EVT_ERROR [.str "Need to call with a supported HbbTV media element."])
    else
      match checkMediaState obj with
      | .raised e => (.raised e, self)
      | .returned false =>
        (.returned false,
          self.emit EVT_ERROR [.str ("The media element is not in a sufficient state to " ++
            "participate in HbbTV media synchronisation.")])
      | .returned true =>
        let finish (tl : String) : Outcome Bool × SyncManager :=
          match translate_correlation_ts cor with
          | .raised e => (.raised e, self)
          | .returned ts =>
            match self.log ("Add media object with " ++ tl ++ " : cor " ++ ts.toJSString) with
            | (.raised e, self1) => (.raised e, self1)
            | (.returned _, self1) =>
              match self1.host sm (.addMediaObject obj tl ts) with
              | (.raised e, self2) => (.raised e, self2)
              | (.returned _, self2) => (.returned true, self2)
        if truthyStr tl_spec && !checkTLSpec (strOrUndefined tl_spec) then
          (.returned false,
            self.emit EVT_ERROR
              [.str ("The timeline spec is not valid: " ++ strOrUndefined tl_spec)])
        else if !truthyStr tl_spec then
          match inferTLSpecFromMedia obj with
          | .raised e => (.raised e, self)
          | .returned inferred =>
            if !truthyStr inferred then
              (.returned false,
                self.emit EVT_ERROR
                  [.str "Can't infer timeline spec from given media element."])
            else finish (strOrUndefined inferred)
        else finish (strOrUndefined tl_spec)

/-- The method `SyncManager.prototype.addMediaObject` as callers reach it: the second
function assigned to that member, which has one parameter `obj` and invokes the host
`removeMediaObject`.  The arguments `tl_spec` and `cor` of a call are not read. -/
def addMediaObject (self : SyncManager) (obj : Media) (_tl_spec : Option String)
    (_cor : Option Correlation) : Outcome Bool × SyncManager :=
  match self.syncMan with
  | none =>
    (.returned false,
      self.emit EVT_ERROR [.str "Internal HbbTV MediaSynchroniser object is null."])
  | some sm =>
    if !obj.truthy then
      (.returned false,
        self.emit EVT_ERROR [.str "Need to call with a supported HbbTV media element."])
    else
      match self.host sm (.removeMediaObject obj) with
      | (.raised e, self1) => (.raised e, self1)
      | (.returned _, self1) => (.returned true, self1)

/-- The completion callback `enableCII` passes to the host. -/
def onInterDeviceSyncEnabled (self : SyncManager) : Outcome Unit × SyncManager :=
  match self.log "enableCII: inter-device sync enabled." with
  | (.raised e, self1) => (.raised e, self1)
  | (.returned _, self1) => (.returned (), self1.emit EVT_CII_ENABLED [])

/-- The completion callback `disableCII` passes to the host. -/
def onInterDeviceSyncDisabled (self : SyncManager) : Outcome Unit × SyncManager :=
  (.returned (), self.emit EVT_CII_DISABLED [])

/-- The method `SyncManager.prototype.enableCII()`. -/
def enableCII (self : SyncManager) : Outcome Bool × SyncManager :=
  match self.syncMan with
  | none => (.returned false, self)
  | some sm =>
    match self.host sm .enableInterDeviceSync with
    | (.raised e, self1) => (.raised e, self1)
    | (.returned _, self1) =>
      match self1.log "enableCII called enableInterDeviceSync." with
      | (.raised e, self2) => (.raised e, self2)
      | (.returned _, self2) => (.returned true, self2)

/-- The method `SyncManager.prototype.disableCII()`; `none` is the result `undefined` of a
function that ends without a `return`. -/
def disableCII (self : SyncManager) : Outcome (Option Bool) × SyncManager :=
  match self.syncMan with
  | none => (.returned (some false), self)
  | some sm =>
    match self.host sm .disableInterDeviceSync with
    | (.raised e, self1) => (.raised e, self1)
    | (.returned _, self1) => (.returned none, self1)

/-- The method `SyncManager.prototype.currentTime()`; `none` is the result `null`. -/
def currentTime (self : SyncManager) : Outcome (Option Int) × SyncManager :=
  match self.syncMan with
  | some sm => (.returned (some sm.currentTime), self)
  | none => (.returned none, self)

/-- The `try` block of `stop`. -/
def stopBody (self : SyncManager) : Outcome Unit × SyncManager :=
  let self1 := { self with listeners := [] }
  if !self1.hasRemoveAudioTrack then (.raised .typeError, self1)
  else
    match self1.syncMan with
    | none => (.raised .typeError, self1)
    | some sm =>
      match self1.host sm (.removeMediaObject self1.masterMedia) with
      | (.raised e, self2) => (.raised e, self2)
      | (.returned _, self2) =>
        (.returned (), { self2 with masterMedia := .absent, syncMan := none })

/-- The text of the exception `e` in `"stop(): " + e`, which is the name and the message of
`e`.  The message of a `TypeError` is worded by the engine: the wording here is that of V8
for the two places of the `try` block that raise one, the call of the missing member
`removeAudioTrack` and the read of `removeMediaObject` from the `null` in `syncMan`.  An
exception of the host is taken to be an `Error` without a message. -/
def stopErrorText (self : SyncManager) : JsError → String
  | .typeError =>
    if self.hasRemoveAudioTrack then
      "TypeError: Cannot read properties of null (reading 'removeMediaObject')"
    else "TypeError: this.removeAudioTrack is not a function"
  | .hostError => "Error"
  | .error msg => if msg = "" then "Error" else "Error: " ++ msg

/-- The method `SyncManager.prototype.stop()`: the `try` block, and the `catch` block
`this.log("stop(): " + e)` when it raises. -/
def stop (self : SyncManager) : Outcome Unit × SyncManager :=
  match self.stopBody with
  | (.returned _, self1) => (.returned (), self1)
  | (.raised e, self1) => self1.log ("stop(): " ++ self1.stopErrorText e)

/-- The function the constructor stores in `onerror` and `onError` of the host object. -/
def onError (self : SyncManager) (lastError : Int) : Outcome Unit × SyncManager :=
  let errorDescription := (errorInfo lastError).1
  let isTransient := (errorInfo lastError).2
  match self.log errorDescription with
  | (.raised e, self1) => (.raised e, self1)
  | (.returned _, self1) =>
    (.returned (),
      self1.emit EVT_MS_ERROR [.num lastError, .bool isTransient, .str errorDescription])

end SyncManager

/-- What `oipfObjectFactory.createMediaSynchroniser()` does: it raises, returns a falsy value,
or returns an object, whose member `initMediaSynchroniser` is a function or not. -/
inductive FactoryResult where
  | raises
  | falsy
  | object (initIsFunction : Bool) (sm : MediaSynchroniser)
  deriving DecidableEq, Repr

/-- The constructor `new SyncManager()`. -/
def SyncManager.new (factory : FactoryResult) : Outcome SyncManager :=
  match factory with
  | .raises => .raised (.error "Can't instantiate Media Synchroniser")
  | .falsy => .raised (.error "No MediaSynchroniser available")
  | .object false _ => .raised (.error "No MediaSynchroniser available")
  | .object true sm =>
    .returned
      { syncMan := some { sm with onerror := true, onError := true }
        masterMedia := .absent
        hasLog := false
        hasRemoveAudioTrack := false
        listeners := []
        emitted := []
        hostCalls := []
        logged := [] }

/-! ## Sequences of calls on one instance -/

/-- What can happen to an instance: the caller invokes a method, registers a listener or
assigns a function to `log` or `removeAudioTrack`; the host invokes the error handler or a
completion callback. -/
inductive Call where
  | setMasterMedia (master : Media) (tl_spec : Option String)
  | addMediaObject (obj : Media) (tl_spec : Option String) (cor : Option Correlation)
  | enableCII
  | disableCII
  | currentTime
  | stop
  | addListener (name : Nat)
  | assignLog
  | assignRemoveAudioTrack
  | hostError (lastError : Int)
  | interDeviceSyncEnabled
  | interDeviceSyncDisabled
  deriving DecidableEq, Repr

/-- The instance after one call, whether the call returned or raised. -/
def SyncManager.step (self : SyncManager) : Call → SyncManager
  | .setMasterMedia master tl_spec => (self.setMasterMedia master tl_spec).2
  | .addMediaObject obj tl_spec cor => (self.addMediaObject obj tl_spec cor).2
  | .enableCII => self.enableCII.2
  | .disableCII => self.disableCII.2
  | .currentTime => self.currentTime.2
  | .stop => self.stop.2
  | .addListener name => { self with listeners := self.listeners ++ [name] }
  | .assignLog => { self with hasLog := true }
  | .assignRemoveAudioTrack => { self with hasRemoveAudioTrack := true }
  | .hostError lastError => (self.onError lastError).2
  | .interDeviceSyncEnabled => self.onInterDeviceSyncEnabled.2
  | .interDeviceSyncDisabled => self.onInterDeviceSyncDisabled.2

/-- The instance after a sequence of calls. -/
def SyncManager.run (self : SyncManager) (calls : List Call) : SyncManager :=
  calls.foldl SyncManager.step self

/-- How many times the host `initMediaSynchroniser` has been invoked. -/
def initCount (calls : List HostCall) : Nat :=
  (calls.filter (fun c => c.op == .initMediaSynchroniser)).length

/-! ## Invariants and example inputs -/

/-- Invariant that holds from the moment a master has been recorded: the resource is
released or a master is recorded. -/
def MasterLocked (s : SyncManager) : Prop :=
  s.syncMan = none ∨ s.masterMedia.truthy = true

/-- Invariant of every instance: the host initialisation has not been invoked, or it has
been invoked once and the instance is locked. -/
def InitOnce (s : SyncManager) : Prop :=
  initCount s.hostCalls = 0 ∨ (initCount s.hostCalls = 1 ∧ MasterLocked s)

/-- Two instances agree on the resource, the master and the host trace. -/
def SameCore (s t : SyncManager) : Prop :=
  t.syncMan = s.syncMan ∧ t.masterMedia = s.masterMedia ∧ t.hostCalls = s.hostCalls

/-- The call leaves the resource and the master as they were, or releases the resource, and
it does not invoke the host initialisation. -/
def KeepsLock (s t : SyncManager) : Prop :=
  (t.syncMan = none ∨ (t.syncMan = s.syncMan ∧ t.masterMedia = s.masterMedia)) ∧
  initCount t.hostCalls = initCount s.hostCalls

/-- The master `m` is still the recorded one, unless the resource has been released. -/
def Retains (m : Media) (s : SyncManager) : Prop :=
  s.syncMan = none ∨ s.masterMedia = m

/-- An armed instance: resource present, a broadcast object recorded as master. -/
def armedExample : SyncManager :=
  { syncMan := some ⟨0, [], true, true⟩
    masterMedia := .element ⟨"object", some "video/broadcast", some 2, none, none, ""⟩
    hasLog := false
    hasRemoveAudioTrack := false
    listeners := []
    emitted := []
    hostCalls := [.initMediaSynchroniser
      (.element ⟨"object", some "video/broadcast", some 2, none, none, ""⟩)
      "urn:dvb:css:timeline:pts"]
    logged := [] }

/-- The host object of the examples: no failing operation. -/
def hostExample : MediaSynchroniser := ⟨0, [], false, false⟩

/-- The instance `new SyncManager()` yields for `hostExample`: handler installed, no master,
no member added by the caller. -/
def freshExample : SyncManager :=
  { syncMan := some ⟨0, [], true, true⟩
    masterMedia := .absent
    hasLog := false
    hasRemoveAudioTrack := false
    listeners := []
    emitted := []
    hostCalls := []
    logged := [] }

/-- A broadcast object in the presenting state. -/
def broadcastObject : Media :=
  .element ⟨"object", some "video/broadcast", some 2, none, none, ""⟩

/-- A native video element with enough data, playing the given source. -/
def videoElement (src : String) : Media :=
  .element ⟨"video", none, none, some 4, some 2, src⟩

/-! ## The grammar of timeline specifiers, in the words of the specification -/

/-- A decimal digit `0`-`9`. -/
def IsDecimalDigit (c : Char) : Prop := '0'.toNat ≤ c.toNat ∧ c.toNat ≤ '9'.toNat

/-- A character of a tick-rate id: `a`-`z` or `0`-`9`. -/
def IsTickRateChar (c : Char) : Prop :=
  ('a'.toNat ≤ c.toNat ∧ c.toNat ≤ 'z'.toNat) ∨ IsDecimalDigit c

/-- One or more decimal digits. -/
def IsDigits (n : List Char) : Prop := n ≠ [] ∧ ∀ c ∈ n, IsDecimalDigit c

/-- The grammar of a timeline specifier as the specification words it:
`urn:dvb:css:timeline:` followed by exactly one of `mpd:period:rel:<int>`,
`mpd:period:rel:<int>:<tickrate-id>`, `pts`, `ct`, `temi:<int>:<int>`. -/
def IsTimelineSpecifier (x : List Char) : Prop :=
  ∃ rest, x = "urn:dvb:css:timeline:".data ++ rest ∧
    ((∃ n, IsDigits n ∧ rest = "mpd:period:rel:".data ++ n) ∨
     (∃ n t, IsDigits n ∧ t ≠ [] ∧ (∀ c ∈ t, IsTickRateChar c) ∧
        rest = "mpd:period:rel:".data ++ (n ++ ':' :: t)) ∨
     rest = "pts".data ∨
     rest = "ct".data ∨
     (∃ a b, IsDigits a ∧ IsDigits b ∧ rest = "temi:".data ++ (a ++ ':' :: b)))

/-- The freshly constructed instance after the caller has assigned a function to `log`. -/
def loggingExample : SyncManager := { freshExample with hasLog := true }

/-- The freshly constructed instance after the caller has assigned functions to `log` and to
`removeAudioTrack`. -/
def equippedExample : SyncManager :=
  { freshExample with hasLog := true, hasRemoveAudioTrack := true }

/-- The codes that have a `case` in the error handler. -/
def knownErrorCodes : List Int :=
  [1, 2, 3, 4, 5, 6, 7, 8, 9, 10, 11, 13, 14, 15, 16, 17, 18, 19]

/-! ## The application manager wrapper (`src/main/appman.js`) -/

/-- The conversion `ToUint32` of an integer-valued number: its residue modulo `2^32`. -/
def toUint32 (n : Int) : Nat := (n % 4294967296).toNat

/-- The signed reading of a 32-bit pattern, which is what a bitwise operator returns. -/
def ofUint32 (m : Nat) : Int := if 2147483648 ≤ m then (m : Int) - 4294967296 else (m : Int)

/-- The operator `a | b`: both operands are taken to 32 bits, the result is read as signed. -/
def jsOr (a b : Int) : Int := ofUint32 (toUint32 a ||| toUint32 b)

/-- The operator `a & b`. -/
def jsAnd (a b : Int) : Int := ofUint32 (toUint32 a &&& toUint32 b)

/-- A module variable that starts as `false`: still `false`, set to `null` by a failed
`init`, or holding the object `init` found. -/
inductive Handle where
  | unset
  | null
  | object
  deriving DecidableEq, Repr

/-- What the keyset of the terminal does with `setValue(x)`: it stores `x`, it stores the
part of `x` the terminal grants, or it raises. -/
inductive KeysetPolicy where
  | storesAll
  | grants (mask : Int)
  | rejects
  deriving DecidableEq, Repr

/-- The terminal as `appman.js` sees it: whether `init` can reach the application and its
keyset, the keyset with its `value`, and the trace of the `setValue` calls. -/
structure Terminal where
  applicationAvailable : Bool
  policy : KeysetPolicy
  value : Int
  setValueCalls : List Int
  deriving DecidableEq, Repr

/-- The module `appman.js`: its variables `ks`, `app` and `val`, and the terminal. -/
structure AppMan where
  ks : Handle
  app : Handle
  val : Int
  terminal : Terminal
  deriving DecidableEq, Repr

namespace AppMan

/-- Constant `AppMan.RED`. -/
def RED : Int := 0x1

/-- Constant `AppMan.GREEN`. -/
def GREEN : Int := 0x2

/-- Constant `AppMan.YELLOW`. -/
def YELLOW : Int := 0x4

/-- Constant `AppMan.BLUE`. -/
def BLUE : Int := 0x8

/-- Constant `AppMan.COLOR`. -/
def COLOR : Int := 0xF

/-- Constant `AppMan.NAVIGATION`. -/
def NAVIGATION : Int := 0x10

/-- Constant `AppMan.VCR`. -/
def VCR : Int := 0x20

/-- Constant `AppMan.NUMERIC`. -/
def NUMERIC : Int := 0x100

/-- Constant `AppMan.NONE`. -/
def NONE : Int := 0x0

/-- Constant `AppMan.ALL`. -/
def ALL : Int := 0x13F

/-- The function `init()`: on success `app` and `ks` hold the objects and `val` the value of
the keyset; on any exception `app` and `ks` are `null`. -/
def init (self : AppMan) : AppMan :=
  if self.terminal.applicationAvailable then
    { self with app := .object, ks := .object, val := self.terminal.value }
  else
    { self with app := .null, ks := .null }

/-- The call `ks.setValue(x)` on the keyset of the terminal. -/
def setValue (self : AppMan) (x : Int) : Outcome Unit × AppMan :=
  let t := { self.terminal with setValueCalls := self.terminal.setValueCalls ++ [x] }
  match self.terminal.policy with
  | .storesAll => (.returned (), { self with terminal := { t with value := x } })
  | .grants mask => (.returned (), { self with terminal := { t with value := jsAnd x mask } })
  | .rejects => (.raised .hostError, { self with terminal := t })

/-- The `try` block of `addKey`: `val = ks.value | keyValue; ks.setValue(val)`. -/
def addKeyBody (self : AppMan) (keyValue : Int) : Outcome Unit × AppMan :=
  match self.ks with
  | .object =>
    let self1 := { self with val := jsOr self.terminal.value keyValue }
    self1.setValue self1.val
  | _ => (.raised .typeError, self)

/-- The function `AppMan.addKey(keyValue)`; the empty `catch` swallows every exception. -/
def addKey (self : AppMan) (keyValue : Int) : Outcome Unit × AppMan :=
  let self0 := if self.ks = .unset then self.init else self
  (.returned (), (self0.addKeyBody keyValue).2)

/-- The function `AppMan.remKey(keyCode)`, which has no `try`. -/
def remKey (self : AppMan) (keyCode : Int) : Outcome Unit × AppMan :=
  let self0 := if self.ks = .unset then self.init else self
  match self0.ks with
  | .object =>
    let self1 := { self0 with val := jsOr self0.terminal.value keyCode - keyCode }
    self1.setValue self1.val
  | _ => (.raised .typeError, self0)

/-- The function `AppMan.applyKeyset()`: `ks.setValue(val)` inside a `try` with an empty
`catch`; there is no call of `init`. -/
def applyKeyset (self : AppMan) : Outcome Unit × AppMan :=
  match self.ks with
  | .object => (.returned (), (self.setValue self.val).2)
  | _ => (.returned (), self)

/-- The module after `addKey` for each key code of the list, in order. -/
def addKeys (self : AppMan) (keys : List Int) : AppMan :=
  keys.foldl (fun s k => (s.addKey k).2) self

end AppMan

/-- The module as loaded (`ks = false`, `app = false`, `val = 0`) on a terminal whose keyset
has the given policy and value. -/
def loadedAppMan (policy : KeysetPolicy) (value : Int) : AppMan :=
  { ks := .unset, app := .unset, val := 0
    terminal := ⟨true, policy, value, []⟩ }

/-- The keyset is available: `ks` holds it, or `init` has not run and will find it. -/
def AppMan.Ready (self : AppMan) : Prop :=
  self.ks = .object ∨ (self.ks = .unset ∧ self.terminal.applicationAvailable = true)

/-- The operator `~a`: the complement of the 32-bit pattern, read as signed. -/
def jsNot (a : Int) : Int := ofUint32 (4294967295 - toUint32 a)

/-- The module after `remKey` for each key code of the list, in order. -/
def AppMan.remKeys (self : AppMan) (keys : List Int) : AppMan :=
  keys.foldl (fun s k => (s.remKey k).2) self

/-! ## The query string parser (`src/tools/query_string.js`) -/

/-- The method `s.split(sep)` for a separator of one character: the pieces between the
occurrences of `sep`; one empty piece for the empty string. -/
def splitOnChar (sep : Char) : List Char → List (List Char)
  | [] => [[]]
  | c :: cs =>
    if c = sep then [] :: splitOnChar sep cs
    else
      match splitOnChar sep cs with
      | [] => [[c]]
      | piece :: rest => (c :: piece) :: rest

/-- The names every plain object inherits from `Object.prototype` (ECMAScript 5 and the
legacy accessors of its Annex B): the operator `in` finds them in `qs_map = {}`. -/
def objectPrototypeMembers : List String :=
  ["constructor", "toString", "toLocaleString", "valueOf", "hasOwnProperty",
   "isPrototypeOf", "propertyIsEnumerable", "__proto__", "__defineGetter__",
   "__defineSetter__", "__lookupGetter__", "__lookupSetter__"]

/-- One `&`-separated part of the query string as a pair, when `part.split("=")` has exactly
two pieces. -/
def qsPair (part : List Char) : Option (String × String) :=
  match splitOnChar '=' part with
  | [k, v] => some (String.mk k, String.mk v)
  | _ => none

/-- The pairs the loop over `x.substr(1).split("&")` assigns, in order; none when
`window.location.search` is empty. -/
def qsPairs (search : String) : List (String × String) :=
  if search.data = [] then []
  else (splitOnChar '&' (search.data.drop 1)).filterMap qsPair

/-- The assignment `qs_map[k] = v`: a new own entry that hides an older one; the name
`__proto__` is an accessor of `Object.prototype` whose setter ignores a string. -/
def qsAssign (m : List (String × String)) (p : String × String) : List (String × String) :=
  if p.1 = "__proto__" then m else p :: m

/-- The object `qs_map` after the module has loaded: its own entries, the latest first. -/
def qs_map (search : String) : List (String × String) :=
  (qsPairs search).foldl qsAssign []

/-- What `get` returns: an own entry of `qs_map`, a member inherited from
`Object.prototype`, or the argument `def`. -/
inductive QsResult (α : Type) where
  | value (v : String)
  | inherited (name : String)
  | fallback (d : α)
  deriving DecidableEq, Repr

/-- The function `get(key, def)`: `if (key in qs_map) return qs_map[key]; return def;`. -/
def qsGet {α : Type} (search : String) (key : String) (d : α) : QsResult α :=
  match (qs_map search).lookup key with
  | some v => .value v
  | none => if key ∈ objectPrototypeMembers then .inherited key else .fallback d

/-! ## The user-agent parser (`src/tools/useragent.js`) -/

/-- The class `\d`. -/
def isRegexDigit (c : Char) : Bool := decide ('0'.toNat ≤ c.toNat ∧ c.toNat ≤ '9'.toNat)

/-- The groups of a match of the expression of the parser: `match[1]` (the HbbTV portion),
`match[2]` (the version) and `match[3]` (the text between the parentheses). -/
structure UAMatch where
  portion : List Char
  version : List Char
  fields : List Char
  deriving DecidableEq, Repr

/-- A match of `(HbbTV\/(\d\.\d\.\d)\s+\(([^\)]*)\))` at the head of the input.  Each piece can
match in one way only: `\s+` must take the whole run of white space, since `(` is none,
and `[^\)]*` must run up to the first `)`. -/
def portionAt (s : List Char) : Option UAMatch :=
  if "HbbTV/".data.isPrefixOf s then
    match s.drop 6 with
    | a :: d1 :: b :: d2 :: c :: rest =>
      if isRegexDigit a && d1 = '.' && isRegexDigit b && d2 = '.' && isRegexDigit c then
        let ws := rest.takeWhile isStrWhiteSpaceChar
        if ws = [] then none
        else
          match rest.dropWhile isStrWhiteSpaceChar with
          | '(' :: inner =>
            let fields := inner.takeWhile (fun x => x != ')')
            match inner.dropWhile (fun x => x != ')') with
            | ')' :: _ =>
              some
                { portion := "HbbTV/".data ++ [a, '.', b, '.', c] ++ ws ++ '(' :: fields ++ [')']
                  version := [a, '.', b, '.', c]
                  fields := fields }
            | _ => none
          | _ => none
      else none
    | _ => none
  else none

/-- A match of the whole expression `.*(...).*` from a fixed start: the greedy `.*` first
takes as many characters other than line terminators as it can and gives them back one by
one, so the portion found is the last one that starts on the line of the start. -/
def matchDotStar : List Char → Option UAMatch
  | [] => portionAt []
  | c :: cs =>
    if isLineTerminator c then portionAt (c :: cs)
    else
      match matchDotStar cs with
      | some m => some m
      | none => portionAt (c :: cs)

/-- The call `reg.exec(ua)` on a fresh expression object: the first start position from which
the expression matches. -/
def uaExec : List Char → Option UAMatch
  | [] => matchDotStar []
  | c :: cs =>
    match matchDotStar (c :: cs) with
    | some m => some m
    | none => uaExec cs

/-- The method `String.prototype.trim`. -/
def jsTrim (s : List Char) : List Char :=
  ((s.dropWhile isStrWhiteSpaceChar).reverse.dropWhile isStrWhiteSpaceChar).reverse

/-- Type `HbbTVVersion` of the source. -/
structure HbbTVVersion where
  major : JSNumber
  minor : JSNumber
  micro : JSNumber
  deriving DecidableEq, Repr

/-- The UTF-16 code units of a character: the character itself in the Basic Multilingual
Plane, a pair of surrogates beyond it. -/
def utf16Units (c : Char) : List Nat :=
  if c.toNat < 0x10000 then [c.toNat]
  else [0xD800 + (c.toNat - 0x10000) / 0x400, 0xDC00 + (c.toNat - 0x10000) % 0x400]

/-- The UTF-16 code units of a string, the elements that `length` and `substring` count. -/
def toUTF16 : List Char → List Nat
  | [] => []
  | c :: cs => utf16Units c ++ toUTF16 cs

/-- The method `s.split(sep)` on code units, for a separator of one code unit. -/
def splitOnUnit (sep : Nat) : List Nat → List (List Nat)
  | [] => [[]]
  | c :: cs =>
    if c = sep then [] :: splitOnUnit sep cs
    else
      match splitOnUnit sep cs with
      | [] => [[c]]
      | piece :: rest => (c :: piece) :: rest

/-- Type `HbbTVUserAgent` of the source; `none` stands for `null`.  The strings of `options`
are given by their UTF-16 code units: they are cut from the first field by `substring(1)`,
which removes one code unit and can leave the second half of a surrogate pair at the head
of the first of them. -/
structure HbbTVUserAgent where
  str : String
  version : HbbTVVersion
  options : Option (List (List Nat))
  vendor : String
  model : String
  swVersion : String
  hwVersion : String
  familyName : Option String
  reserved : String
  deriving DecidableEq, Repr

/-- The first field after `fields[0] = fields[0].trim()` and, when its `length` is not zero,
`fields[0] = fields[0].substring(1)`, in UTF-16 code units. -/
def uaFirstField (f0 : List Char) : List Nat :=
  if (toUTF16 (jsTrim f0)).length > 0 then (toUTF16 (jsTrim f0)).drop 1
  else toUTF16 (jsTrim f0)

/-- The `try` block of the parser for the string `ua`: a `TypeError` when `exec` returns
`null`; the record when there are at least six fields; otherwise the block ends and the
function returns `null`.  The value assigned to `fields[0]` is `first`; the record reads
the other fields at the indices 1 to 5 and, for `reserved`, at the last index, which is
at least 5, so the assignment does not reach them. -/
def userAgentBody (ua : List Char) : Outcome (Option HbbTVUserAgent) :=
  match uaExec ua with
  | none => .raised .typeError
  | some m =>
    let version := splitOnChar '.' m.version
    let fields := splitOnChar ';' m.fields
    let first := uaFirstField (fields.getD 0 [])
    if fields.length ≥ 6 then
      .returned (some
        { str := String.mk m.portion
          version :=
            { major := parseIntChars (version.getD 0 [])
              minor := parseIntChars (version.getD 1 [])
              micro := parseIntChars (version.getD 2 []) }
          options := if first.length > 0 then some (splitOnUnit 43 first) else none
          vendor := String.mk (fields.getD 1 [])
          model := String.mk (fields.getD 2 [])
          swVersion := String.mk (fields.getD 3 [])
          hwVersion := String.mk (fields.getD 4 [])
          familyName := if fields.length = 7 then some (String.mk (fields.getD 5 [])) else none
          reserved := String.mk (fields.getD (fields.length - 1) []) })
    else .returned none

/-- The exported function of `useragent.js`.  A falsy `ua` (absent or empty) is replaced by
`navigator.userAgent`, which raises when there is no `navigator`; every exception is
swallowed by the `catch` and the function returns `null`. -/
def HbbTVUserAgentParser (navigatorUserAgent : Option String) (ua : Option String) :
    Option HbbTVUserAgent :=
  let body : Outcome (Option HbbTVUserAgent) :=
    if truthyStr ua then userAgentBody (strOrUndefined ua).data
    else
      match navigatorUserAgent with
      | none => .raised .typeError
      | some nav => userAgentBody nav.data
  match body with
  | .returned r => r
  | .raised _ => none

/-- The user-agent string of the example in the documentation of the module. -/
def uaExample : String :=
  "User-Agent: HbbTV/1.2.1 (+PVR+DL; Sonic; 40VX700WDR; 1.32.455; 2.002; test reserved) BKit/445.27.1"

/-- The text of an HbbTV portion: `HbbTV/a.b.c`, white space, and a field list `F` without
`)` between parentheses. -/
def hbbtvPortion (a b c : Char) (ws F : List Char) : List Char :=
  "HbbTV/".data ++ [a, '.', b, '.', c] ++ ws ++ '(' :: F ++ [')']

/-- The parts of an HbbTV portion are well formed: three decimal digits, a non-empty run of
white space, no `)` in the field list. -/
def PortionParts (a b c : Char) (ws F : List Char) : Prop :=
  isRegexDigit a = true ∧ isRegexDigit b = true ∧ isRegexDigit c = true ∧ ws ≠ [] ∧
  (∀ x ∈ ws, isStrWhiteSpaceChar x = true) ∧ (∀ x ∈ F, x ≠ ')')

/-- The string includes an HbbTV portion of the form `HbbTV/d.d.d`, white space, `(F)`. -/
def IncludesHbbTVPortion (ua : List Char) : Prop :=
  ∃ pre post a b c ws F, PortionParts a b c ws F ∧ ua = pre ++ hbbtvPortion a b c ws F ++ post

/-- The record the parser builds from a portion of version `a.b.c` whose field list splits
into `fs`. -/
def uaRecord (a b c : Char) (ws F : List Char) : HbbTVUserAgent :=
  let fs := splitOnChar ';' F
  { str := String.mk (hbbtvPortion a b c ws F)
    version := { major := .int (a.toNat - 48 : Nat), minor := .int (b.toNat - 48 : Nat),
                 micro := .int (c.toNat - 48 : Nat) }
    options :=
      if (uaFirstField (fs.getD 0 [])).length > 0 then
        some (splitOnUnit 43 (uaFirstField (fs.getD 0 [])))
      else none
    vendor := String.mk (fs.getD 1 [])
    model := String.mk (fs.getD 2 [])
    swVersion := String.mk (fs.getD 3 [])
    hwVersion := String.mk (fs.getD 4 [])
    familyName := if fs.length = 7 then some (String.mk (fs.getD 5 [])) else none
    reserved := String.mk (fs.getD (fs.length - 1) []) }

/-- No HbbTV portion starts at any position of the string. -/
def noPortionIn : List Char → Bool
  | [] => true
  | c :: cs => (portionAt (c :: cs)).isNone && noPortionIn cs

/-! ## Lemmas and claims -/

set_option exponentiation.threshold 1100
set_option maxRecDepth 100000

open SyncManager

/-! ### Numbers, their digits and `parseInt` -/


theorem bitLengthAux_eq (n : Nat) : ∀ fuel, n ≤ fuel → n ≠ 0 →
    bitLengthAux fuel n = Nat.log2 n + 1 := by
  induction n using Nat.strong_induction_on with
  | _ n ih =>
    intro fuel hf h0
    cases fuel with
    | zero => omega
    | succ f =>
      unfold bitLengthAux
      rw [if_neg h0]
      by_cases h2 : 2 ≤ n
      · have hlt : n / 2 < n := Nat.div_lt_self (by omega) (by norm_num)
        rw [ih (n / 2) hlt f (by omega) (by omega)]
        conv_rhs => unfold Nat.log2
        rw [if_pos h2]
      · have h1 : n = 1 := by omega
        subst h1
        have e : bitLengthAux f (1 / 2) = 0 := by
          cases f <;> simp [bitLengthAux]
        rw [e]
        conv_rhs => unfold Nat.log2
        rw [if_neg h2]

theorem bitLength_eq (n : Nat) (h0 : n ≠ 0) : bitLength n = Nat.log2 n + 1 :=
  bitLengthAux_eq n n (Nat.le_refl n) h0

theorem roundToDouble_of_lt (n : Nat) (h : n < 2 ^ 53) : roundToDouble n = some n := by
  unfold roundToDouble
  rw [if_pos h]

theorem roundToDouble_none_iff (n : Nat) :
    roundToDouble n = none ↔ 2 ^ 1024 - 2 ^ 970 ≤ n := by
  by_cases h : n < 2 ^ 53
  · rw [roundToDouble_of_lt n h]
    constructor
    · intro h'
      cases h'
    · intro h'
      omega
  · have hn0 : n ≠ 0 := by
      intro e
      rw [e] at h
      exact h (by norm_num)
    have hL1 : 2 ^ n.log2 ≤ n := Nat.log2_self_le hn0
    have hL2 : n < 2 ^ (n.log2 + 1) := Nat.lt_log2_self
    have hL53 : 53 ≤ n.log2 := (Nat.le_log2 hn0).mpr (Nat.le_of_not_lt h)
    unfold roundToDouble
    rw [if_neg h, bitLength_eq n hn0, show n.log2 + 1 - 53 = n.log2 - 52 by omega]
    simp only []
    generalize hL : n.log2 = L at hL1 hL2 hL53
    obtain ⟨e, he⟩ : ∃ e, L = e + 52 := ⟨L - 52, by omega⟩
    subst he
    have he1 : 1 ≤ e := by omega
    rw [Nat.add_sub_cancel]
    have hpow : 2 ^ (e + 52) = 2 ^ e * 2 ^ 52 := Nat.pow_add 2 e 52
    have hpow1 : 2 ^ (e + 52 + 1) = 2 ^ e * 2 ^ 53 := by
      rw [show e + 52 + 1 = e + 53 by omega, Nat.pow_add]
    have hpos : 0 < 2 ^ e := Nat.two_pow_pos e
    have hq1 : 2 ^ 52 ≤ n / 2 ^ e := by
      rw [Nat.le_div_iff_mul_le hpos, Nat.mul_comm]
      rw [hpow] at hL1
      exact hL1
    have hq2 : n / 2 ^ e < 2 ^ 53 := by
      rw [Nat.div_lt_iff_lt_mul hpos, Nat.mul_comm]
      rw [hpow1] at hL2
      exact hL2
    have hdm : 2 ^ e * (n / 2 ^ e) + n % 2 ^ e = n := Nat.div_add_mod n (2 ^ e)
    have hr : n % 2 ^ e < 2 ^ e := Nat.mod_lt n hpos
    generalize n / 2 ^ e = q at hq1 hq2 hdm ⊢
    generalize n % 2 ^ e = r at hdm hr ⊢
    rcases Nat.lt_trichotomy e 971 with hlt | heq | hgt
    · -- below the last binade
      have hle : 2 ^ e * 2 ^ 53 ≤ 2 ^ 970 * 2 ^ 53 :=
        Nat.mul_le_mul_right _ (Nat.pow_le_pow_right (by norm_num) (by omega))
      have hq1' : (if 2 ^ e < 2 * r ∨ 2 * r = 2 ^ e ∧ q % 2 = 1 then q + 1 else q) ≤ 2 ^ 53 := by
        split <;> omega
      have hb : (if 2 ^ e < 2 * r ∨ 2 * r = 2 ^ e ∧ q % 2 = 1 then q + 1 else q) * 2 ^ e ≤
          2 ^ 53 * 2 ^ e := Nat.mul_le_mul_right _ hq1'
      have h1 : n < 2 ^ e * 2 ^ 53 := by rw [← hpow1]; exact hL2
      have hlt1024 : (if 2 ^ e < 2 * r ∨ 2 * r = 2 ^ e ∧ q % 2 = 1 then q + 1 else q) * 2 ^ e <
          2 ^ 1024 := by
        have : 2 ^ 53 * 2 ^ e ≤ 2 ^ 970 * 2 ^ 53 := by rw [Nat.mul_comm]; exact hle
        have h2 : 2 ^ 970 * 2 ^ 53 < 2 ^ 1024 := by norm_num
        omega
      rw [if_pos hlt1024]
      constructor
      · intro h'
        cases h'
      · intro h'
        exfalso
        have h2 : 2 ^ 970 * 2 ^ 53 ≤ 2 ^ 1024 - 2 ^ 970 := by norm_num
        omega
    · subst heq
      split
      · rename_i hup
        split
        · rename_i hlt
          constructor
          · intro h'
            cases h'
          · intro h'
            exfalso
            omega
        · rename_i hge
          constructor
          · intro _
            omega
          · intro _
            rfl
      · rename_i hdown
        split
        · rename_i hlt
          constructor
          · intro h'
            cases h'
          · intro h'
            exfalso
            omega
        · rename_i hge
          exfalso
          omega
    · have hge : 2 ^ 972 * 2 ^ 52 ≤ 2 ^ e * 2 ^ 52 :=
        Nat.mul_le_mul_right _ (Nat.pow_le_pow_right (by norm_num) (by omega))
      have hq1' : q ≤ (if 2 ^ e < 2 * r ∨ 2 * r = 2 ^ e ∧ q % 2 = 1 then q + 1 else q) := by
        split <;> omega
      have hb : 2 ^ 52 * 2 ^ e ≤
          (if 2 ^ e < 2 * r ∨ 2 * r = 2 ^ e ∧ q % 2 = 1 then q + 1 else q) * 2 ^ e :=
        Nat.mul_le_mul_right _ (Nat.le_trans hq1 hq1')
      have h3 : 2 ^ 1024 = 2 ^ 972 * 2 ^ 52 := by norm_num
      have hnot : ¬ (if 2 ^ e < 2 * r ∨ 2 * r = 2 ^ e ∧ q % 2 = 1 then q + 1 else q) * 2 ^ e <
          2 ^ 1024 := by
        have : 2 ^ e * 2 ^ 52 = 2 ^ 52 * 2 ^ e := Nat.mul_comm _ _
        omega
      rw [if_neg hnot]
      constructor
      · intro _
        rw [hpow] at hL1
        omega
      · intro _
        rfl


theorem isDecimalDigitChar_cases (c : Char) (h : isDecimalDigitChar c = true) :
    c = '0' ∨ c = '1' ∨ c = '2' ∨ c = '3' ∨ c = '4' ∨ c = '5' ∨ c = '6' ∨ c = '7' ∨
      c = '8' ∨ c = '9' := by
  unfold isDecimalDigitChar at h
  simp only [decide_eq_true_eq] at h
  have e : c = Char.ofNat c.toNat := (Char.ofNat_toNat c).symm
  have h1 : 48 ≤ c.toNat := h.1
  have h2 : c.toNat ≤ 57 := h.2
  generalize c.toNat = n at e h1 h2
  subst e
  interval_cases n <;> decide

theorem digitChar_spec (d : Nat) (h : d < 10) :
    isDecimalDigitChar (Char.ofNat (48 + d)) = true ∧ (Char.ofNat (48 + d)).toNat - 48 = d := by
  interval_cases d <;> decide

theorem decimalDigitsAux_eq (n : Nat) :
    ∀ fuel acc, n < fuel → decimalDigitsAux fuel n acc = decimalDigits n ++ acc := by
  induction n using Nat.strong_induction_on with
  | _ n ih =>
    intro fuel acc hf
    cases fuel with
    | zero => omega
    | succ f =>
      unfold decimalDigits
      by_cases h : n < 10
      · simp [decimalDigitsAux, h]
      · have hlt : n / 10 < n := Nat.div_lt_self (by omega) (by norm_num)
        have e1 : decimalDigitsAux (f + 1) n acc =
            decimalDigitsAux f (n / 10) (Char.ofNat (48 + n % 10) :: acc) := by
          simp [decimalDigitsAux, h]
        have e2 : decimalDigitsAux (n + 1) n [] =
            decimalDigitsAux n (n / 10) [Char.ofNat (48 + n % 10)] := by
          simp [decimalDigitsAux, h]
        rw [e1, e2, ih (n / 10) hlt f _ (by omega), ih (n / 10) hlt n _ hlt]
        simp

theorem decimalDigits_lt (n : Nat) (h : n < 10) : decimalDigits n = [Char.ofNat (48 + n)] := by
  unfold decimalDigits
  simp [decimalDigitsAux, h]

theorem decimalDigits_ge (n : Nat) (h : 10 ≤ n) :
    decimalDigits n = decimalDigits (n / 10) ++ [Char.ofNat (48 + n % 10)] := by
  have hlt : n / 10 < n := Nat.div_lt_self (by omega) (by norm_num)
  have e2 : decimalDigits n = decimalDigitsAux n (n / 10) [Char.ofNat (48 + n % 10)] := by
    unfold decimalDigits
    simp [decimalDigitsAux, Nat.not_lt.mpr h]
  rw [e2, decimalDigitsAux_eq (n / 10) n _ hlt]

theorem decimalDigits_ne_nil (n : Nat) : decimalDigits n ≠ [] := by
  by_cases h : n < 10
  · rw [decimalDigits_lt n h]
    simp
  · rw [decimalDigits_ge n (by omega)]
    simp

theorem decimalDigits_all (n : Nat) : ∀ c ∈ decimalDigits n, isDecimalDigitChar c = true := by
  induction n using Nat.strong_induction_on with
  | _ n ih =>
    intro c hc
    by_cases h : n < 10
    · rw [decimalDigits_lt n h] at hc
      simp only [List.mem_singleton] at hc
      rw [hc]
      exact (digitChar_spec n h).1
    · rw [decimalDigits_ge n (by omega)] at hc
      rcases List.mem_append.mp hc with h1 | h1
      · exact ih (n / 10) (Nat.div_lt_self (by omega) (by norm_num)) c h1
      · simp only [List.mem_singleton] at h1
        rw [h1]
        exact (digitChar_spec (n % 10) (Nat.mod_lt n (by norm_num))).1

theorem digitsValue_append (a : Nat) (p q : List Char) :
    digitsValue a (p ++ q) = digitsValue (digitsValue a p) q := by
  unfold digitsValue
  rw [List.foldl_append]

theorem digitsValue_decimalDigits (n : Nat) :
    ∀ a, digitsValue a (decimalDigits n) = a * 10 ^ (decimalDigits n).length + n := by
  induction n using Nat.strong_induction_on with
  | _ n ih =>
    intro a
    by_cases h : n < 10
    · rw [decimalDigits_lt n h]
      simp [digitsValue, (digitChar_spec n h).2]
    · rw [decimalDigits_ge n (by omega), digitsValue_append,
        ih (n / 10) (Nat.div_lt_self (by omega) (by norm_num))]
      simp only [digitsValue, List.foldl_cons, List.foldl_nil, List.length_append,
        List.length_singleton, (digitChar_spec (n % 10) (Nat.mod_lt n (by norm_num))).2]
      have := Nat.div_add_mod n 10
      rw [Nat.pow_succ]
      nlinarith [Nat.div_add_mod n 10]

theorem digitsValue_lt (p : List Char) (hp : ∀ c ∈ p, isDecimalDigitChar c = true) :
    ∀ a, digitsValue a p < (a + 1) * 10 ^ p.length := by
  induction p with
  | nil =>
    intro a
    simp [digitsValue]
  | cons c cs ih =>
    intro a
    have hc := hp c (List.mem_cons_self c cs)
    have hd : c.toNat - 48 < 10 := by
      unfold isDecimalDigitChar at hc
      simp only [decide_eq_true_eq] at hc
      omega
    have h1 := ih (fun x hx => hp x (List.mem_cons_of_mem c hx)) (a * 10 + (c.toNat - 48))
    have e : digitsValue a (c :: cs) = digitsValue (a * 10 + (c.toNat - 48)) cs := rfl
    rw [e, List.length_cons, Nat.pow_succ]
    have h2 : (a * 10 + (c.toNat - 48) + 1) * 10 ^ cs.length ≤ (a + 1) * (10 ^ cs.length * 10) := by
      have : a * 10 + (c.toNat - 48) + 1 ≤ (a + 1) * 10 := by omega
      calc (a * 10 + (c.toNat - 48) + 1) * 10 ^ cs.length
          ≤ ((a + 1) * 10) * 10 ^ cs.length := Nat.mul_le_mul_right _ this
        _ = (a + 1) * (10 ^ cs.length * 10) := by ring
    omega

theorem digitValue_of_digit (c : Char) (h : isDecimalDigitChar c = true) :
    digitValue c = some (c.toNat - 48) ∧ c.toNat - 48 < 10 := by
  unfold isDecimalDigitChar at h
  simp only [decide_eq_true_eq] at h
  unfold digitValue
  simp only [h, and_self, if_true, true_and]
  omega

theorem readDigits_numeralEnd (rest : List Char) (h : NumeralEnd rest) (a : Nat) (seen : Bool) :
    readDigits 10 rest a seen = if seen then some a else none := by
  rcases h with h | ⟨cs, h⟩ | ⟨cs, h⟩ <;> subst h
  · rfl
  · have e : digitValue '.' = none := by decide
    simp [readDigits, e]
  · have e : digitValue 'e' = some 14 := by decide
    simp [readDigits, e]

theorem readDigits_digits (p : List Char) (hp : ∀ c ∈ p, isDecimalDigitChar c = true)
    (rest : List Char) (hrest : NumeralEnd rest) :
    ∀ a seen, readDigits 10 (p ++ rest) a seen =
      if seen = true ∨ p ≠ [] then some (digitsValue a p) else none := by
  induction p with
  | nil =>
    intro a seen
    rw [List.nil_append, readDigits_numeralEnd rest hrest]
    simp [digitsValue]
  | cons c cs ih =>
    intro a seen
    have hc := digitValue_of_digit c (hp c (List.mem_cons_self c cs))
    have h1 := ih (fun x hx => hp x (List.mem_cons_of_mem c hx)) (a * 10 + (c.toNat - 48)) true
    show readDigits 10 (c :: (cs ++ rest)) a seen = _
    unfold readDigits
    rw [hc.1]
    simp only [hc.2, if_true]
    rw [h1]
    simp [digitsValue]


theorem skipWhiteSpace_digit (c : Char) (cs : List Char) (h : isDecimalDigitChar c = true) :
    skipWhiteSpace (c :: cs) = c :: cs := by
  rcases isDecimalDigitChar_cases c h with h | h | h | h | h | h | h | h | h | h <;> subst h <;>
    rfl

theorem parseUnsigned_digits (p rest : List Char) (hp : ∀ c ∈ p, isDecimalDigitChar c = true)
    (hne : p ≠ []) (hrest : NumeralEnd rest) :
    parseUnsigned (p ++ rest) = some (digitsValue 0 p) := by
  have hr := readDigits_digits p hp rest hrest 0 false
  simp only [hne, ne_eq, not_false_eq_true, or_true, if_true] at hr
  rw [← hr]
  unfold parseUnsigned
  split
  next cs he =>
    exfalso
    cases p with
    | nil => exact hne rfl
    | cons c p' =>
      cases p' with
      | nil =>
        simp only [List.singleton_append, List.cons.injEq] at he
        rcases hrest with h | ⟨t, h⟩ | ⟨t, h⟩
        · rw [h] at he
          cases he.2
        · rw [h] at he
          have := he.2
          simp at this
        · rw [h] at he
          have := he.2
          simp at this
      | cons d p'' =>
        simp only [List.cons_append, List.cons.injEq] at he
        have hd := hp d (by simp)
        rw [he.2.1] at hd
        revert hd
        decide
  next cs he =>
    exfalso
    cases p with
    | nil => exact hne rfl
    | cons c p' =>
      cases p' with
      | nil =>
        simp only [List.singleton_append, List.cons.injEq] at he
        rcases hrest with h | ⟨t, h⟩ | ⟨t, h⟩
        · rw [h] at he
          cases he.2
        · rw [h] at he
          have := he.2
          simp at this
        · rw [h] at he
          have := he.2
          simp at this
      | cons d p'' =>
        simp only [List.cons_append, List.cons.injEq] at he
        have hd := hp d (by simp)
        rw [he.2.1] at hd
        revert hd
        decide
  · rfl

theorem parseIntChars_digits (p rest : List Char) (hp : ∀ c ∈ p, isDecimalDigitChar c = true)
    (hne : p ≠ []) (hrest : NumeralEnd rest) :
    parseIntChars (p ++ rest) = signedNumber false (some (digitsValue 0 p)) ∧
    parseIntChars ('-' :: (p ++ rest)) = signedNumber true (some (digitsValue 0 p)) := by
  have hu := parseUnsigned_digits p rest hp hne hrest
  constructor
  · cases p with
    | nil => exact absurd rfl hne
    | cons c p' =>
      have hc := hp c (List.mem_cons_self c p')
      rw [← hu]
      rcases isDecimalDigitChar_cases c hc with h | h | h | h | h | h | h | h | h | h <;>
        subst h <;> rfl
  · rw [← hu]
    rfl

theorem signedNumber_isInteger (negative : Bool) (m : Nat) (h : m < 2 ^ 1024 - 2 ^ 970) :
    (signedNumber negative (some m)).isInteger = true := by
  cases hr : roundToDouble m with
  | none =>
    have := (roundToDouble_none_iff m).mp hr
    omega
  | some v =>
    simp only [signedNumber, hr]
    cases negative <;> by_cases hv : v = 0 <;> simp [JSNumber.isInteger, hv]

/-- The string form of a finite number begins, after its sign, with at most 21 decimal
digits, followed by nothing, a decimal point or the exponent mark. -/
theorem toChars_finite (negative : Bool) (s : Nat) (n : Int) :
    ∃ p rest, (∀ c ∈ p, isDecimalDigitChar c = true) ∧ p ≠ [] ∧ p.length ≤ 21 ∧
      NumeralEnd rest ∧
      (JSDouble.finite negative s n).toChars = if negative then '-' :: (p ++ rest) else p ++ rest := by
  have hall := decimalDigits_all s
  have hne := decimalDigits_ne_nil s
  unfold JSDouble.toChars
  simp only []
  generalize decimalDigits s = ds at hall hne
  by_cases h1 : ((ds.length : Nat) : Int) ≤ n ∧ n ≤ 21
  · refine ⟨ds ++ List.replicate (n - ((ds.length : Nat) : Int)).toNat '0', [], ?_, ?_, ?_,
      Or.inl rfl, ?_⟩
    · intro c hc
      rcases List.mem_append.mp hc with h | h
      · exact hall c h
      · rw [List.eq_of_mem_replicate h]
        decide
    · simp [hne]
    · simp only [List.length_append, List.length_replicate]
      omega
    · rw [if_pos h1, List.append_nil]
  · by_cases h2 : 0 < n ∧ n ≤ 21
    · refine ⟨ds.take n.toNat, '.' :: ds.drop n.toNat, ?_, ?_, ?_, Or.inr (Or.inl ⟨_, rfl⟩), ?_⟩
      · intro c hc
        exact hall c (List.mem_of_mem_take hc)
      · intro e
        have hl : (ds.take n.toNat).length = 0 := by rw [e]; rfl
        rw [List.length_take] at hl
        have : 0 < ds.length := List.length_pos.mpr hne
        omega
      · rw [List.length_take]
        omega
      · rw [if_neg h1, if_pos h2]
    · by_cases h3 : -6 < n ∧ n ≤ 0
      · refine ⟨['0'], '.' :: (List.replicate (-n).toNat '0' ++ ds), ?_, ?_, ?_,
          Or.inr (Or.inl ⟨_, rfl⟩), ?_⟩
        · intro c hc
          simp only [List.mem_singleton] at hc
          rw [hc]
          decide
        · simp
        · simp
        · rw [if_neg h1, if_neg h2, if_pos h3]
          rfl
      · by_cases h4 : ((ds.length : Nat) : Int) = 1
        · refine ⟨ds, 'e' :: ((if n - 1 < 0 then '-' else '+') :: decimalDigits (n - 1).natAbs),
            hall, hne, ?_, Or.inr (Or.inr ⟨_, rfl⟩), ?_⟩
          · omega
          · rw [if_neg h1, if_neg h2, if_neg h3, if_pos h4]
        · refine ⟨ds.take 1, '.' :: (ds.drop 1 ++
            'e' :: ((if n - 1 < 0 then '-' else '+') :: decimalDigits (n - 1).natAbs)), ?_, ?_, ?_,
            Or.inr (Or.inl ⟨_, rfl⟩), ?_⟩
          · intro c hc
            exact hall c (List.mem_of_mem_take hc)
          · intro e
            have hl : (ds.take 1).length = 0 := by rw [e]; rfl
            rw [List.length_take] at hl
            have : 0 < ds.length := List.length_pos.mpr hne
            omega
          · rw [List.length_take]
            omega
          · rw [if_neg h1, if_neg h2, if_neg h3, if_neg h4]

/-- The function `parseInt` gives an integer for every finite number. -/
theorem parseInt_finite (negative : Bool) (s : Nat) (n : Int) :
    ∃ r, parseInt (.number (.finite negative s n)) = .returned r ∧ r.isInteger = true := by
  obtain ⟨p, rest, hp, hne, hlen, hrest, he⟩ := toChars_finite negative s n
  have hv : digitsValue 0 p < 2 ^ 1024 - 2 ^ 970 := by
    have h1 := digitsValue_lt p hp 0
    have h2 : (10 : Nat) ^ p.length ≤ 10 ^ 21 := Nat.pow_le_pow_right (by norm_num) hlen
    have h3 : (10 : Nat) ^ 21 < 2 ^ 1024 - 2 ^ 970 := by norm_num
    omega
  have hd := parseIntChars_digits p rest hp hne hrest
  refine ⟨parseIntChars (JSDouble.finite negative s n).toChars, rfl, ?_⟩
  rw [he]
  cases negative with
  | true =>
    simp only [if_true]
    rw [hd.2]
    exact signedNumber_isInteger true _ hv
  | false =>
    simp only [Bool.false_eq_true, if_false]
    rw [hd.1]
    exact signedNumber_isInteger false _ hv

theorem parseIntChars_eq (s : List Char) :
    parseIntChars s = signedNumber (hasMinusSign s) (parseUnsigned (numeralText s)) := by
  rfl

theorem signedNumber_nan_iff (negative : Bool) (o : Option Nat) :
    signedNumber negative o = .nan ↔ o = none := by
  cases o with
  | none => simp [signedNumber]
  | some m =>
    simp only [signedNumber, reduceCtorEq, iff_false]
    cases roundToDouble m with
    | none => simp
    | some v => cases negative <;> by_cases hv : v = 0 <;> simp [hv]

theorem signedNumber_infinity_iff (negative b : Bool) (o : Option Nat) :
    signedNumber negative o = .infinity b ↔
      ∃ m, o = some m ∧ 2 ^ 1024 - 2 ^ 970 ≤ m ∧ b = negative := by
  cases o with
  | none => simp [signedNumber]
  | some m =>
    cases hr : roundToDouble m with
    | none =>
      have hm := (roundToDouble_none_iff m).mp hr
      simp only [signedNumber, hr, JSNumber.infinity.injEq, Option.some.injEq, exists_eq_left']
      constructor
      · intro h
        exact ⟨hm, h.symm⟩
      · intro h
        exact h.2.symm
    | some v =>
      have hm : ¬ 2 ^ 1024 - 2 ^ 970 ≤ m := by
        intro h
        rw [(roundToDouble_none_iff m).mpr h] at hr
        cases hr
      simp only [signedNumber, hr, Option.some.injEq, exists_eq_left', hm, false_and, iff_false]
      cases negative <;> by_cases hv : v = 0 <;> simp [hv]

theorem readDigits_seen (r : Nat) (cs : List Char) :
    ∀ a, ∃ v, readDigits r cs a true = some v := by
  induction cs with
  | nil => exact fun a => ⟨a, rfl⟩
  | cons c cs ih =>
    intro a
    unfold readDigits
    cases digitValue c with
    | none => exact ⟨a, rfl⟩
    | some d =>
      simp only []
      by_cases hd : d < r
      · rw [if_pos hd]
        exact ih _
      · rw [if_neg hd]
        exact ⟨a, rfl⟩

theorem readDigits_none_iff (r : Nat) (cs : List Char) :
    readDigits r cs 0 false = none ↔
      ∀ c rest, cs = c :: rest → ¬ ∃ d, digitValue c = some d ∧ d < r := by
  cases cs with
  | nil => simp [readDigits]
  | cons c rest =>
    unfold readDigits
    cases hc : digitValue c with
    | none => simp [hc]
    | some d =>
      simp only []
      by_cases hd : d < r
      · rw [if_pos hd]
        obtain ⟨v, hv⟩ := readDigits_seen r rest (0 * r + d)
        rw [hv]
        simp only [reduceCtorEq, List.cons.injEq, and_imp, false_iff, not_forall]
        exact ⟨c, rest, rfl, rfl, fun h => h ⟨d, hc, hd⟩⟩
      · rw [if_neg hd]
        simp only [Bool.false_eq_true, if_false, List.cons.injEq, and_imp, true_iff]
        rintro c' rest' rfl _ ⟨d', h1, h2⟩
        rw [hc] at h1
        cases h1
        exact hd h2

theorem decimalDigit_iff (c : Char) :
    (∃ d, digitValue c = some d ∧ d < 10) ↔ isDecimalDigitChar c = true := by
  unfold digitValue isDecimalDigitChar
  simp only [decide_eq_true_eq]
  constructor
  · rintro ⟨d, h, hd⟩
    split at h
    · assumption
    · split at h
      · simp only [Option.some.injEq] at h
        omega
      · split at h
        · simp only [Option.some.injEq] at h
          omega
        · cases h
  · intro h
    exact ⟨c.toNat - 48, by rw [if_pos h], by omega⟩

theorem hexDigit_iff (c : Char) :
    (∃ d, digitValue c = some d ∧ d < 16) ↔ isHexDigitChar c = true := by
  unfold digitValue isHexDigitChar isDecimalDigitChar
  simp only [Bool.or_eq_true, decide_eq_true_eq]
  constructor
  · rintro ⟨d, h, hd⟩
    split at h
    · left; left; assumption
    · split at h
      · simp only [Option.some.injEq] at h
        left; right
        omega
      · split at h
        · simp only [Option.some.injEq] at h
          right
          omega
        · cases h
  · rintro ((h | h) | h)
    · exact ⟨c.toNat - 48, by rw [if_pos h], by omega⟩
    · exact ⟨c.toNat - 97 + 10, by rw [if_neg (by omega), if_pos (by omega)], by omega⟩
    · exact ⟨c.toNat - 65 + 10,
        by rw [if_neg (by omega), if_neg (by omega), if_pos (by omega)], by omega⟩

theorem readDigits_none_hex (cs : List Char) :
    readDigits 16 cs 0 false = none ↔ (cs.head?.map isHexDigitChar).getD false = false := by
  rw [readDigits_none_iff]
  cases cs with
  | nil => simp
  | cons c rest =>
    simp only [List.cons.injEq, and_imp, List.head?_cons, Option.map_some', Option.getD_some]
    constructor
    · intro h
      have := h c rest rfl rfl
      rw [hexDigit_iff] at this
      simpa using this
    · rintro h c' rest' rfl _
      rw [hexDigit_iff]
      simp [h]

theorem parseUnsigned_none_iff (t : List Char) :
    parseUnsigned t = none ↔ beginsWithDigit t = false := by
  unfold parseUnsigned beginsWithDigit
  split
  · exact readDigits_none_hex _
  · exact readDigits_none_hex _
  next hx hX =>
    rw [readDigits_none_iff]
    split
    next cs => exact absurd rfl (hx cs)
    next cs => exact absurd rfl (hX cs)
    next c rest _ _ =>
      simp only [List.cons.injEq, and_imp]
      constructor
      · intro h
        have := h c rest rfl rfl
        rw [decimalDigit_iff] at this
        simpa using this
      · rintro h c' rest' rfl _
        rw [decimalDigit_iff]
        simp [h]
    · simp

/-- The function `parseInt` on a string gives `NaN` exactly when the text after white space
and sign does not begin with a digit. -/
theorem parseIntChars_nan_iff (s : List Char) :
    parseIntChars s = .nan ↔ beginsWithDigit (numeralText s) = false := by
  rw [parseIntChars_eq, signedNumber_nan_iff, parseUnsigned_none_iff]

/-- The function `parseInt` on a string gives an infinity exactly when the digits it reads
denote `2 ^ 1024 - 2 ^ 970` or more. -/
theorem parseIntChars_infinity_iff (s : List Char) (b : Bool) :
    parseIntChars s = .infinity b ↔
      ∃ m, parseUnsigned (numeralText s) = some m ∧ 2 ^ 1024 - 2 ^ 970 ≤ m ∧
        b = hasMinusSign s := by
  rw [parseIntChars_eq, signedNumber_infinity_iff]

theorem parseIntChars_isInteger (s : List Char) (m : Nat)
    (h : parseUnsigned (numeralText s) = some m) (hm : m < 2 ^ 1024 - 2 ^ 970) :
    (parseIntChars s).isInteger = true := by
  rw [parseIntChars_eq, h]
  exact signedNumber_isInteger _ m hm

theorem roundToDouble_ge (n v : Nat) (h : 2 ^ 53 ≤ n) (hv : roundToDouble n = some v) :
    2 ^ 53 ≤ v := by
  have hn0 : n ≠ 0 := by
    intro e
    rw [e] at h
    revert h
    norm_num
  have hL1 : 2 ^ n.log2 ≤ n := Nat.log2_self_le hn0
  have hL53 : 53 ≤ n.log2 := (Nat.le_log2 hn0).mpr h
  unfold roundToDouble at hv
  rw [if_neg (Nat.not_lt.mpr h), bitLength_eq n hn0,
    show n.log2 + 1 - 53 = n.log2 - 52 by omega] at hv
  simp only [] at hv
  generalize hL : n.log2 = L at hL1 hL53 hv
  obtain ⟨e, he⟩ : ∃ e, L = e + 53 := ⟨L - 53, by omega⟩
  subst he
  rw [show e + 53 - 52 = e + 1 by omega] at hv
  have hpos : 0 < 2 ^ (e + 1) := Nat.two_pow_pos _
  have hpow : 2 ^ (e + 53) = 2 ^ (e + 1) * 2 ^ 52 := by
    rw [show e + 53 = e + 1 + 52 by omega, Nat.pow_add]
  have hq1 : 2 ^ 52 ≤ n / 2 ^ (e + 1) := by
    rw [Nat.le_div_iff_mul_le hpos, Nat.mul_comm, ← hpow]
    exact hL1
  have h2 : 2 ≤ 2 ^ (e + 1) := by
    rw [Nat.pow_succ]
    have := Nat.two_pow_pos e
    omega
  generalize n / 2 ^ (e + 1) = q at hq1 hv
  generalize n % 2 ^ (e + 1) = r at hv
  generalize 2 ^ (e + 1) = w at hv h2
  have hq1' : q ≤ (if w < 2 * r ∨ 2 * r = w ∧ q % 2 = 1 then q + 1 else q) := by
    split <;> omega
  generalize (if w < 2 * r ∨ 2 * r = w ∧ q % 2 = 1 then q + 1 else q) = q1 at hq1' hv
  split at hv
  · simp only [Option.some.injEq] at hv
    rw [← hv]
    calc 2 ^ 53 = 2 ^ 52 * 2 := by norm_num
      _ ≤ q1 * w := Nat.mul_le_mul (Nat.le_trans hq1 hq1') h2
  · cases hv

theorem roundToDouble_small (n x : Nat) (hx : x < 2 ^ 53) (h : roundToDouble n = some x) :
    n = x := by
  by_cases hn : n < 2 ^ 53
  · rw [roundToDouble_of_lt n hn] at h
    exact Option.some.inj h
  · have := roundToDouble_ge n x (Nat.le_of_not_lt hn) h
    omega

theorem shortestCandidate_sound (x p c : Nat) (h : shortestCandidate x p = some c) :
    roundToDouble c = some x := by
  unfold shortestCandidate at h
  simp only [] at h
  split at h
  next h1 =>
    split at h
    next h2 =>
      split at h
      · cases h; exact h1
      · split at h
        · cases h; exact h2
        · split at h
          · cases h; exact h1
          · cases h; exact h2
    · cases h; exact h1
  · split at h
    next h2 => cases h; exact h2
    · cases h

theorem shortestInteger_sound (x : Nat) (hx : roundToDouble x = some x) :
    roundToDouble (shortestInteger x) = some x := by
  unfold shortestInteger
  cases hf : (List.range (decimalDigits x).length).reverse.findSome? (shortestCandidate x) with
  | none => exact hx
  | some c =>
    obtain ⟨p, _, hp⟩ := List.exists_of_findSome?_eq_some hf
    exact shortestCandidate_sound x p c hp

theorem shortestInteger_small (x : Nat) (hx : x < 2 ^ 53) : shortestInteger x = x :=
  roundToDouble_small _ x hx (shortestInteger_sound x (roundToDouble_of_lt x hx))

theorem decimalDigits_stripZerosAux (fuel : Nat) :
    ∀ x, x ≠ 0 → ∃ z, decimalDigits x =
      decimalDigits (stripZerosAux fuel x) ++ List.replicate z '0' := by
  induction fuel with
  | zero => exact fun x _ => ⟨0, by simp [stripZerosAux]⟩
  | succ f ih =>
    intro x hx
    unfold stripZerosAux
    by_cases h : x ≠ 0 ∧ x % 10 = 0
    · rw [if_pos h]
      have hge : 10 ≤ x := by omega
      have hne : x / 10 ≠ 0 := by omega
      obtain ⟨z, hz⟩ := ih (x / 10) hne
      refine ⟨z + 1, ?_⟩
      rw [decimalDigits_ge x hge, hz, h.2, List.replicate_succ', List.append_assoc]
    · rw [if_neg h]
      exact ⟨0, by simp⟩

theorem decimalDigits_length_le (j : Nat) : ∀ x, x < 10 ^ (j + 1) →
    (decimalDigits x).length ≤ j + 1 := by
  induction j with
  | zero =>
    intro x hx
    rw [decimalDigits_lt x (by simpa using hx)]
    simp
  | succ j ih =>
    intro x hx
    by_cases h : x < 10
    · rw [decimalDigits_lt x h]
      simp
    · rw [decimalDigits_ge x (by omega), List.length_append, List.length_singleton]
      have : x / 10 < 10 ^ (j + 1) := by
        rw [Nat.div_lt_iff_lt_mul (by norm_num)]
        rw [Nat.pow_succ] at hx
        exact hx
      have := ih (x / 10) this
      omega

/-- The string form of a non-zero integer below `2 ^ 53` is its decimal notation. -/
theorem toChars_ofInt (p : Int) (h0 : p ≠ 0) (hp : p.natAbs < 2 ^ 53) :
    (JSDouble.ofInt p).toChars =
      if p < 0 then '-' :: decimalDigits p.natAbs else decimalDigits p.natAbs := by
  have hx0 : p.natAbs ≠ 0 := Int.natAbs_ne_zero.mpr h0
  unfold JSDouble.ofInt
  rw [if_neg h0, roundToDouble_of_lt _ hp]
  simp only [shortestInteger_small _ hp]
  obtain ⟨z, hz⟩ := decimalDigits_stripZerosAux p.natAbs p.natAbs hx0
  have hlen : (decimalDigits p.natAbs).length =
      (decimalDigits (stripZeros p.natAbs)).length + z := by
    conv_lhs => rw [hz]
    simp [stripZeros]
  have h21 : (decimalDigits p.natAbs).length ≤ 21 := by
    have := decimalDigits_length_le 15 p.natAbs (by
      have : (2 : Nat) ^ 53 < 10 ^ 16 := by norm_num
      omega)
    omega
  unfold JSDouble.toChars
  simp only []
  have hcond : (((decimalDigits (stripZeros p.natAbs)).length : Nat) : Int) ≤
      (((decimalDigits p.natAbs).length : Nat) : Int) ∧
      (((decimalDigits p.natAbs).length : Nat) : Int) ≤ 21 := by
    constructor <;> omega
  rw [if_pos hcond]
  have hz' : (((decimalDigits p.natAbs).length : Nat) : Int) -
      (((decimalDigits (stripZeros p.natAbs)).length : Nat) : Int) = (z : Int) := by
    omega
  rw [hz', Int.toNat_ofNat]
  have hbody : decimalDigits (stripZeros p.natAbs) ++ List.replicate z '0' =
      decimalDigits p.natAbs := hz.symm
  rw [hbody]
  by_cases hneg : p < 0 <;> simp [hneg]

/-- For a non-zero integer below `2 ^ 53` in magnitude, given as a number, `parseInt` returns
the integer. -/
theorem parseInt_num (p : Int) (h0 : p ≠ 0) (hp : p.natAbs < 2 ^ 53) :
    parseInt (.num p) = .returned (.int p) := by
  have hx0 : p.natAbs ≠ 0 := Int.natAbs_ne_zero.mpr h0
  have hd := parseIntChars_digits (decimalDigits p.natAbs) []
    (decimalDigits_all _) (decimalDigits_ne_nil _) (Or.inl rfl)
  rw [List.append_nil, digitsValue_decimalDigits, Nat.zero_mul, Nat.zero_add] at hd
  have hs : ∀ b, signedNumber b (some p.natAbs) =
      if b then .int (-(p.natAbs : Int)) else .int p.natAbs := by
    intro b
    simp only [signedNumber, roundToDouble_of_lt _ hp, hx0, if_false]
  have e : parseInt (.num p) = .returned (parseIntChars (JSDouble.ofInt p).toChars) := rfl
  rw [e, toChars_ofInt p h0 hp]
  by_cases hneg : p < 0
  · rw [if_pos hneg, hd.2, hs]
    simp only [if_true]
    congr 2
    omega
  · rw [if_neg hneg, hd.1, hs]
    simp only [Bool.false_eq_true, if_false]
    congr 2
    omega

/-! ### The instance -/

theorem log_fields (s : SyncManager) (m : String) :
    (s.log m).2.syncMan = s.syncMan ∧ (s.log m).2.masterMedia = s.masterMedia ∧
    (s.log m).2.hostCalls = s.hostCalls ∧ (s.log m).2.emitted = s.emitted := by
  unfold SyncManager.log
  split <;> simp

theorem host_fields (s : SyncManager) (sm : MediaSynchroniser) (c : HostCall) :
    (s.host sm c).2.syncMan = s.syncMan ∧ (s.host sm c).2.masterMedia = s.masterMedia ∧
    (s.host sm c).2.hostCalls = s.hostCalls ++ [c] ∧ (s.host sm c).2.emitted = s.emitted := by
  unfold SyncManager.host
  simp only []
  split <;> simp

theorem initCount_append (xs : List HostCall) (c : HostCall) :
    initCount (xs ++ [c]) = initCount xs + (if c.op = .initMediaSynchroniser then 1 else 0) := by
  unfold initCount
  by_cases h : c.op = .initMediaSynchroniser <;> simp [List.filter_append, h]

theorem InitOnce_of_sameCore {s t : SyncManager} (h : SameCore s t) (hs : InitOnce s) :
    InitOnce t := by
  obtain ⟨h1, h2, h3⟩ := h
  unfold InitOnce MasterLocked at *
  rw [h1, h2, h3]
  exact hs

theorem MasterLocked_of_sameCore {s t : SyncManager} (h : SameCore s t) (hs : MasterLocked s) :
    MasterLocked t := by
  obtain ⟨h1, h2, _⟩ := h
  unfold MasterLocked at *
  rw [h1, h2]
  exact hs

/-- On a locked instance `setMasterMedia` fails at one of its first two checks. -/
theorem setMasterMedia_of_locked (s : SyncManager) (h : MasterLocked s) (master : Media)
    (tl_spec : Option String) :
    s.setMasterMedia master tl_spec =
      (.returned false, s.emit EVT_ERROR [.str (if s.syncMan = none
        then "Internal HbbTV MediaSynchroniser object is null."
        else "The media synchroniser already has a master element.")]) := by
  unfold SyncManager.setMasterMedia
  rcases h with h | h
  · simp [h]
  · cases hs : s.syncMan with
    | none => simp
    | some sm => simp [h]

theorem initWith_fields (s : SyncManager) (sm : MediaSynchroniser) (master : Media)
    (tl : String) :
    (s.initWith sm master tl).2.syncMan = s.syncMan ∧
    (s.initWith sm master tl).2.masterMedia = master ∧
    (s.initWith sm master tl).2.hostCalls =
      s.hostCalls ++ [.initMediaSynchroniser master tl] := by
  unfold SyncManager.initWith
  simp only []
  generalize hs1 : ({ s with masterMedia := master } : SyncManager) = s1
  have h1 := host_fields s1 sm (.initMediaSynchroniser master tl)
  have e1 : s1.syncMan = s.syncMan := by rw [← hs1]
  have e2 : s1.masterMedia = master := by rw [← hs1]
  have e3 : s1.hostCalls = s.hostCalls := by rw [← hs1]
  rcases hh : s1.host sm (.initMediaSynchroniser master tl) with ⟨o, s2⟩
  rw [hh] at h1
  cases o with
  | raised e => simp_all
  | returned v =>
    have h2 := log_fields s2 ("initMediaSync: " ++ tl)
    rcases hl : s2.log ("initMediaSync: " ++ tl) with ⟨o2, s3⟩
    rw [hl] at h2
    cases o2 <;> simp_all

/-- A call of `setMasterMedia` either leaves resource, master and host trace as they were, or
it found no master recorded, records a truthy one and invokes the host initialisation once. -/
theorem setMasterMedia_core (s : SyncManager) (master : Media) (tl_spec : Option String) :
    SameCore s (s.setMasterMedia master tl_spec).2 ∨
    (s.masterMedia.truthy = false ∧
      (s.setMasterMedia master tl_spec).2.syncMan = s.syncMan ∧
      (s.setMasterMedia master tl_spec).2.masterMedia.truthy = true ∧
      ∃ tl, (s.setMasterMedia master tl_spec).2.hostCalls =
        s.hostCalls ++ [.initMediaSynchroniser master tl]) := by
  unfold SyncManager.setMasterMedia
  cases hs : s.syncMan with
  | none => left; simp [SameCore, SyncManager.emit, hs]
  | some sm =>
    simp only []
    by_cases hm : s.masterMedia.truthy = true
    · left; simp [SameCore, SyncManager.emit, hs, hm]
    · by_cases ht : master.truthy = true
      · simp only [hm, ht, Bool.false_eq_true, if_false, Bool.not_true]
        cases hc : checkMediaState master with
        | raised e => left; simp [SameCore, hs]
        | returned b =>
          cases b with
          | false => left; simp [SameCore, SyncManager.emit, hs]
          | true =>
            simp only []
            split
            · left; simp [SameCore, SyncManager.emit, hs]
            · split
              · cases hi : inferTLSpecFromMedia master with
                | raised e => left; simp [SameCore, hs]
                | returned inferred =>
                  simp only []
                  split
                  · left; simp [SameCore, SyncManager.emit, hs]
                  · right
                    have hf := initWith_fields s sm master (strOrUndefined inferred)
                    refine ⟨trivial, by rw [hf.1, hs], by rw [hf.2.1]; exact ht,
                      _, hf.2.2⟩
              · right
                have hf := initWith_fields s sm master (strOrUndefined tl_spec)
                refine ⟨trivial, by rw [hf.1, hs], by rw [hf.2.1]; exact ht,
                  _, hf.2.2⟩
      · left; simp [SameCore, SyncManager.emit, hs, hm, ht]

theorem KeepsLock.locked {s t : SyncManager} (h : KeepsLock s t) (hs : MasterLocked s) :
    MasterLocked t := by
  rcases h.1 with h1 | ⟨h1, h2⟩
  · exact Or.inl h1
  · unfold MasterLocked at *
    rw [h1, h2]
    exact hs

theorem KeepsLock_of_sameCore {s t : SyncManager} (h : SameCore s t) : KeepsLock s t :=
  ⟨Or.inr ⟨h.1, h.2.1⟩, by rw [h.2.2]⟩

theorem KeepsLock_of_fields {s t : SyncManager} (c : HostCall)
    (hc : c.op ≠ .initMediaSynchroniser) (h1 : t.syncMan = s.syncMan)
    (h2 : t.masterMedia = s.masterMedia)
    (h3 : t.hostCalls = s.hostCalls ∨ t.hostCalls = s.hostCalls ++ [c]) : KeepsLock s t := by
  refine ⟨Or.inr ⟨h1, h2⟩, ?_⟩
  rcases h3 with h3 | h3
  · rw [h3]
  · rw [h3, initCount_append, if_neg hc, Nat.add_zero]

theorem addMediaObject_keepsLock (s : SyncManager) (obj : Media) (tl_spec : Option String)
    (cor : Option Correlation) : KeepsLock s (s.addMediaObject obj tl_spec cor).2 := by
  unfold SyncManager.addMediaObject
  cases hs : s.syncMan with
  | none => exact KeepsLock_of_sameCore (by simp [SameCore, SyncManager.emit, hs])
  | some sm =>
    simp only []
    split
    · exact KeepsLock_of_sameCore (by simp [SameCore, SyncManager.emit, hs])
    · have hf := host_fields s sm (.removeMediaObject obj)
      rcases hh : s.host sm (.removeMediaObject obj) with ⟨o, s1⟩
      rw [hh] at hf
      have : KeepsLock s s1 :=
        KeepsLock_of_fields (.removeMediaObject obj) (by simp [HostCall.op]) hf.1 hf.2.1 (Or.inr hf.2.2.1)
      cases o <;> exact this

theorem enableCII_keepsLock (s : SyncManager) : KeepsLock s s.enableCII.2 := by
  unfold SyncManager.enableCII
  cases hs : s.syncMan with
  | none => exact KeepsLock_of_sameCore (by simp [SameCore, hs])
  | some sm =>
    simp only []
    have hf := host_fields s sm .enableInterDeviceSync
    rcases hh : s.host sm .enableInterDeviceSync with ⟨o, s1⟩
    rw [hh] at hf
    cases o with
    | raised e =>
      exact KeepsLock_of_fields .enableInterDeviceSync (by simp [HostCall.op]) hf.1 hf.2.1 (Or.inr hf.2.2.1)
    | returned v =>
      simp only []
      have hl := log_fields s1 "enableCII called enableInterDeviceSync."
      rcases hk : s1.log "enableCII called enableInterDeviceSync." with ⟨o2, s2⟩
      rw [hk] at hl
      have : KeepsLock s s2 :=
        KeepsLock_of_fields .enableInterDeviceSync (by simp [HostCall.op]) (hl.1.trans hf.1)
          (hl.2.1.trans hf.2.1) (Or.inr (hl.2.2.1.trans hf.2.2.1))
      cases o2 <;> exact this

theorem disableCII_keepsLock (s : SyncManager) : KeepsLock s s.disableCII.2 := by
  unfold SyncManager.disableCII
  cases hs : s.syncMan with
  | none => exact KeepsLock_of_sameCore (by simp [SameCore, hs])
  | some sm =>
    simp only []
    have hf := host_fields s sm .disableInterDeviceSync
    rcases hh : s.host sm .disableInterDeviceSync with ⟨o, s1⟩
    rw [hh] at hf
    have : KeepsLock s s1 :=
      KeepsLock_of_fields .disableInterDeviceSync (by simp [HostCall.op]) hf.1 hf.2.1 (Or.inr hf.2.2.1)
    cases o <;> exact this

theorem log_keepsLock (s : SyncManager) (m : String) : KeepsLock s (s.log m).2 :=
  KeepsLock_of_sameCore ⟨(log_fields s m).1, (log_fields s m).2.1, (log_fields s m).2.2.1⟩

theorem KeepsLock_trans {s t u : SyncManager} (h1 : KeepsLock s t) (h2 : KeepsLock t u) :
    KeepsLock s u := by
  refine ⟨?_, h2.2.trans h1.2⟩
  rcases h2.1 with h | ⟨ha, hb⟩
  · exact Or.inl h
  · rcases h1.1 with h | ⟨hc, hd⟩
    · exact Or.inl (ha.trans h)
    · exact Or.inr ⟨ha.trans hc, hb.trans hd⟩

theorem stopBody_keepsLock (s : SyncManager) : KeepsLock s s.stopBody.2 := by
  unfold SyncManager.stopBody
  simp only []
  generalize hs1 : ({ s with listeners := [] } : SyncManager) = s1
  have e1 : s1.syncMan = s.syncMan := by rw [← hs1]
  have e2 : s1.masterMedia = s.masterMedia := by rw [← hs1]
  have e3 : s1.hostCalls = s.hostCalls := by rw [← hs1]
  have hsame : KeepsLock s s1 := KeepsLock_of_sameCore ⟨e1, e2, e3⟩
  split
  · exact hsame
  · cases hs : s.syncMan with
    | none => exact hsame
    | some sm =>
      have hf := host_fields s1 sm (.removeMediaObject s.masterMedia)
      rcases hh : s1.host sm (.removeMediaObject s.masterMedia) with ⟨o, s2⟩
      rw [hh] at hf
      simp only [hh]
      cases o with
      | raised e =>
        exact KeepsLock_of_fields (.removeMediaObject s.masterMedia) (by simp [HostCall.op])
          (hf.1.trans e1) (hf.2.1.trans e2) (Or.inr (by rw [hf.2.2.1, e3]))
      | returned v =>
        refine ⟨Or.inl rfl, ?_⟩
        show initCount s2.hostCalls = initCount s.hostCalls
        rw [hf.2.2.1, initCount_append, e3]
        simp [HostCall.op]

theorem stop_keepsLock (s : SyncManager) : KeepsLock s s.stop.2 := by
  unfold SyncManager.stop
  have hb := stopBody_keepsLock s
  rcases hh : s.stopBody with ⟨o, s1⟩
  rw [hh] at hb
  cases o with
  | returned v => exact hb
  | raised e => exact KeepsLock_trans hb (log_keepsLock s1 _)

theorem onError_keepsLock (s : SyncManager) (c : Int) : KeepsLock s (s.onError c).2 := by
  unfold SyncManager.onError
  simp only []
  have hl := log_keepsLock s (errorInfo c).1
  rcases hk : s.log (errorInfo c).1 with ⟨o, s1⟩
  rw [hk] at hl
  cases o with
  | raised e => exact hl
  | returned v =>
    exact KeepsLock_trans hl (KeepsLock_of_sameCore (by simp [SameCore, SyncManager.emit]))

theorem onInterDeviceSyncEnabled_keepsLock (s : SyncManager) :
    KeepsLock s s.onInterDeviceSyncEnabled.2 := by
  unfold SyncManager.onInterDeviceSyncEnabled
  have hl := log_keepsLock s "enableCII: inter-device sync enabled."
  rcases hk : s.log "enableCII: inter-device sync enabled." with ⟨o, s1⟩
  rw [hk] at hl
  cases o with
  | raised e => exact hl
  | returned v =>
    exact KeepsLock_trans hl (KeepsLock_of_sameCore (by simp [SameCore, SyncManager.emit]))

/-- Every call other than `setMasterMedia` keeps the lock and the initialisation count. -/
theorem step_keepsLock (s : SyncManager) (c : Call)
    (hc : ∀ master tl_spec, c ≠ .setMasterMedia master tl_spec) : KeepsLock s (s.step c) := by
  cases c with
  | setMasterMedia master tl_spec => exact absurd rfl (hc master tl_spec)
  | addMediaObject obj tl_spec cor => exact addMediaObject_keepsLock s obj tl_spec cor
  | enableCII => exact enableCII_keepsLock s
  | disableCII => exact disableCII_keepsLock s
  | currentTime =>
    refine KeepsLock_of_sameCore ?_
    unfold SyncManager.step SyncManager.currentTime
    cases s.syncMan <;> simp [SameCore]
  | stop => exact stop_keepsLock s
  | addListener name => exact KeepsLock_of_sameCore (by simp [SameCore, SyncManager.step])
  | assignLog => exact KeepsLock_of_sameCore (by simp [SameCore, SyncManager.step])
  | assignRemoveAudioTrack => exact KeepsLock_of_sameCore (by simp [SameCore, SyncManager.step])
  | hostError lastError => exact onError_keepsLock s lastError
  | interDeviceSyncEnabled => exact onInterDeviceSyncEnabled_keepsLock s
  | interDeviceSyncDisabled =>
    exact KeepsLock_of_sameCore
      (by simp [SameCore, SyncManager.step, SyncManager.onInterDeviceSyncDisabled,
        SyncManager.emit])

theorem step_locked (s : SyncManager) (c : Call) (h : MasterLocked s) :
    MasterLocked (s.step c) := by
  by_cases hc : ∃ master tl_spec, c = .setMasterMedia master tl_spec
  · obtain ⟨master, tl_spec, rfl⟩ := hc
    show MasterLocked (s.setMasterMedia master tl_spec).2
    rw [setMasterMedia_of_locked s h]
    exact MasterLocked_of_sameCore (by simp [SameCore, SyncManager.emit]) h
  · exact (step_keepsLock s c (fun m tl e => hc ⟨m, tl, e⟩)).locked h

theorem run_locked (calls : List Call) (s : SyncManager) (h : MasterLocked s) :
    MasterLocked (s.run calls) := by
  induction calls generalizing s with
  | nil => exact h
  | cons c cs ih => exact ih (s.step c) (step_locked s c h)

theorem step_initOnce (s : SyncManager) (c : Call) (h : InitOnce s) : InitOnce (s.step c) := by
  by_cases hc : ∃ master tl_spec, c = .setMasterMedia master tl_spec
  · obtain ⟨master, tl_spec, rfl⟩ := hc
    show InitOnce (s.setMasterMedia master tl_spec).2
    rcases setMasterMedia_core s master tl_spec with hc | ⟨hm, h1, h2, tl, h3⟩
    · exact InitOnce_of_sameCore hc h
    · rcases h with h | ⟨_, hl⟩
      · right
        refine ⟨?_, Or.inr h2⟩
        rw [h3, initCount_append, h]
        simp [HostCall.op]
      · exfalso
        rcases hl with hl | hl
        · rw [setMasterMedia_of_locked s (Or.inl hl)] at h2
          simp [SyncManager.emit, hm] at h2
        · rw [hm] at hl
          cases hl
  · have hk := step_keepsLock s c (fun m tl e => hc ⟨m, tl, e⟩)
    rcases h with h | ⟨h, hl⟩
    · exact Or.inl (hk.2.trans h)
    · exact Or.inr ⟨hk.2.trans h, hk.locked hl⟩

theorem run_initOnce (calls : List Call) (s : SyncManager) (h : InitOnce s) :
    InitOnce (s.run calls) := by
  induction calls generalizing s with
  | nil => exact h
  | cons c cs ih => exact ih (s.step c) (step_initOnce s c h)

theorem step_retains (m : Media) (hm : m.truthy = true) (s : SyncManager) (c : Call)
    (h : Retains m s) : Retains m (s.step c) := by
  have hl : MasterLocked s := by
    rcases h with h | h
    · exact Or.inl h
    · exact Or.inr (by rw [h]; exact hm)
  by_cases hc : ∃ master tl_spec, c = .setMasterMedia master tl_spec
  · obtain ⟨master, tl_spec, rfl⟩ := hc
    show Retains m (s.setMasterMedia master tl_spec).2
    rw [setMasterMedia_of_locked s hl]
    exact h
  · rcases (step_keepsLock s c (fun m tl e => hc ⟨m, tl, e⟩)).1 with h1 | ⟨h1, h2⟩
    · exact Or.inl h1
    · unfold Retains
      rw [h1, h2]
      exact h

theorem run_retains (m : Media) (hm : m.truthy = true) (calls : List Call) (s : SyncManager)
    (h : Retains m s) : Retains m (s.run calls) := by
  induction calls generalizing s with
  | nil => exact h
  | cons c cs ih => exact ih (s.step c) (step_retains m hm s c h)

theorem initCount_le_one_of_initOnce {s : SyncManager} (h : InitOnce s) :
    initCount s.hostCalls ≤ 1 := by
  rcases h with h | ⟨h, _⟩ <;> omega

/-- C1: once a master media is recorded on an instance (`masterMedia` is truthy), then after
any further sequence of calls a call of `setMasterMedia` with any arguments returns `false`,
emits exactly one `EVT_ERROR`, invokes no host operation and leaves the master and the
resource as they are; the recorded master stays the recorded one for as long as the resource
is held; and on an instance that starts with no host initialisation, the host
`initMediaSynchroniser` is invoked at most once over any sequence of calls. -/
theorem setMasterMedia_single_use (self : SyncManager) (h : self.masterMedia.truthy = true)
    (calls : List Call) (master : Media) (tl_spec : Option String) :
    ((self.run calls).setMasterMedia master tl_spec).1 = .returned false ∧
    (∃ msg, ((self.run calls).setMasterMedia master tl_spec).2.emitted =
      (self.run calls).emitted ++ [⟨SyncManager.EVT_ERROR, [.str msg]⟩]) ∧
    ((self.run calls).setMasterMedia master tl_spec).2.hostCalls = (self.run calls).hostCalls ∧
    ((self.run calls).setMasterMedia master tl_spec).2.masterMedia =
      (self.run calls).masterMedia ∧
    ((self.run calls).setMasterMedia master tl_spec).2.syncMan = (self.run calls).syncMan ∧
    ((self.run calls).syncMan ≠ none → (self.run calls).masterMedia = self.masterMedia) ∧
    (∀ (fresh : SyncManager) (cs : List Call), initCount fresh.hostCalls = 0 →
      initCount (fresh.run cs).hostCalls ≤ 1) := by
  have hl : MasterLocked (self.run calls) := run_locked calls self (Or.inr h)
  have hr : Retains self.masterMedia (self.run calls) :=
    run_retains self.masterMedia h calls self (Or.inr rfl)
  rw [setMasterMedia_of_locked _ hl]
  refine ⟨rfl, ⟨_, rfl⟩, rfl, rfl, rfl, ?_, ?_⟩
  · intro hne
    rcases hr with hr | hr
    · exact absurd hr hne
    · exact hr
  · intro fresh cs h0
    exact initCount_le_one_of_initOnce (run_initOnce cs fresh (Or.inl h0))

/-- Witness for C1: an armed instance, then `enableCII`, then a second `setMasterMedia`. -/
theorem setMasterMedia_single_use_witness :
    armedExample.masterMedia.truthy = true ∧
    ((armedExample.run [.enableCII]).setMasterMedia
      (.element ⟨"video", none, none, some 4, some 2, "http://a/b.mp4"⟩) none).1 =
      .returned false :=
  ⟨by decide, (setMasterMedia_single_use armedExample (by decide) [.enableCII]
    (.element ⟨"video", none, none, some 4, some 2, "http://a/b.mp4"⟩) none).1⟩

/-! ### What holds of the defective paths once the defect is set aside -/

theorem checkMediaState_true_truthy (master : Media)
    (h : checkMediaState master = .returned true) : master.truthy = true := by
  cases master with
  | absent => simp [checkMediaState, notInstanceofHTMLElement] at h
  | nonElement => rfl
  | element e => rfl

theorem inferTLSpecFromMedia_truthy (o : Media) (tl : Option String)
    (h : inferTLSpecFromMedia o = .returned tl) (ht : tl ≠ none) : truthyStr tl = true := by
  cases o with
  | absent =>
    simp only [inferTLSpecFromMedia, Outcome.returned.injEq] at h
    exact absurd h.symm ht
  | nonElement => simp [inferTLSpecFromMedia] at h
  | element e =>
    unfold inferTLSpecFromMedia at h
    simp only [] at h
    split at h
    · split at h <;> simp only [Outcome.returned.injEq] at h <;> subst h <;>
        first | decide | exact absurd rfl ht
    · split at h
      · split at h
        · simp only [Outcome.returned.injEq] at h; subst h; decide
        · split at h <;> simp only [Outcome.returned.injEq] at h <;> subst h <;>
            first | decide | exact absurd rfl ht
      · simp only [Outcome.returned.injEq] at h
        exact absurd h.symm ht

/-- With a member `log` on the instance and a host initialisation that does not raise, the
success path of `setMasterMedia` returns `true`, records the master and invokes the host
once with the supplied or the inferred specifier. -/
theorem setMasterMedia_success_with_log (self : SyncManager) (sm : MediaSynchroniser)
    (master : Media) (tl_spec : Option String) (tl : String)
    (hs : self.syncMan = some sm) (hm : self.masterMedia.truthy = false)
    (hlog : self.hasLog = true) (hhost : HostOp.initMediaSynchroniser ∉ sm.failing)
    (hstate : checkMediaState master = .returned true)
    (htl : (tl_spec = some tl ∧ truthyStr tl_spec = true ∧ checkTLSpec tl = true) ∨
      (truthyStr tl_spec = false ∧ inferTLSpecFromMedia master = .returned (some tl))) :
    self.setMasterMedia master tl_spec =
      (.returned true,
        { self with
          masterMedia := master
          hostCalls := self.hostCalls ++ [.initMediaSynchroniser master tl]
          logged := self.logged ++ ["initMediaSync: " ++ tl] }) := by
  have hmt := checkMediaState_true_truthy master hstate
  have hinit : ∀ t : String, self.initWith sm master t =
      (.returned true,
        { self with
          masterMedia := master
          hostCalls := self.hostCalls ++ [.initMediaSynchroniser master t]
          logged := self.logged ++ ["initMediaSync: " ++ t] }) := by
    intro t
    simp [SyncManager.initWith, SyncManager.host, SyncManager.log, HostCall.op, hhost, hlog]
  unfold SyncManager.setMasterMedia
  rcases htl with ⟨h1, h2, h3⟩ | ⟨h1, h2⟩
  · subst h1
    simp [hs, hm, hmt, hstate, h2, h3, strOrUndefined, hinit]
  · have h3 := inferTLSpecFromMedia_truthy master (some tl) h2 (by simp)
    simp [hs, hm, hmt, hstate, h1, h2, h3, strOrUndefined, hinit]

/-- The checks of `setMasterMedia` in their order, for a master that is absent or an
element: each failing check emits its own message as one `EVT_ERROR` and returns `false`,
leaving everything else as it was. -/
theorem setMasterMedia_precondition_order (self : SyncManager) (master : Media)
    (tl_spec : Option String) :
    (self.syncMan = none →
      self.setMasterMedia master tl_spec = (.returned false,
        self.emit EVT_ERROR [.str "Internal HbbTV MediaSynchroniser object is null."])) ∧
    (self.syncMan ≠ none → self.masterMedia.truthy = true →
      self.setMasterMedia master tl_spec = (.returned false,
        self.emit EVT_ERROR [.str "The media synchroniser already has a master element."])) ∧
    (self.syncMan ≠ none → self.masterMedia.truthy = false → master.truthy = false →
      self.setMasterMedia master tl_spec = (.returned false,
        self.emit EVT_ERROR [.str "Need to call with a supported HbbTV media element."])) ∧
    (self.syncMan ≠ none → self.masterMedia.truthy = false → master.truthy = true →
      checkMediaState master = .returned false →
      self.setMasterMedia master tl_spec = (.returned false,
        self.emit EVT_ERROR [.str ("The media element is not in a sufficient state to get " ++
          "a master in HbbTV media synchronisation.")])) ∧
    (self.syncMan ≠ none → self.masterMedia.truthy = false → master.truthy = true →
      checkMediaState master = .returned true → truthyStr tl_spec = true →
      checkTLSpec (strOrUndefined tl_spec) = false →
      self.setMasterMedia master tl_spec = (.returned false,
        self.emit EVT_ERROR
          [.str ("The timeline spec is not valid: " ++ strOrUndefined tl_spec)])) ∧
    (self.syncMan ≠ none → self.masterMedia.truthy = false → master.truthy = true →
      checkMediaState master = .returned true → truthyStr tl_spec = false →
      inferTLSpecFromMedia master = .returned none →
      self.setMasterMedia master tl_spec = (.returned false,
        self.emit EVT_ERROR [.str "Can't infer timeline spec from given media element."])) := by
  unfold SyncManager.setMasterMedia
  refine ⟨?_, ?_, ?_, ?_, ?_, ?_⟩
  · intro h
    simp [h]
  · intro h hm
    cases hs : self.syncMan with
    | none => exact absurd hs h
    | some sm => simp [hm]
  · intro h hm ht
    cases hs : self.syncMan with
    | none => exact absurd hs h
    | some sm => simp [hm, ht]
  · intro h hm ht hc
    cases hs : self.syncMan with
    | none => exact absurd hs h
    | some sm => simp [hm, ht, hc]
  · intro h hm ht hc h1 h2
    cases hs : self.syncMan with
    | none => exact absurd hs h
    | some sm => simp [hm, ht, hc, h1, h2]
  · intro h hm ht hc h1 h2
    cases hs : self.syncMan with
    | none => exact absurd hs h
    | some sm =>
      have h3 : truthyStr none = false := rfl
      simp [hm, ht, hc, h1, h2, h3]

theorem num_truthy (p : Int) (hp : p ≠ 0) : (JSVal.num p).truthy = true := by
  unfold JSVal.num JSDouble.ofInt
  rw [if_neg hp]
  cases roundToDouble p.natAbs <;> rfl

/-- For non-zero integers of a magnitude below `2 ^ 53`, given as numbers, the tuple is taken
over as it is, under either pair of names. -/
theorem translate_correlation_ts_nonzero (p m : Int) (hp : p ≠ 0) (hm : m ≠ 0)
    (hp53 : p.natAbs < 2 ^ 53) (hm53 : m.natAbs < 2 ^ 53) :
    translate_correlation_ts (some ⟨.num p, .num m, .undefined, .undefined⟩) =
      .returned ⟨.int p, .int m⟩ ∧
    translate_correlation_ts (some ⟨.undefined, .undefined, .num p, .num m⟩) =
      .returned ⟨.int p, .int m⟩ := by
  have hu : JSVal.undefined.truthy = false := rfl
  simp [translate_correlation_ts, hu, num_truthy p hp, num_truthy m hm,
    parseInt_num p hp hp53, parseInt_num m hm hm53, CorrelationTimestamp.ofParsed]

/-- The documented examples of correlation normalisation. -/
theorem translate_correlation_ts_examples :
    translate_correlation_ts (some ⟨.str "10", .str "20", .undefined, .undefined⟩) =
      .returned ⟨.int 10, .int 20⟩ ∧
    translate_correlation_ts (some ⟨.undefined, .undefined, .str "0", .str "-3"⟩) =
      .returned ⟨.int 0, .int (-3)⟩ ∧
    translate_correlation_ts (some ⟨.undefined, .undefined, .undefined, .undefined⟩) =
      .returned ⟨.int 0, .int 0⟩ ∧
    translate_correlation_ts none = .returned ⟨.int 0, .int 0⟩ := by
  decide

/-- With a member `log` on the instance the error handler logs the description and emits one
`EVT_MS_ERROR` with the code, the transience flag and the description. -/
theorem onError_emits_with_log (self : SyncManager) (hlog : self.hasLog = true)
    (lastError : Int) :
    self.onError lastError =
      (.returned (),
        { self with
          logged := self.logged ++ [(errorInfo lastError).1]
          emitted := self.emitted ++ [⟨EVT_MS_ERROR,
            [.num lastError, .bool (errorInfo lastError).2, .str (errorInfo lastError).1]⟩] }) := by
  simp [SyncManager.onError, SyncManager.log, SyncManager.emit, hlog]

/-- The transience flags of the table, and the default for a code outside it. -/
theorem errorInfo_flags (c : Int) :
    ((c < 1 ∨ c = 12 ∨ 19 < c) → errorInfo c = ("unknown", false)) ∧
    ((errorInfo c).2 = true ↔ c ∈ ([1, 2, 3, 4, 5, 7, 8, 9, 11, 13, 17, 19] : List Int)) := by
  by_cases h : 1 ≤ c ∧ c ≤ 19
  · obtain ⟨h1, h2⟩ := h
    interval_cases c <;> decide
  · have hne : ∀ k : Int, 1 ≤ k → k ≤ 19 → c ≠ k := by
      intro k hk1 hk2 hck
      exact h (hck ▸ ⟨hk1, hk2⟩)
    have e : errorInfo c = ("unknown", false) := by
      unfold errorInfo
      simp [hne]
    refine ⟨fun _ => e, ?_⟩
    rw [e]
    simp only [Bool.false_eq_true, false_iff]
    intro hmem
    simp only [List.mem_cons, List.mem_singleton, List.not_mem_nil, or_false] at hmem
    omega

/-- The listed examples of the grammar: five valid specifiers and two invalid ones. -/
theorem checkTLSpec_examples :
    checkTLSpec "urn:dvb:css:timeline:pts" = true ∧
    checkTLSpec "urn:dvb:css:timeline:ct" = true ∧
    checkTLSpec "urn:dvb:css:timeline:temi:1:1" = true ∧
    checkTLSpec "urn:dvb:css:timeline:mpd:period:rel:1000" = true ∧
    checkTLSpec "urn:dvb:css:timeline:mpd:period:rel:1000:abc" = true ∧
    checkTLSpec "urn:dvb:css:timeline:foo" = false ∧
    checkTLSpec "urn:dvb:css:timeline:temi:1" = false := by
  decide

/-! ### The expression of `checkTLSpec` against the grammar -/

namespace Regex

theorem matchesAll_none (x : List Char) : none.matchesAll x = false := by
  induction x with
  | nil => rfl
  | cons c cs ih => exact ih

theorem matchesAll_eps (x : List Char) : eps.matchesAll x = true ↔ x = [] := by
  cases x with
  | nil => simp [matchesAll, nullable]
  | cons c cs => simp [matchesAll, deriv, matchesAll_none]

theorem matchesAll_chr (d : Char) (x : List Char) : (chr d).matchesAll x = true ↔ x = [d] := by
  cases x with
  | nil => simp [matchesAll, nullable]
  | cons c cs =>
    simp only [matchesAll, deriv]
    by_cases h : c = d
    · simp [h, matchesAll_eps]
    · simp [h, matchesAll_none]

theorem matchesAll_range (lo hi : Char) (x : List Char) :
    (range lo hi).matchesAll x = true ↔
      ∃ c, x = [c] ∧ lo.toNat ≤ c.toNat ∧ c.toNat ≤ hi.toNat := by
  cases x with
  | nil => simp [matchesAll, nullable]
  | cons c cs =>
    simp only [matchesAll, deriv]
    by_cases h : lo.toNat ≤ c.toNat ∧ c.toNat ≤ hi.toNat
    · simp only [h, and_self, if_true, matchesAll_eps]
      constructor
      · rintro rfl
        exact ⟨c, rfl, h⟩
      · rintro ⟨d, hd, _⟩
        simpa using (List.cons.inj hd).2
    · simp only [h, if_false, matchesAll_none, Bool.false_eq_true, false_iff]
      rintro ⟨d, hd, h1⟩
      obtain ⟨rfl, _⟩ := List.cons.inj hd
      exact h h1

theorem matchesAll_alt (a b : Regex) (x : List Char) :
    (alt a b).matchesAll x = (a.matchesAll x || b.matchesAll x) := by
  induction x generalizing a b with
  | nil => rfl
  | cons c cs ih => exact ih (a.deriv c) (b.deriv c)

theorem matchesAll_seq (a b : Regex) (x : List Char) :
    (seq a b).matchesAll x = true ↔
      ∃ t u, x = t ++ u ∧ a.matchesAll t = true ∧ b.matchesAll u = true := by
  induction x generalizing a with
  | nil =>
    simp only [matchesAll, nullable, Bool.and_eq_true]
    constructor
    · rintro ⟨h1, h2⟩
      exact ⟨[], [], rfl, h1, h2⟩
    · rintro ⟨t, u, h, h1, h2⟩
      obtain ⟨rfl, rfl⟩ := List.append_eq_nil.mp h.symm
      exact ⟨h1, h2⟩
  | cons c cs ih =>
    have step : (seq a b).matchesAll (c :: cs) = ((seq a b).deriv c).matchesAll cs := rfl
    rw [step]
    simp only [deriv]
    by_cases hn : a.nullable = true
    · simp only [hn, if_true, matchesAll_alt, Bool.or_eq_true, ih]
      constructor
      · rintro (⟨t, u, h, h1, h2⟩ | h)
        · exact ⟨c :: t, u, by rw [h]; rfl, h1, h2⟩
        · exact ⟨[], c :: cs, rfl, hn, h⟩
      · rintro ⟨t, u, h, h1, h2⟩
        cases t with
        | nil =>
          right
          rw [List.nil_append] at h
          rw [← h] at h2
          exact h2
        | cons d t =>
          left
          obtain ⟨rfl, h'⟩ := List.cons.inj h
          exact ⟨t, u, h', h1, h2⟩
    · simp only [hn, Bool.false_eq_true, if_false, ih]
      constructor
      · rintro ⟨t, u, h, h1, h2⟩
        exact ⟨c :: t, u, by rw [h]; rfl, h1, h2⟩
      · rintro ⟨t, u, h, h1, h2⟩
        cases t with
        | nil => exact absurd h1 hn
        | cons d t =>
          obtain ⟨rfl, h'⟩ := List.cons.inj h
          exact ⟨t, u, h', h1, h2⟩

theorem matchesAll_lit (s x : List Char) : (lit s).matchesAll x = true ↔ x = s := by
  induction s generalizing x with
  | nil => exact matchesAll_eps x
  | cons d s ih =>
    simp only [lit, matchesAll_seq, matchesAll_chr, ih]
    constructor
    · rintro ⟨t, u, rfl, rfl, rfl⟩
      rfl
    · rintro rfl
      exact ⟨[d], s, rfl, rfl, rfl⟩

/-- A starred one-character class matches exactly the strings of characters of the class. -/
theorem matchesAll_star_class (a : Regex) (P : Char → Prop)
    (ha : ∀ t, a.matchesAll t = true ↔ ∃ c, t = [c] ∧ P c) (x : List Char) :
    (star a).matchesAll x = true ↔ ∀ c ∈ x, P c := by
  induction x with
  | nil => simp [matchesAll, nullable]
  | cons c cs ih =>
    have step : (star a).matchesAll (c :: cs) = (seq (a.deriv c) (star a)).matchesAll cs := rfl
    rw [step, matchesAll_seq]
    constructor
    · rintro ⟨t, u, h, h1, h2⟩
      have h1' : a.matchesAll (c :: t) = true := h1
      obtain ⟨d, hd, hP⟩ := (ha (c :: t)).mp h1'
      obtain ⟨rfl, rfl⟩ := List.cons.inj hd
      rw [List.nil_append] at h
      subst h
      intro e he
      rcases List.mem_cons.mp he with rfl | he
      · exact hP
      · exact ih.mp h2 e he
    · intro h
      refine ⟨[], cs, rfl, ?_, ih.mpr (fun e he => h e (List.mem_cons_of_mem c he))⟩
      exact (ha [c]).mpr ⟨c, rfl, h c (List.mem_cons_self c cs)⟩

/-- A one-character class with `+` matches exactly the non-empty strings of the class. -/
theorem matchesAll_plus_class (a : Regex) (P : Char → Prop)
    (ha : ∀ t, a.matchesAll t = true ↔ ∃ c, t = [c] ∧ P c) (x : List Char) :
    (plus a).matchesAll x = true ↔ x ≠ [] ∧ ∀ c ∈ x, P c := by
  unfold plus
  rw [matchesAll_seq]
  constructor
  · rintro ⟨t, u, rfl, h1, h2⟩
    obtain ⟨d, rfl, hP⟩ := (ha t).mp h1
    refine ⟨by simp, ?_⟩
    intro e he
    rcases List.mem_cons.mp he with rfl | he
    · exact hP
    · exact (matchesAll_star_class a P ha u).mp h2 e he
  · rintro ⟨hne, h⟩
    cases x with
    | nil => exact absurd rfl hne
    | cons c cs =>
      exact ⟨[c], cs, rfl, (ha [c]).mpr ⟨c, rfl, h c (List.mem_cons_self c cs)⟩,
        (matchesAll_star_class a P ha cs).mpr (fun e he => h e (List.mem_cons_of_mem c he))⟩

end Regex

theorem reDigit_plus_iff (x : List Char) : reDigit.plus.matchesAll x = true ↔ IsDigits x :=
  Regex.matchesAll_plus_class reDigit IsDecimalDigit
    (fun t => Regex.matchesAll_range '0' '9' t) x

theorem reLowerAlnum_plus_iff (x : List Char) :
    reLowerAlnum.plus.matchesAll x = true ↔ x ≠ [] ∧ ∀ c ∈ x, IsTickRateChar c := by
  refine Regex.matchesAll_plus_class reLowerAlnum IsTickRateChar (fun t => ?_) x
  unfold reLowerAlnum IsTickRateChar IsDecimalDigit
  rw [Regex.matchesAll_alt, Bool.or_eq_true, Regex.matchesAll_range, Regex.matchesAll_range]
  constructor
  · rintro (⟨c, rfl, h⟩ | ⟨c, rfl, h⟩)
    · exact ⟨c, rfl, Or.inl h⟩
    · exact ⟨c, rfl, Or.inr h⟩
  · rintro ⟨c, rfl, h | h⟩
    · exact Or.inl ⟨c, rfl, h⟩
    · exact Or.inr ⟨c, rfl, h⟩

/-- The expression of `checkTLSpec` matches a whole string exactly when the string is a
timeline specifier of the grammar. -/
theorem tlSpecRegex_iff (x : List Char) :
    tlSpecRegex.matchesAll x = true ↔ IsTimelineSpecifier x := by
  unfold tlSpecRegex IsTimelineSpecifier
  simp only [Regex.matchesAll_seq, Regex.matchesAll_alt, Bool.or_eq_true, Regex.matchesAll_lit,
    Regex.matchesAll_chr, reDigit_plus_iff, reLowerAlnum_plus_iff, Regex.opt,
    Regex.matchesAll_eps]
  constructor
  · rintro ⟨t, rest, rfl, rfl, h⟩
    refine ⟨rest, rfl, ?_⟩
    rcases h with ⟨t1, u1, rfl, rfl, n, o, rfl, hn, ho⟩ | rfl | rfl |
      ⟨t1, u1, rfl, rfl, a, r, rfl, ha, c1, b, rfl, rfl, hb⟩
    · rcases ho with ⟨c1, tk, rfl, rfl, htk⟩ | rfl
      · exact Or.inr (Or.inl ⟨n, tk, hn, htk.1, htk.2, rfl⟩)
      · exact Or.inl ⟨n, hn, by rw [List.append_nil]⟩
    · exact Or.inr (Or.inr (Or.inl rfl))
    · exact Or.inr (Or.inr (Or.inr (Or.inl rfl)))
    · exact Or.inr (Or.inr (Or.inr (Or.inr ⟨a, b, ha, hb, rfl⟩)))
  · rintro ⟨rest, rfl, h⟩
    refine ⟨_, rest, rfl, rfl, ?_⟩
    rcases h with ⟨n, hn, rfl⟩ | ⟨n, t, hn, ht1, ht2, rfl⟩ | rfl | rfl | ⟨a, b, ha, hb, rfl⟩
    · exact Or.inl ⟨_, n, rfl, rfl, n, [], by rw [List.append_nil], hn, Or.inr rfl⟩
    · exact Or.inl ⟨_, _, rfl, rfl, n, ':' :: t, rfl, hn, Or.inl ⟨[':'], t, rfl, rfl, ht1, ht2⟩⟩
    · exact Or.inr (Or.inl rfl)
    · exact Or.inr (Or.inr (Or.inl rfl))
    · exact Or.inr (Or.inr (Or.inr ⟨_, _, rfl, rfl, a, ':' :: b, rfl, ha, [':'], b, rfl, rfl, hb⟩))

theorem matchToLineEnd_of_single_line (r : Regex) (x : List Char)
    (h : ∀ c ∈ x, isLineTerminator c = false) : matchToLineEnd r x = r.matchesAll x := by
  induction x generalizing r with
  | nil => rfl
  | cons c cs ih =>
    simp only [matchToLineEnd, h c (List.mem_cons_self c cs), Bool.and_false, Bool.false_or]
    exact ih (r.deriv c) (fun e he => h e (List.mem_cons_of_mem c he))

theorem testMultiline_false_of_single_line (r : Regex) (x : List Char)
    (h : ∀ c ∈ x, isLineTerminator c = false) : testMultiline r false x = false := by
  induction x with
  | nil => rfl
  | cons c cs ih =>
    simp only [testMultiline, Bool.false_and, Bool.false_or, h c (List.mem_cons_self c cs)]
    exact ih (fun e he => h e (List.mem_cons_of_mem c he))

theorem testMultiline_of_single_line (r : Regex) (x : List Char)
    (h : ∀ c ∈ x, isLineTerminator c = false) : testMultiline r true x = r.matchesAll x := by
  cases x with
  | nil => simp [testMultiline, Regex.matchesAll]
  | cons c cs =>
    simp only [testMultiline, Bool.true_and, h c (List.mem_cons_self c cs)]
    rw [testMultiline_false_of_single_line r cs (fun e he => h e (List.mem_cons_of_mem c he)),
      Bool.or_false, matchToLineEnd_of_single_line r (c :: cs) h]

/-- On a string without line terminators `checkTLSpec` decides the grammar of the
specification. -/
theorem checkTLSpec_single_line (tls : String)
    (h : ∀ c ∈ tls.data, isLineTerminator c = false) :
    checkTLSpec tls = true ↔ IsTimelineSpecifier tls.data := by
  unfold checkTLSpec
  rw [testMultiline_of_single_line tlSpecRegex tls.data h]
  exact tlSpecRegex_iff tls.data

/-! ### Claims C2 to C10 -/

/-- C2 (code defect): on a freshly constructed instance, `setMasterMedia` with a broadcast
object in the presenting state and the valid specifier `urn:dvb:css:timeline:pts` records
the master and invokes the host `initMediaSynchroniser` once, and then raises a `TypeError`
at `this.log(...)` instead of returning `true`. -/
theorem setMasterMedia_raises_at_log :
    SyncManager.new (.object true hostExample) = .returned freshExample ∧
    freshExample.setMasterMedia broadcastObject (some "urn:dvb:css:timeline:pts") =
      (.raised .typeError,
        { freshExample with
          masterMedia := broadcastObject
          hostCalls := [.initMediaSynchroniser broadcastObject "urn:dvb:css:timeline:pts"] }) := by
  decide

/-- C3 (code defect): on a freshly constructed instance, `setMasterMedia` with a truthy
value that has no `tagName` raises a `TypeError` inside `checkMediaState`; it returns
nothing and emits nothing. -/
theorem setMasterMedia_raises_on_nonElement :
    checkMediaState .nonElement = .raised .typeError ∧
    freshExample.setMasterMedia .nonElement (some "urn:dvb:css:timeline:pts") =
      (.raised .typeError, freshExample) := by
  decide

/-- C4 (code defect): on a freshly constructed instance, with no master set,
`addMediaObject` with a video element returns `true`, emits nothing and invokes the host
`removeMediaObject`. -/
theorem addMediaObject_before_master :
    freshExample.masterMedia = .absent ∧
    freshExample.addMediaObject (videoElement "http://a/b.mp4") none none =
      (.returned true,
        { freshExample with
          hostCalls := [.removeMediaObject (videoElement "http://a/b.mp4")] }) := by
  decide

/-- C5 (code defect): on an armed instance, `addMediaObject` with an acceptable video
element, a valid specifier and a correlation invokes the host `removeMediaObject` and never
the host `addMediaObject`. -/
theorem addMediaObject_invokes_remove :
    checkMediaState (videoElement "http://a/b.mp4") = .returned true ∧
    checkTLSpec "urn:dvb:css:timeline:ct" = true ∧
    (armedExample.addMediaObject (videoElement "http://a/b.mp4")
        (some "urn:dvb:css:timeline:ct")
        (some ⟨.num 10, .num 20, .undefined, .undefined⟩)).2.hostCalls =
      armedExample.hostCalls ++ [.removeMediaObject (videoElement "http://a/b.mp4")] := by
  decide

/-- C6 (code defect): a two-line string whose first line is a valid specifier passes
`checkTLSpec`, because the expression carries the `m` flag. -/
theorem checkTLSpec_accepts_multiline :
    checkTLSpec "urn:dvb:css:timeline:pts\nfoo" = true ∧
    checkTLSpec "foo\nurn:dvb:css:timeline:temi:1:1" = true := by
  decide

/-- C7: for an element whose lower-cased tag name is `object`, `inferTLSpecFromMedia` returns
the `pts` specifier for type `video/broadcast`, the `ct` specifier for `video/mp4` and
`audio/mp4`, the `mpd:period:rel:1000` specifier for `application/dash+xml` and `false` for
every other type, a missing type included; for an element whose lower-cased tag name is
none of `object`, `video`, `audio` it returns `false`. -/
theorem inferTLSpecFromMedia_by_type (o : Element) :
    (toLowerCase o.tagName = "object".data →
      (o.typeAttr = some "video/broadcast" →
        inferTLSpecFromMedia (.element o) = .returned (some "urn:dvb:css:timeline:pts")) ∧
      (o.typeAttr = some "video/mp4" ∨ o.typeAttr = some "audio/mp4" →
        inferTLSpecFromMedia (.element o) = .returned (some "urn:dvb:css:timeline:ct")) ∧
      (o.typeAttr = some "application/dash+xml" →
        inferTLSpecFromMedia (.element o) =
          .returned (some "urn:dvb:css:timeline:mpd:period:rel:1000")) ∧
      (o.typeAttr ≠ some "video/broadcast" → o.typeAttr ≠ some "video/mp4" →
        o.typeAttr ≠ some "audio/mp4" → o.typeAttr ≠ some "application/dash+xml" →
        inferTLSpecFromMedia (.element o) = .returned none)) ∧
    (toLowerCase o.tagName ≠ "object".data → toLowerCase o.tagName ≠ "video".data →
      toLowerCase o.tagName ≠ "audio".data →
      inferTLSpecFromMedia (.element o) = .returned none) := by
  refine ⟨fun htag => ⟨?_, ?_, ?_, ?_⟩, ?_⟩
  · intro h
    simp [inferTLSpecFromMedia, htag, h]
  · rintro (h | h) <;> simp [inferTLSpecFromMedia, htag, h]
  · intro h
    simp [inferTLSpecFromMedia, htag, h]
  · intro h1 h2 h3 h4
    unfold inferTLSpecFromMedia
    simp only [htag, if_true]
  · intro h1 h2 h3
    simp [inferTLSpecFromMedia, h1, h2, h3]

/-- Witness for C7: an upper-case `OBJECT` tag with type `video/broadcast`, and a `div`. -/
theorem inferTLSpecFromMedia_by_type_witness :
    inferTLSpecFromMedia
        (.element ⟨"OBJECT", some "video/broadcast", some 2, none, none, ""⟩) =
      .returned (some "urn:dvb:css:timeline:pts") ∧
    inferTLSpecFromMedia (.element ⟨"div", none, none, none, none, "a.mp4"⟩) =
      .returned none :=
  ⟨((inferTLSpecFromMedia_by_type
      ⟨"OBJECT", some "video/broadcast", some 2, none, none, ""⟩).1 (by decide)).1 rfl,
   (inferTLSpecFromMedia_by_type ⟨"div", none, none, none, none, "a.mp4"⟩).2
      (by decide) (by decide) (by decide)⟩

theorem indexOfFrom_of_isPrefixOf (pat s : List Char) (i : Int)
    (h : pat.isPrefixOf s = true) : indexOfFrom pat s i = i := by
  cases s with
  | nil =>
    cases pat with
    | nil => simp [indexOfFrom]
    | cons p ps => simp [List.isPrefixOf] at h
  | cons c cs => simp [indexOfFrom, h]

theorem indexOfFrom_absent (pat : List Char) (hp : pat ≠ []) (s : List Char) (i : Int)
    (h : ¬ pat <:+: s) : indexOfFrom pat s i = -1 := by
  induction s generalizing i with
  | nil =>
    cases pat with
    | nil => exact absurd rfl hp
    | cons p ps => simp [indexOfFrom]
  | cons c cs ih =>
    have h1 : ¬ pat.isPrefixOf (c :: cs) = true := by
      intro hpre
      exact h (List.isPrefixOf_iff_prefix.mp hpre).isInfix
    have h2 : ¬ pat <:+: cs := fun hin => h (hin.trans (List.suffix_cons c cs).isInfix)
    simp only [indexOfFrom, h1, Bool.false_eq_true, if_false]
    exact ih (i + 1) h2

theorem indexOfFrom_positive (pat : List Char) (s : List Char) (i : Int)
    (hin : pat <:+: s) (hpre : ¬ pat <+: s) : i < indexOfFrom pat s i := by
  induction s generalizing i with
  | nil =>
    exfalso
    apply hpre
    have : pat = [] := List.eq_nil_of_infix_nil hin
    rw [this]
  | cons c cs ih =>
    have h1 : ¬ pat.isPrefixOf (c :: cs) = true := fun h => hpre (List.isPrefixOf_iff_prefix.mp h)
    simp only [indexOfFrom, h1, Bool.false_eq_true, if_false]
    have hin2 : pat <:+: cs := by
      rcases List.infix_cons_iff.mp hin with h | h
      · exact absurd h hpre
      · exact h
    by_cases hp2 : pat <+: cs
    · rw [indexOfFrom_of_isPrefixOf pat cs (i + 1) (List.isPrefixOf_iff_prefix.mpr hp2)]
      omega
    · have := ih (i + 1) hin2 hp2
      omega

/-- C8 (as amended): for a native `video` or `audio` element, if `currentSrc` ends in `.mp4`
and does not begin with it, the result is the `ct` specifier; if `currentSrc` ends in
`.mpd`, does not begin with it, and either does not contain `.mp4` or begins with `.mp4`,
the result is the `mpd:period:rel:1000` specifier. -/
theorem inferTLSpecFromMedia_by_source (o : Element)
    (htag : toLowerCase o.tagName = "video".data ∨ toLowerCase o.tagName = "audio".data) :
    (".mp4".data <:+ o.currentSrc.data → ¬ ".mp4".data <+: o.currentSrc.data →
      inferTLSpecFromMedia (.element o) = .returned (some "urn:dvb:css:timeline:ct")) ∧
    (".mpd".data <:+ o.currentSrc.data → ¬ ".mpd".data <+: o.currentSrc.data →
      (¬ ".mp4".data <:+: o.currentSrc.data ∨ ".mp4".data <+: o.currentSrc.data) →
      inferTLSpecFromMedia (.element o) =
        .returned (some "urn:dvb:css:timeline:mpd:period:rel:1000")) := by
  have hobj : toLowerCase o.tagName ≠ "object".data := by
    rcases htag with h | h <;> rw [h] <;> decide
  constructor
  · intro hsuf hpre
    have hpos : 0 < indexOf o.currentSrc ".mp4" :=
      indexOfFrom_positive _ _ 0 hsuf.isInfix hpre
    simp [inferTLSpecFromMedia, hobj, htag, hpos]
  · intro hsuf hpre hmp4
    have hpos : 0 < indexOf o.currentSrc ".mpd" :=
      indexOfFrom_positive _ _ 0 hsuf.isInfix hpre
    have hle : ¬ 0 < indexOf o.currentSrc ".mp4" := by
      unfold indexOf
      rcases hmp4 with h | h
      · rw [indexOfFrom_absent _ (by decide) _ 0 h]
        decide
      · rw [indexOfFrom_of_isPrefixOf _ _ 0 (List.isPrefixOf_iff_prefix.mpr h)]
        decide
    simp [inferTLSpecFromMedia, hobj, htag, hpos, hle]

/-- Witness for C8 as amended: a video element playing `http://a/b.mpd`. -/
theorem inferTLSpecFromMedia_by_source_witness :
    inferTLSpecFromMedia (videoElement "http://a/b.mpd") =
      .returned (some "urn:dvb:css:timeline:mpd:period:rel:1000") :=
  (inferTLSpecFromMedia_by_source ⟨"video", none, none, some 4, some 2, "http://a/b.mpd"⟩
    (Or.inl (by decide))).2 ⟨"http://a/b".data, rfl⟩ (by decide) (Or.inl (by decide))

/-- C8 (counterexample): the source `http://a/b.mp4/c.mpd` of a video element ends in `.mpd`,
and the result is the `ct` specifier, not the `mpd:period:rel:1000` one; the source `.mp4`
ends in `.mp4`, and the result is `false`. -/
theorem inferTLSpecFromMedia_mpd_suffix_gives_ct :
    ".mpd".data <:+ "http://a/b.mp4/c.mpd".data ∧
    inferTLSpecFromMedia (videoElement "http://a/b.mp4/c.mpd") =
      .returned (some "urn:dvb:css:timeline:ct") ∧
    inferTLSpecFromMedia (videoElement "http://a/b.mp4/c.mpd") ≠
      .returned (some "urn:dvb:css:timeline:mpd:period:rel:1000") ∧
    ".mp4".data <:+ ".mp4".data ∧
    inferTLSpecFromMedia (videoElement ".mp4") = .returned none :=
  ⟨⟨"http://a/b.mp4/c".data, rfl⟩, by decide, by decide, ⟨[], rfl⟩, by decide⟩

/-- C9 (code defect): the numeric tuple `(point: 0, materialPoint: 5)` is taken as unusable,
because `0` is falsy, and yields `(0, 0)` instead of `(0, 5)`. -/
theorem translate_correlation_ts_zero_point :
    translate_correlation_ts (some ⟨.num 0, .num 5, .undefined, .undefined⟩) =
      .returned ⟨.int 0, .int 0⟩ ∧
    translate_correlation_ts (some ⟨.undefined, .undefined, .num 7, .num 0⟩) =
      .returned ⟨.int 0, .int 0⟩ := by
  decide

/-- C10 (code defect): on a freshly constructed instance the error handler raises a
`TypeError` at `that.log(...)` for code 1 and emits nothing. -/
theorem onError_raises_at_log :
    freshExample.onError 1 = (.raised .typeError, freshExample) ∧
    (freshExample.onError 1).2.emitted = [] := by
  decide

/-! ### Claims C11 to C16 -/

theorem errorInfo_known_iff (c : Int) : (errorInfo c).1 ≠ "unknown" ↔ c ∈ knownErrorCodes := by
  by_cases h : 1 ≤ c ∧ c ≤ 19
  · obtain ⟨h1, h2⟩ := h
    interval_cases c <;> decide
  · have e : errorInfo c = ("unknown", false) := by
      apply (errorInfo_flags c).1
      omega
    rw [e]
    simp only [ne_eq, not_true_eq_false, false_iff]
    intro hmem
    simp only [knownErrorCodes, List.mem_cons, List.mem_singleton, List.not_mem_nil,
      or_false] at hmem
    omega

/-- C11 (as amended): the error-code table has 18 entries; the codes for which the handler
has a description other than `unknown` are exactly the 18 distinct codes 1 to 11 and 13
to 19. -/
theorem errorInfo_eighteen_entries :
    (∀ c : Int, (errorInfo c).1 ≠ "unknown" ↔ c ∈ knownErrorCodes) ∧
    knownErrorCodes.Nodup ∧ knownErrorCodes.length = 18 ∧
    (∀ c : Int, c ∈ knownErrorCodes ↔ (1 ≤ c ∧ c ≤ 19 ∧ c ≠ 12)) := by
  refine ⟨errorInfo_known_iff, by decide, by decide, ?_⟩
  intro c
  simp only [knownErrorCodes, List.mem_cons, List.mem_singleton, List.not_mem_nil, or_false]
  omega

/-- C11 (counterexample): no list of 19 distinct codes is the set of the codes with a
description other than `unknown`; code 12 has none. -/
theorem errorInfo_not_nineteen_entries :
    (errorInfo 12).1 = "unknown" ∧
    ¬ ∃ l : List Int, l.Nodup ∧ l.length = 19 ∧ ∀ c, c ∈ l ↔ (errorInfo c).1 ≠ "unknown" := by
  refine ⟨by decide, ?_⟩
  rintro ⟨l, hnd, hlen, h⟩
  have hperm : l.Perm knownErrorCodes :=
    (List.perm_ext_iff_of_nodup hnd (by decide)).mpr
      (fun c => (h c).trans (errorInfo_known_iff c))
  have hl := hperm.length_eq
  rw [hlen] at hl
  revert hl
  decide

/-- With members `log` and `removeAudioTrack` on the instance, a resource that is held and a
host `removeMediaObject` that returns, `stop` returns and releases resource and master. -/
theorem stop_releases_when_equipped (self : SyncManager) (sm : MediaSynchroniser)
    (hs : self.syncMan = some sm) (hr : self.hasRemoveAudioTrack = true)
    (hh : HostOp.removeMediaObject ∉ sm.failing) :
    self.stop =
      (.returned (),
        { self with
          listeners := []
          hostCalls := self.hostCalls ++ [.removeMediaObject self.masterMedia]
          masterMedia := .absent
          syncMan := none }) := by
  simp [SyncManager.stop, SyncManager.stopBody, SyncManager.host, HostCall.op, hs, hr, hh]

/-- With a member `log` on the instance `stop` returns normally in every state. -/
theorem stop_returns_with_log (self : SyncManager) (hl : self.hasLog = true) :
    self.stop.1 = .returned () := by
  unfold SyncManager.stop
  rcases hb : self.stopBody with ⟨o, s1⟩
  have hl1 : s1.hasLog = true := by
    have : self.stopBody.2.hasLog = self.hasLog := by
      unfold SyncManager.stopBody SyncManager.host
      simp only []
      by_cases h1 : self.hasRemoveAudioTrack = true
      · cases hs : self.syncMan with
        | none => simp [h1]
        | some sm =>
          by_cases h2 : HostOp.removeMediaObject ∈ sm.failing <;> simp [h1, h2, HostCall.op]
      · simp [h1]
    rw [hb] at this
    exact this.trans hl
  cases o with
  | returned v => rfl
  | raised e => simp [SyncManager.log, hl1]

/-- Once the resource is released, `currentTime` returns `null`, and `setMasterMedia`,
`addMediaObject` and `enableCII` return `false` without a host call. -/
theorem released_instance (self : SyncManager) (hs : self.syncMan = none) (m : Media)
    (tl : Option String) (cor : Option Correlation) :
    self.currentTime = (.returned none, self) ∧
    (self.setMasterMedia m tl).1 = .returned false ∧
    (self.setMasterMedia m tl).2.hostCalls = self.hostCalls ∧
    (self.addMediaObject m tl cor).1 = .returned false ∧
    (self.addMediaObject m tl cor).2.hostCalls = self.hostCalls ∧
    self.enableCII = (.returned false, self) ∧
    self.disableCII = (.returned (some false), self) := by
  simp [SyncManager.currentTime, SyncManager.setMasterMedia, SyncManager.addMediaObject,
    SyncManager.enableCII, SyncManager.disableCII, SyncManager.emit, hs]

/-- C12 (code defect): on a freshly constructed instance, and on an armed one, `stop()`
raises a `TypeError`: `removeAudioTrack` is undefined, and so is `log`, which the `catch`
block calls. -/
theorem stop_raises_without_members :
    freshExample.stop = (.raised .typeError, freshExample) ∧
    armedExample.stop = (.raised .typeError, armedExample) := by
  decide

/-- C13 (code defect): after `stop()` on a freshly constructed instance the resource is
still held, `currentTime()` returns the number of the host and `enableCII()` invokes the
host; with a member `log` added, `stop()` returns and still holds the resource. -/
theorem stop_keeps_resource :
    freshExample.stop.2.syncMan = some ⟨0, [], true, true⟩ ∧
    freshExample.stop.2.currentTime.1 = .returned (some 0) ∧
    freshExample.stop.2.enableCII.2.hostCalls = [.enableInterDeviceSync] ∧
    loggingExample.stop.1 = .returned () ∧
    loggingExample.stop.2.syncMan = some ⟨0, [], true, true⟩ ∧
    armedExample.stop.2.masterMedia = armedExample.masterMedia := by
  decide

/-- C14: construction raises when `createMediaSynchroniser` raises, returns a falsy value or
returns an object whose `initMediaSynchroniser` is not a function, and in no other case;
otherwise it returns an instance that holds the returned object, with the handler stored in
`onerror` and `onError`, no master media and empty traces. -/
theorem SyncManager_new_outcome (factory : FactoryResult) :
    ((∃ e, SyncManager.new factory = .raised e) ↔
      (factory = .raises ∨ factory = .falsy ∨ ∃ sm, factory = .object false sm)) ∧
    SyncManager.new .raises = .raised (.error "Can't instantiate Media Synchroniser") ∧
    SyncManager.new .falsy = .raised (.error "No MediaSynchroniser available") ∧
    (∀ sm, SyncManager.new (.object false sm) =
      .raised (.error "No MediaSynchroniser available")) ∧
    (∀ sm, SyncManager.new (.object true sm) =
      .returned
        { syncMan := some { sm with onerror := true, onError := true }
          masterMedia := .absent
          hasLog := false
          hasRemoveAudioTrack := false
          listeners := []
          emitted := []
          hostCalls := []
          logged := [] }) := by
  refine ⟨?_, rfl, rfl, fun _ => rfl, fun _ => rfl⟩
  cases factory with
  | raises => simp [SyncManager.new]
  | falsy => simp [SyncManager.new]
  | object b sm => cases b <;> simp [SyncManager.new]

/-- With a member `log` on the instance, a held resource and a host that returns,
`enableCII` invokes `enableInterDeviceSync` once and returns `true`, and the completion
callback emits one `EVT_CII_ENABLED`. -/
theorem enableCII_with_log (self : SyncManager) (sm : MediaSynchroniser)
    (hs : self.syncMan = some sm) (hl : self.hasLog = true)
    (hh : HostOp.enableInterDeviceSync ∉ sm.failing) :
    self.enableCII =
      (.returned true,
        { self with
          hostCalls := self.hostCalls ++ [.enableInterDeviceSync]
          logged := self.logged ++ ["enableCII called enableInterDeviceSync."] }) ∧
    self.onInterDeviceSyncEnabled =
      (.returned (),
        { self with
          logged := self.logged ++ ["enableCII: inter-device sync enabled."]
          emitted := self.emitted ++ [⟨EVT_CII_ENABLED, []⟩] }) := by
  simp [SyncManager.enableCII, SyncManager.onInterDeviceSyncEnabled, SyncManager.host,
    SyncManager.log, SyncManager.emit, HostCall.op, hs, hl, hh]

/-- With a held resource, `disableCII` invokes `disableInterDeviceSync` once; its completion
callback emits one `EVT_CII_DISABLED` in every state. -/
theorem disableCII_with_resource (self : SyncManager) (sm : MediaSynchroniser)
    (hs : self.syncMan = some sm) :
    self.disableCII.2.hostCalls = self.hostCalls ++ [.disableInterDeviceSync] ∧
    self.onInterDeviceSyncDisabled =
      (.returned (), { self with emitted := self.emitted ++ [⟨EVT_CII_DISABLED, []⟩] }) := by
  constructor
  · have hf := host_fields self sm .disableInterDeviceSync
    unfold SyncManager.disableCII
    rw [hs]
    simp only []
    rcases hh : self.host sm .disableInterDeviceSync with ⟨o, s1⟩
    rw [hh] at hf
    cases o <;> exact hf.2.2.1
  · rfl

/-- C15 (code defect): on a freshly constructed instance `enableCII()` invokes the host
`enableInterDeviceSync` and then raises a `TypeError` at `this.log(...)` instead of
returning `true`; its completion callback raises at `that.log(...)` and emits nothing. -/
theorem enableCII_raises_at_log :
    freshExample.enableCII =
      (.raised .typeError, { freshExample with hostCalls := [.enableInterDeviceSync] }) ∧
    freshExample.onInterDeviceSyncEnabled = (.raised .typeError, freshExample) := by
  decide

/-- C16 (code defect): `setMasterMedia` with a truthy value that has no `tagName` raises a
`TypeError`, also on an instance that has a member `log`, with or without a specifier. -/
theorem setMasterMedia_raises_instead_of_false :
    loggingExample.setMasterMedia .nonElement none = (.raised .typeError, loggingExample) ∧
    loggingExample.setMasterMedia .nonElement (some "urn:dvb:css:timeline:ct") =
      (.raised .typeError, loggingExample) := by
  decide

/-! ### Claims C17 to C20: the key requests of `appman.js` -/

theorem toUint32_natCast (n : Nat) (h : n < 4294967296) : toUint32 (n : Int) = n := by
  unfold toUint32
  omega

theorem ofUint32_of_lt (m : Nat) (h : m < 2147483648) : ofUint32 m = (m : Int) := by
  unfold ofUint32
  rw [if_neg (by omega)]

theorem toUint32_ofUint32 (m : Nat) (h : m < 4294967296) : toUint32 (ofUint32 m) = m := by
  unfold toUint32 ofUint32
  split <;> omega

theorem toUint32_lt (a : Int) : toUint32 a < 4294967296 := by
  unfold toUint32
  omega

theorem toUint32_jsOr (a b : Int) : toUint32 (jsOr a b) = toUint32 a ||| toUint32 b := by
  unfold jsOr
  apply toUint32_ofUint32
  exact Nat.or_lt_two_pow (n := 32) (toUint32_lt a) (toUint32_lt b)

theorem jsOr_natCast (v k : Nat) (hv : v < 2147483648) (hk : k < 2147483648) :
    jsOr (v : Int) (k : Int) = ((v ||| k : Nat) : Int) := by
  unfold jsOr
  rw [toUint32_natCast v (by omega), toUint32_natCast k (by omega)]
  exact ofUint32_of_lt _ (Nat.or_lt_two_pow (n := 31) hv hk)

theorem add_eq_or_of_and_eq_zero (a b : Nat) (h : a &&& b = 0) : a + b = a ||| b := by
  induction a using Nat.strongRecOn generalizing b with
  | ind a ih =>
    by_cases ha : a = 0
    · subst ha
      simp
    · have h2 : a / 2 &&& b / 2 = 0 := by
        rw [← Nat.and_div_two, h]
      have ih2 := ih (a / 2) (by omega) (b / 2) h2
      have hd : (a ||| b) / 2 = a / 2 ||| b / 2 := Nat.or_div_two
      have hm := @Nat.or_mod_two_eq_one a b
      have hn : ¬ (a % 2 = 1 ∧ b % 2 = 1) := by
        intro hh
        have := (@Nat.and_mod_two_eq_one a b).mpr hh
        rw [h] at this
        omega
      rw [← ih2] at hd
      omega

theorem or_sub_eq_ldiff (v k : Nat) : (v ||| k) - k = Nat.ldiff v k := by
  have hdis : Nat.ldiff v k &&& k = 0 := by
    apply Nat.eq_of_testBit_eq
    intro i
    simp only [Nat.testBit_and, Nat.testBit_ldiff, Nat.zero_testBit]
    cases v.testBit i <;> cases k.testBit i <;> rfl
  have hor : Nat.ldiff v k ||| k = v ||| k := by
    apply Nat.eq_of_testBit_eq
    intro i
    simp only [Nat.testBit_or, Nat.testBit_ldiff]
    cases v.testBit i <;> cases k.testBit i <;> rfl
  have hsum := add_eq_or_of_and_eq_zero _ _ hdis
  rw [hor] at hsum
  omega

theorem addKey_of_ready (self : AppMan) (k : Int) (h : self.Ready) :
    (self.addKey k).1 = .returned () ∧
    (self.addKey k).2.terminal.setValueCalls =
      self.terminal.setValueCalls ++ [jsOr self.terminal.value k] ∧
    (self.addKey k).2.val = jsOr self.terminal.value k ∧
    (self.addKey k).2.ks = .object ∧
    (self.addKey k).2.terminal.policy = self.terminal.policy ∧
    (self.terminal.policy = .storesAll →
      (self.addKey k).2.terminal.value = jsOr self.terminal.value k) := by
  rcases h with h | ⟨h, ha⟩
  · cases hp : self.terminal.policy <;>
      simp [AppMan.addKey, AppMan.addKeyBody, AppMan.setValue, h, hp]
  · cases hp : self.terminal.policy <;>
      simp [AppMan.addKey, AppMan.addKeyBody, AppMan.setValue, AppMan.init, h, ha, hp]

/-- C17: when the keyset is available, `addKey(k)` returns and calls `setValue` exactly once,
with `value | k`; with a keyset that stores what it is given the value afterwards is
`value | k`, and each of its 32 bits is set exactly when it is set in `k` or was set
before; for non-negative values below `2^31` the result is the plain bitwise OR.  From
value 0, `addKey(RED)` then `addKey(NAVIGATION)` call `setValue(0x1)` and `setValue(0x11)`. -/
theorem addKey_sets_or (self : AppMan) (k : Int) (h : self.Ready) :
    (self.addKey k).1 = .returned () ∧
    (self.addKey k).2.terminal.setValueCalls =
      self.terminal.setValueCalls ++ [jsOr self.terminal.value k] ∧
    (self.terminal.policy = .storesAll →
      (self.addKey k).2.terminal.value = jsOr self.terminal.value k ∧
      ∀ i, (toUint32 (self.addKey k).2.terminal.value).testBit i =
        ((toUint32 self.terminal.value).testBit i || (toUint32 k).testBit i)) ∧
    (∀ v n : Nat, v < 2147483648 → n < 2147483648 →
      jsOr (v : Int) (n : Int) = ((v ||| n : Nat) : Int)) ∧
    ((loadedAppMan .storesAll 0).addKeys [AppMan.RED, AppMan.NAVIGATION]).terminal.setValueCalls =
      [0x1, 0x11] := by
  have hk := addKey_of_ready self k h
  refine ⟨hk.1, hk.2.1, ?_, jsOr_natCast, by decide⟩
  intro hp
  have hv := hk.2.2.2.2.2 hp
  refine ⟨hv, fun i => ?_⟩
  rw [hv, toUint32_jsOr, Nat.testBit_or]

/-- Witness for C17: the module as loaded, on a terminal whose keyset stores what it is
given and holds `0x10`; `addKey(0x1)` calls `setValue(0x11)`. -/
theorem addKey_sets_or_witness :
    (loadedAppMan .storesAll 0x10).Ready ∧
    ((loadedAppMan .storesAll 0x10).addKey 0x1).2.terminal.setValueCalls = [0x11] ∧
    ((loadedAppMan .storesAll 0x10).addKey 0x1).2.terminal.value = 0x11 :=
  ⟨Or.inr ⟨rfl, rfl⟩,
    (addKey_sets_or (loadedAppMan .storesAll 0x10) 0x1 (Or.inr ⟨rfl, rfl⟩)).2.1,
    ((addKey_sets_or (loadedAppMan .storesAll 0x10) 0x1 (Or.inr ⟨rfl, rfl⟩)).2.2.1 rfl).1⟩

theorem remKey_of_ready (self : AppMan) (k : Int) (h : self.Ready) :
    (self.remKey k).2.terminal.setValueCalls =
      self.terminal.setValueCalls ++ [jsOr self.terminal.value k - k] ∧
    (self.remKey k).2.val = jsOr self.terminal.value k - k ∧
    (self.terminal.policy = .storesAll →
      (self.remKey k).1 = .returned () ∧
      (self.remKey k).2.terminal.value = jsOr self.terminal.value k - k) := by
  rcases h with h | ⟨h, ha⟩
  · cases hp : self.terminal.policy <;>
      simp [AppMan.remKey, AppMan.setValue, h, hp]
  · cases hp : self.terminal.policy <;>
      simp [AppMan.remKey, AppMan.setValue, AppMan.init, h, ha, hp]

theorem testBit_complement32 (k i : Nat) (hk : k < 4294967296) :
    (4294967295 - k).testBit i = (decide (i < 32) && !k.testBit i) := by
  have h := @Nat.testBit_two_pow_sub_succ k 32 (by omega) i
  have e : 2 ^ 32 - (k + 1) = 4294967295 - k := by omega
  rw [e] at h
  exact h

theorem jsAnd_jsNot_natCast (v k : Nat) (hv : v < 2147483648) (hk : k < 2147483648) :
    jsAnd (v : Int) (jsNot (k : Int)) = ((Nat.ldiff v k : Nat) : Int) := by
  unfold jsAnd jsNot
  rw [toUint32_natCast v (by omega), toUint32_natCast k (by omega),
    toUint32_ofUint32 _ (by omega)]
  have e : v &&& (4294967295 - k) = Nat.ldiff v k := by
    apply Nat.eq_of_testBit_eq
    intro i
    rw [Nat.testBit_and, testBit_complement32 k i (by omega), Nat.testBit_ldiff]
    by_cases hi : i < 32
    · simp [hi]
    · have hvi : v.testBit i = false :=
        Nat.testBit_lt_two_pow (Nat.lt_of_lt_of_le (by omega : v < 2 ^ 31)
          (Nat.pow_le_pow_right (by omega) (by omega)))
      simp [hi, hvi]
  rw [e]
  apply ofUint32_of_lt
  have : Nat.ldiff v k ≤ v := by
    apply Nat.le_of_testBit
    intro i hb
    rw [Nat.testBit_ldiff] at hb
    cases hv' : v.testBit i
    · rw [hv'] at hb
      cases hb
    · rfl
  omega

/-- C18: when the keyset is available and holds a value `v`, for non-negative `v` and `k`
below `2^31`, `remKey(k)` calls `setValue` once with `(v | k) - k`; that number is
`v & ~k`: bit `i` of it is set exactly when it is set in `v` and not in `k`.  From `0x13F`,
removing `YELLOW+GREEN`, `COLOR`, `NAVIGATION`, `NUMERIC`, `NAVIGATION+VCR` calls
`setValue` with `0x139`, `0x130`, `0x120`, `0x20`, `0x0`. -/
theorem remKey_clears_key_bits (self : AppMan) (v k : Nat) (h : self.Ready)
    (hv : v < 2147483648) (hk : k < 2147483648) (hval : self.terminal.value = (v : Int)) :
    (self.remKey (k : Int)).2.terminal.setValueCalls =
      self.terminal.setValueCalls ++ [jsOr (v : Int) (k : Int) - (k : Int)] ∧
    jsOr (v : Int) (k : Int) - (k : Int) = (((v ||| k) - k : Nat) : Int) ∧
    jsOr (v : Int) (k : Int) - (k : Int) = jsAnd (v : Int) (jsNot (k : Int)) ∧
    (∀ i, ((v ||| k) - k).testBit i = (v.testBit i && !k.testBit i)) ∧
    ((loadedAppMan .storesAll 0x13F).remKeys
        [AppMan.YELLOW + AppMan.GREEN, AppMan.COLOR, AppMan.NAVIGATION, AppMan.NUMERIC,
          AppMan.NAVIGATION + AppMan.VCR]).terminal.setValueCalls =
      [0x139, 0x130, 0x120, 0x20, 0x0] := by
  have hr := remKey_of_ready self (k : Int) h
  rw [hval] at hr
  have hle : k ≤ v ||| k := by
    apply Nat.le_of_testBit
    intro i hb
    rw [Nat.testBit_or, hb, Bool.or_true]
  have hnat : jsOr (v : Int) (k : Int) - (k : Int) = (((v ||| k) - k : Nat) : Int) := by
    rw [jsOr_natCast v k hv hk]
    omega
  refine ⟨hr.1, hnat, ?_, ?_, by decide⟩
  · rw [hnat, or_sub_eq_ldiff, jsAnd_jsNot_natCast v k hv hk]
  · intro i
    rw [or_sub_eq_ldiff, Nat.testBit_ldiff]

/-- Witness for C18: the module as loaded on a keyset that holds `0x13F`; `remKey(0x6)`
calls `setValue(0x139)`. -/
theorem remKey_clears_key_bits_witness :
    (loadedAppMan .storesAll 0x13F).Ready ∧
    ((loadedAppMan .storesAll 0x13F).remKey 0x6).2.terminal.setValueCalls = [0x139] :=
  ⟨Or.inr ⟨rfl, rfl⟩,
    (remKey_clears_key_bits (loadedAppMan .storesAll 0x13F) 0x13F 0x6 (Or.inr ⟨rfl, rfl⟩)
      (by decide) (by decide) rfl).1⟩

theorem addKeys_of_object (keys : List Int) (self : AppMan) (hk : self.ks = .object)
    (hp : self.terminal.policy = .storesAll) :
    (self.addKeys keys).ks = .object ∧
    (self.addKeys keys).terminal.policy = .storesAll ∧
    (self.addKeys keys).terminal.value = keys.foldl jsOr self.terminal.value ∧
    (keys ≠ [] → (self.addKeys keys).val = keys.foldl jsOr self.terminal.value) := by
  induction keys generalizing self with
  | nil => exact ⟨hk, hp, rfl, fun h => absurd rfl h⟩
  | cons k rest ih =>
    have h1 := addKey_of_ready self k (Or.inl hk)
    have hv := h1.2.2.2.2.2 hp
    have ih1 := ih (self.addKey k).2 h1.2.2.2.1 (h1.2.2.2.2.1.trans hp)
    rw [hv] at ih1
    refine ⟨ih1.1, ih1.2.1, ih1.2.2.1, fun _ => ?_⟩
    by_cases hr : rest = []
    · subst hr
      exact h1.2.2.1
    · exact ih1.2.2.2 hr

/-- With a keyset that stores what it is given, `applyKeyset()` after `addKey(k1)`, ...,
`addKey(kn)` calls `setValue` with `v0 | k1 | ... | kn`. -/
theorem applyKeyset_after_addKeys_storesAll (self : AppMan) (h : self.Ready)
    (hp : self.terminal.policy = .storesAll) (k : Int) (rest : List Int) :
    ((self.addKeys (k :: rest)).applyKeyset).2.terminal.setValueCalls =
      (self.addKeys (k :: rest)).terminal.setValueCalls ++
        [(k :: rest).foldl jsOr self.terminal.value] := by
  have h1 := addKey_of_ready self k h
  have hv := h1.2.2.2.2.2 hp
  have h2 := addKeys_of_object rest (self.addKey k).2 h1.2.2.2.1 (h1.2.2.2.2.1.trans hp)
  have hval : (self.addKeys (k :: rest)).val = (k :: rest).foldl jsOr self.terminal.value := by
    by_cases hr : rest = []
    · subst hr
      exact h1.2.2.1
    · have := h2.2.2.2 hr
      rw [hv] at this
      exact this
  have hks : (self.addKeys (k :: rest)).ks = .object := h2.1
  have hpol : (self.addKeys (k :: rest)).terminal.policy = .storesAll := h2.2.1
  simp [AppMan.applyKeyset, AppMan.setValue, hks, hpol, hval]

/-- C19 (code defect): on a terminal that grants only the colour and navigation keys
(`0x1F`) and holds the value 0, `addKey(NUMERIC)`, `addKey(VCR)` and then `applyKeyset()`
call `setValue` with `0x100`, `0x20` and `0x20`: the re-applied value has lost `NUMERIC`,
where `0 | NUMERIC | VCR` is `0x120`. -/
theorem applyKeyset_loses_earlier_keys :
    (((loadedAppMan (.grants 0x1F) 0).addKeys
      [AppMan.NUMERIC, AppMan.VCR]).applyKeyset).2.terminal.setValueCalls =
      [0x100, 0x20, 0x20] ∧
    jsOr (jsOr 0 AppMan.NUMERIC) AppMan.VCR = 0x120 := by
  decide

/-- C20: the values of the key constants; the seven single key sets are pairwise
bit-disjoint; `COLOR` and `ALL` are the sums of their parts, and each sum is the bitwise OR
of its parts. -/
theorem key_constants :
    AppMan.RED = 0x1 ∧ AppMan.GREEN = 0x2 ∧ AppMan.YELLOW = 0x4 ∧ AppMan.BLUE = 0x8 ∧
    AppMan.NAVIGATION = 0x10 ∧ AppMan.VCR = 0x20 ∧ AppMan.NUMERIC = 0x100 ∧
    AppMan.NONE = 0 ∧
    List.Pairwise (fun a b => jsAnd a b = 0)
      [AppMan.RED, AppMan.GREEN, AppMan.YELLOW, AppMan.BLUE, AppMan.NAVIGATION, AppMan.VCR,
        AppMan.NUMERIC] ∧
    AppMan.COLOR = AppMan.RED + AppMan.GREEN + AppMan.YELLOW + AppMan.BLUE ∧
    AppMan.ALL = AppMan.COLOR + AppMan.NAVIGATION + AppMan.VCR + AppMan.NUMERIC ∧
    AppMan.COLOR = jsOr (jsOr (jsOr AppMan.RED AppMan.GREEN) AppMan.YELLOW) AppMan.BLUE ∧
    AppMan.ALL =
      jsOr (jsOr (jsOr AppMan.COLOR AppMan.NAVIGATION) AppMan.VCR) AppMan.NUMERIC := by
  decide

/-! ### Claims C24 to C29 -/

/-- C24: the function reached under the name `addMediaObject` is the later, one-parameter
one.  On an instance that holds its resource, for a truthy `obj` and any `tl_spec` and `cor`,
with or without a master, it invokes the host `removeMediaObject(obj)` exactly once and no
other host operation, emits nothing, and returns `true` (the exception of the host
operation leaves the call when that operation raises). -/
theorem addMediaObject_is_remove (self : SyncManager) (sm : MediaSynchroniser) (obj : Media)
    (tl_spec : Option String) (cor : Option Correlation)
    (hs : self.syncMan = some sm) (ho : obj.truthy = true) :
    (self.addMediaObject obj tl_spec cor).2 =
      { self with hostCalls := self.hostCalls ++ [.removeMediaObject obj] } ∧
    (self.addMediaObject obj tl_spec cor).1 =
      (if HostOp.removeMediaObject ∈ sm.failing then .raised .hostError else .returned true) ∧
    (HostOp.removeMediaObject ∉ sm.failing →
      (self.addMediaObject obj tl_spec cor).1 = .returned true) ∧
    (∀ o tl c, HostCall.addMediaObject o tl c ∈ (self.addMediaObject obj tl_spec cor).2.hostCalls →
      HostCall.addMediaObject o tl c ∈ self.hostCalls) := by
  have hstate : (self.addMediaObject obj tl_spec cor).2 =
      { self with hostCalls := self.hostCalls ++ [.removeMediaObject obj] } := by
    by_cases hf : HostOp.removeMediaObject ∈ sm.failing <;>
      simp [SyncManager.addMediaObject, SyncManager.host, HostCall.op, hs, ho, hf]
  have hout : (self.addMediaObject obj tl_spec cor).1 =
      (if HostOp.removeMediaObject ∈ sm.failing then .raised .hostError
        else .returned true) := by
    by_cases hf : HostOp.removeMediaObject ∈ sm.failing <;>
      simp [SyncManager.addMediaObject, SyncManager.host, HostCall.op, hs, ho, hf]
  refine ⟨hstate, hout, ?_, ?_⟩
  · intro hf
    rw [hout, if_neg hf]
  · intro o tl c hmem
    rw [hstate] at hmem
    simpa using hmem

/-- Witness for C24: a fresh instance without master, a video element, a specifier and a
correlation. -/
theorem addMediaObject_is_remove_witness :
    (freshExample.addMediaObject (videoElement "http://a/b.mpd")
      (some "urn:dvb:css:timeline:ct")
      (some ⟨.num 1, .num 2, .undefined, .undefined⟩)).1 = .returned true :=
  (addMediaObject_is_remove freshExample ⟨0, [], true, true⟩ (videoElement "http://a/b.mpd")
    (some "urn:dvb:css:timeline:ct") (some ⟨.num 1, .num 2, .undefined, .undefined⟩)
    rfl rfl).2.2.1 (by decide)

theorem jsEqNum_iff (x : Option Int) (n : Int) : jsEqNum x n = true ↔ x = some n := by
  cases x <;> simp [jsEqNum]

theorem jsGe_iff (a b : Option Int) :
    jsGe a b = true ↔ ∃ x y, a = some x ∧ b = some y ∧ y ≤ x := by
  cases a <;> cases b <;> simp [jsGe]

theorem checkMediaState_element (o : Element) :
    checkMediaState (.element o) = .returned
      (if toLowerCase o.tagName = "object".data then
        (if o.typeAttr = some "video/broadcast" then
          (jsEqNum o.playState 2 || jsEqNum o.playState 1)
        else (jsGe o.playState (some 1) && jsGe (some 4) o.playState))
      else if toLowerCase o.tagName = "video".data ∨ toLowerCase o.tagName = "audio".data then
        jsGe o.readyState o.HAVE_CURRENT_DATA
      else false) := by
  unfold checkMediaState notInstanceofHTMLElement
  simp only [Bool.false_eq_true, if_false]
  split_ifs <;> rfl

/-- C25: for an element `o`, `checkMediaState(o)` returns, and it returns `true` exactly when
`o` is an `object` of type `video/broadcast` with `playState` 1 or 2, or an `object` of
another type (or none) with `1 <= playState <= 4`, or a `video` or `audio` element with
`readyState >= HAVE_CURRENT_DATA`; tag names are compared in lower case.  For any other tag
name it returns `false`. -/
theorem checkMediaState_iff (o : Element) :
    (∃ b, checkMediaState (.element o) = .returned b) ∧
    (checkMediaState (.element o) = .returned true ↔
      ((toLowerCase o.tagName = "object".data ∧ o.typeAttr = some "video/broadcast" ∧
          (o.playState = some 1 ∨ o.playState = some 2)) ∨
       (toLowerCase o.tagName = "object".data ∧ o.typeAttr ≠ some "video/broadcast" ∧
          ∃ p, o.playState = some p ∧ 1 ≤ p ∧ p ≤ 4) ∨
       ((toLowerCase o.tagName = "video".data ∨ toLowerCase o.tagName = "audio".data) ∧
          ∃ r h, o.readyState = some r ∧ o.HAVE_CURRENT_DATA = some h ∧ h ≤ r))) ∧
    (toLowerCase o.tagName ≠ "object".data → toLowerCase o.tagName ≠ "video".data →
      toLowerCase o.tagName ≠ "audio".data →
      checkMediaState (.element o) = .returned false) := by
  rw [checkMediaState_element]
  refine ⟨⟨_, rfl⟩, ?_, ?_⟩
  · simp only [Outcome.returned.injEq]
    by_cases hobj : toLowerCase o.tagName = "object".data
    · have hnva : ¬ (toLowerCase o.tagName = "video".data ∨
          toLowerCase o.tagName = "audio".data) := by
        rw [hobj]; decide
      by_cases ht : o.typeAttr = some "video/broadcast"
      · rw [if_pos hobj, if_pos ht, Bool.or_eq_true, jsEqNum_iff, jsEqNum_iff]
        constructor
        · rintro (h | h)
          · exact Or.inl ⟨hobj, ht, Or.inr h⟩
          · exact Or.inl ⟨hobj, ht, Or.inl h⟩
        · rintro (⟨_, _, h | h⟩ | ⟨_, h, _⟩ | ⟨h, _⟩)
          · exact Or.inr h
          · exact Or.inl h
          · exact absurd ht h
          · exact absurd h hnva
      · rw [if_pos hobj, if_neg ht, Bool.and_eq_true, jsGe_iff, jsGe_iff]
        constructor
        · rintro ⟨⟨x, y, hx, hy, hxy⟩, ⟨x2, y2, hx2, hy2, hxy2⟩⟩
          refine Or.inr (Or.inl ⟨hobj, ht, x, hx, ?_, ?_⟩)
          · cases hy
            exact hxy
          · cases hx2
            rw [hx] at hy2
            cases hy2
            exact hxy2
        · rintro (⟨_, h, _⟩ | ⟨_, _, p, hp, h1, h4⟩ | ⟨h, _⟩)
          · exact absurd h ht
          · exact ⟨⟨p, 1, hp, rfl, h1⟩, ⟨4, p, rfl, hp, h4⟩⟩
          · exact absurd h hnva
    · by_cases hva : toLowerCase o.tagName = "video".data ∨
          toLowerCase o.tagName = "audio".data
      · rw [if_neg hobj, if_pos hva, jsGe_iff]
        constructor
        · rintro ⟨x, y, hx, hy, hxy⟩
          exact Or.inr (Or.inr ⟨hva, x, y, hx, hy, hxy⟩)
        · rintro (⟨h, _⟩ | ⟨h, _⟩ | ⟨_, r, h, hr, hh, hle⟩)
          · exact absurd h hobj
          · exact absurd h hobj
          · exact ⟨r, h, hr, hh, hle⟩
      · rw [if_neg hobj, if_neg hva]
        constructor
        · intro h
          cases h
        · rintro (⟨h, _⟩ | ⟨h, _⟩ | ⟨h, _⟩)
          · exact absurd h hobj
          · exact absurd h hobj
          · exact absurd h hva
  · intro h1 h2 h3
    rw [if_neg h1, if_neg (by rintro (h | h); exact h2 h; exact h3 h)]

/-- Witness for C25: a `div` element is not acceptable. -/
theorem checkMediaState_iff_witness :
    checkMediaState (.element ⟨"div", none, some 2, some 4, some 2, ""⟩) = .returned false :=
  (checkMediaState_iff ⟨"div", none, some 2, some 4, some 2, ""⟩).2.2
    (by decide) (by decide) (by decide)

theorem translate_correlation_ts_cases (cor : Option Correlation) :
    translate_correlation_ts cor = .returned ⟨.int 0, .int 0⟩ ∨
    (∃ c, cor = some c ∧ c.point.truthy = true ∧ c.materialPoint.truthy = true ∧
      translate_correlation_ts cor =
        CorrelationTimestamp.ofParsed (parseInt c.point) (parseInt c.materialPoint)) ∨
    (∃ c, cor = some c ∧ c.parentTime.truthy = true ∧ c.childTime.truthy = true ∧
      translate_correlation_ts cor =
        CorrelationTimestamp.ofParsed (parseInt c.parentTime) (parseInt c.childTime)) := by
  cases cor with
  | none => exact Or.inl rfl
  | some c =>
    unfold translate_correlation_ts
    simp only []
    by_cases h1 : (c.point.truthy && c.materialPoint.truthy) = true
    · rw [if_pos h1]
      rw [Bool.and_eq_true] at h1
      exact Or.inr (Or.inl ⟨c, rfl, h1.1, h1.2, rfl⟩)
    · rw [if_neg h1]
      by_cases h2 : (c.parentTime.truthy && c.childTime.truthy) = true
      · rw [if_pos h2]
        rw [Bool.and_eq_true] at h2
        exact Or.inr (Or.inr ⟨c, rfl, h2.1, h2.2, rfl⟩)
      · rw [if_neg h2]
        exact Or.inl rfl

theorem parseInt_of_text (v : JSVal) (s : String) (h : v.toJSString = .returned s) :
    parseInt v = .returned (parseIntChars s.data) := by
  simp only [parseInt, h]

theorem parseInt_raised_iff (v : JSVal) (e : JsError) :
    parseInt v = .raised e ↔ ∃ t, v = .other t (.raised e) := by
  cases v with
  | undefined => simp [parseInt, JSVal.toJSString]
  | null => simp [parseInt, JSVal.toJSString]
  | bool b => cases b <;> simp [parseInt, JSVal.toJSString]
  | number x => simp [parseInt, JSVal.toJSString]
  | str s => simp [parseInt, JSVal.toJSString]
  | other t r =>
    cases r with
    | returned s => simp [parseInt, JSVal.toJSString]
    | raised e' => simp [parseInt, JSVal.toJSString]

theorem ofParsed_raised (m o : Outcome JSNumber) (e : JsError)
    (h : CorrelationTimestamp.ofParsed m o = .raised e) : m = .raised e ∨ o = .raised e := by
  unfold CorrelationTimestamp.ofParsed at h
  cases m with
  | raised e1 =>
    simp only [Outcome.raised.injEq] at h
    exact Or.inl (by rw [h])
  | returned a =>
    cases o with
    | raised e2 =>
      simp only [Outcome.raised.injEq] at h
      exact Or.inr (by rw [h])
    | returned b => cases h

/-- C26 (as amended): `translate_correlation_ts` reads the members of the first pair,
`point`/`materialPoint` or `parentTime`/`childTime`, whose two members are truthy, and
returns `(0, 0)` when `cor` is absent or has no such pair.  It raises only when the
conversion to a string of a member of that pair raises.  A field read from a member is an
integer, `NaN` or an infinity: `NaN` exactly when the text of the member, after white space
and one sign, does not begin with a digit that `parseInt` reads there, which is a
hexadecimal digit after a head `0x` or `0X` and a decimal digit otherwise; an infinity
exactly when the digits read there denote `2 ^ 1024 - 2 ^ 970` or more; an integer
otherwise.  So the field is an integer for every finite number, and `NaN` for `true` and
for an infinite number. -/
theorem translate_correlation_ts_fields (cor : Option Correlation) :
    (∀ c, cor = some c → c.point.truthy = true → c.materialPoint.truthy = true →
      translate_correlation_ts cor =
        CorrelationTimestamp.ofParsed (parseInt c.point) (parseInt c.materialPoint)) ∧
    (∀ c, cor = some c → (c.point.truthy && c.materialPoint.truthy) = false →
      c.parentTime.truthy = true → c.childTime.truthy = true →
      translate_correlation_ts cor =
        CorrelationTimestamp.ofParsed (parseInt c.parentTime) (parseInt c.childTime)) ∧
    ((cor = none ∨ ∃ c, cor = some c ∧ (c.point.truthy && c.materialPoint.truthy) = false ∧
        (c.parentTime.truthy && c.childTime.truthy) = false) →
      translate_correlation_ts cor = .returned ⟨.int 0, .int 0⟩) ∧
    (∀ e, translate_correlation_ts cor = .raised e →
      ∃ c t, cor = some c ∧
        (c.point = .other t (.raised e) ∨ c.materialPoint = .other t (.raised e) ∨
          c.parentTime = .other t (.raised e) ∨ c.childTime = .other t (.raised e))) ∧
    (∀ v e, parseInt v = .raised e ↔ ∃ t, v = .other t (.raised e)) ∧
    (∀ v s, v.toJSString = .returned s →
      (parseInt v = .returned .nan ↔ beginsWithDigit (numeralText s.data) = false) ∧
      (∀ b, parseInt v = .returned (.infinity b) ↔
        ∃ m, parseUnsigned (numeralText s.data) = some m ∧ 2 ^ 1024 - 2 ^ 970 ≤ m ∧
          b = hasMinusSign s.data) ∧
      (∀ m, parseUnsigned (numeralText s.data) = some m → m < 2 ^ 1024 - 2 ^ 970 →
        ∃ r, parseInt v = .returned r ∧ r.isInteger = true)) ∧
    (∀ negative s n,
      ∃ r, parseInt (.number (.finite negative s n)) = .returned r ∧ r.isInteger = true) ∧
    parseInt (.bool true) = .returned .nan ∧
    (∀ b, parseInt (.number (.infinity b)) = .returned .nan) := by
  refine ⟨?_, ?_, ?_, ?_, parseInt_raised_iff, ?_, parseInt_finite, by decide, ?_⟩
  · intro c hc h1 h2
    subst hc
    simp [translate_correlation_ts, h1, h2]
  · intro c hc h1 h2 h3
    subst hc
    simp [translate_correlation_ts, h1, h2, h3]
  · rintro (h | ⟨c, hc, h1, h2⟩)
    · subst h
      rfl
    · subst hc
      simp [translate_correlation_ts, h1, h2]
  · intro e h
    rcases translate_correlation_ts_cases cor with e0 | ⟨c, hc, _, _, e1⟩ | ⟨c, hc, _, _, e1⟩
    · rw [e0] at h
      cases h
    · rw [e1] at h
      rcases ofParsed_raised _ _ e h with h' | h'
      · obtain ⟨t, ht⟩ := (parseInt_raised_iff _ e).mp h'
        exact ⟨c, t, hc, Or.inl ht⟩
      · obtain ⟨t, ht⟩ := (parseInt_raised_iff _ e).mp h'
        exact ⟨c, t, hc, Or.inr (Or.inl ht)⟩
    · rw [e1] at h
      rcases ofParsed_raised _ _ e h with h' | h'
      · obtain ⟨t, ht⟩ := (parseInt_raised_iff _ e).mp h'
        exact ⟨c, t, hc, Or.inr (Or.inr (Or.inl ht))⟩
      · obtain ⟨t, ht⟩ := (parseInt_raised_iff _ e).mp h'
        exact ⟨c, t, hc, Or.inr (Or.inr (Or.inr ht))⟩
  · intro v s hs
    rw [parseInt_of_text v s hs]
    refine ⟨?_, ?_, ?_⟩
    · rw [Outcome.returned.injEq]
      exact parseIntChars_nan_iff s.data
    · intro b
      rw [Outcome.returned.injEq]
      exact parseIntChars_infinity_iff s.data b
    · intro m hm hlt
      exact ⟨_, rfl, parseIntChars_isInteger s.data m hm hlt⟩
  · intro b
    cases b <;> decide

/-- Witness for C26 as amended: of the string tuple `("x1", "2")` the master field is `NaN`
and the other field the integer 2. -/
theorem translate_correlation_ts_fields_witness :
    translate_correlation_ts (some ⟨.str "x1", .str "2", .undefined, .undefined⟩) =
      CorrelationTimestamp.ofParsed (.returned .nan) (.returned (.int 2)) :=
  (translate_correlation_ts_fields (some ⟨.str "x1", .str "2", .undefined, .undefined⟩)).1
    ⟨.str "x1", .str "2", .undefined, .undefined⟩ rfl (by decide) (by decide)

/-- C26 (counterexample): for the tuple of the non-numeric strings `abc` and `def` both
fields are `NaN`, which is no integer; so they are for the members `true` and `Infinity`;
a string of 310 digits gives an infinity; and a member whose conversion to a string
raises, as that of a symbol does, makes the call raise. -/
theorem translate_correlation_ts_nan :
    translate_correlation_ts (some ⟨.str "abc", .str "def", .undefined, .undefined⟩) =
      .returned ⟨.nan, .nan⟩ ∧
    JSNumber.isInteger .nan = false ∧
    (¬ ∃ a b : Int,
      translate_correlation_ts (some ⟨.str "abc", .str "def", .undefined, .undefined⟩) =
        .returned ⟨.int a, .int b⟩) ∧
    translate_correlation_ts
        (some ⟨.bool true, .number (.infinity false), .undefined, .undefined⟩) =
      .returned ⟨.nan, .nan⟩ ∧
    translate_correlation_ts
        (some ⟨.undefined, .undefined, .str (String.mk (List.replicate 310 '9')), .str "-1"⟩) =
      .returned ⟨.infinity false, .int (-1)⟩ ∧
    translate_correlation_ts
        (some ⟨.other true (.raised .typeError), .num 1, .undefined, .undefined⟩) =
      .raised .typeError := by
  refine ⟨by decide, by decide, ?_, by decide, by decide, by decide⟩
  rintro ⟨a, b, h⟩
  have e : translate_correlation_ts (some ⟨.str "abc", .str "def", .undefined, .undefined⟩) =
      .returned ⟨.nan, .nan⟩ := by decide
  rw [e] at h
  cases h

/-- C27: every specifier that `inferTLSpecFromMedia` returns passes `checkTLSpec`; and a
`setMasterMedia` call without a specifier either makes no host call or invokes the host
`initMediaSynchroniser` once with a specifier that passes `checkTLSpec`. -/
theorem inferred_spec_is_valid (o : Media) (s : String)
    (h : inferTLSpecFromMedia o = .returned (some s)) :
    checkTLSpec s = true ∧
    (∀ self : SyncManager,
      (self.setMasterMedia o none).2.hostCalls = self.hostCalls ∨
      (self.setMasterMedia o none).2.hostCalls =
        self.hostCalls ++ [.initMediaSynchroniser o s]) := by
  have hvalid : checkTLSpec s = true := by
    cases o with
    | absent => simp [inferTLSpecFromMedia] at h
    | nonElement => simp [inferTLSpecFromMedia] at h
    | element e =>
      unfold inferTLSpecFromMedia at h
      simp only [] at h
      split at h
      · split at h <;> simp only [Outcome.returned.injEq, Option.some.injEq] at h <;>
          first | (subst h; decide) | cases h
      · split at h
        · split at h
          · simp only [Outcome.returned.injEq, Option.some.injEq] at h
            subst h
            decide
          · split at h <;> simp only [Outcome.returned.injEq, Option.some.injEq] at h <;>
              first | (subst h; decide) | cases h
        · cases h
  refine ⟨hvalid, fun self => ?_⟩
  unfold SyncManager.setMasterMedia
  cases hs : self.syncMan with
  | none => left; simp [SyncManager.emit]
  | some sm =>
    simp only []
    split
    · left; simp [SyncManager.emit]
    · split
      · left; simp [SyncManager.emit]
      · cases hc : checkMediaState o with
        | raised e => left; rfl
        | returned b =>
          cases b with
          | false => left; simp [SyncManager.emit]
          | true =>
            have ht : truthyStr (some s) = true := inferTLSpecFromMedia_truthy o (some s) h (by simp)
            have hn : truthyStr none = false := rfl
            simp only [hn, h, ht, strOrUndefined, Bool.false_and, Bool.false_eq_true, if_false,
              Bool.not_false, Bool.not_true, if_true]
            right
            exact (initWith_fields self sm o s).2.2

/-- Witness for C27: a broadcast object infers the `pts` specifier. -/
theorem inferred_spec_is_valid_witness :
    inferTLSpecFromMedia broadcastObject = .returned (some "urn:dvb:css:timeline:pts") ∧
    checkTLSpec "urn:dvb:css:timeline:pts" = true :=
  ⟨by decide, (inferred_spec_is_valid broadcastObject "urn:dvb:css:timeline:pts"
    (by decide)).1⟩

/-- C28: the constructor yields an instance on which neither `log` nor `removeAudioTrack` can
be reached; on an instance without these members `stop()` clears the listeners and raises
a `TypeError`, with the resource, the master, the host trace, the notifications and the
log left as they were: the host `removeMediaObject` is not invoked. -/
theorem stop_raises_and_keeps_state (self : SyncManager) (hl : self.hasLog = false)
    (hr : self.hasRemoveAudioTrack = false) :
    self.stopBody = (.raised .typeError, { self with listeners := [] }) ∧
    self.stop = (.raised .typeError, { self with listeners := [] }) ∧
    self.stop.2.syncMan = self.syncMan ∧ self.stop.2.masterMedia = self.masterMedia ∧
    self.stop.2.hostCalls = self.hostCalls ∧
    (∀ sm, ∃ inst, SyncManager.new (.object true sm) = .returned inst ∧
      inst.hasLog = false ∧ inst.hasRemoveAudioTrack = false) := by
  have hb : self.stopBody = (.raised .typeError, { self with listeners := [] }) := by
    simp [SyncManager.stopBody, hr]
  have hstop : self.stop = (.raised .typeError, { self with listeners := [] }) := by
    simp [SyncManager.stop, hb, SyncManager.log, hl]
  refine ⟨hb, hstop, ?_, ?_, ?_, fun sm => ⟨_, rfl, rfl, rfl⟩⟩ <;> rw [hstop]

/-- Witness for C28: an armed instance with one listener registered. -/
theorem stop_raises_and_keeps_state_witness :
    (armedExample.step (.addListener 3)).stop =
      (.raised .typeError, armedExample) :=
  (stop_raises_and_keeps_state (armedExample.step (.addListener 3)) rfl rfl).2.1

/-- C29: when the keyset cannot be obtained (`ks` is `null`, or `init` has not run and the
terminal has no application), `addKey(k)` returns normally and leaves `val` and the
terminal as they were, and `remKey(k)` raises a `TypeError`, also leaving them as they
were; in both cases `ks` is `null` afterwards. -/
theorem key_operations_without_keyset (self : AppMan) (k : Int)
    (h : self.ks = .null ∨ (self.ks = .unset ∧ self.terminal.applicationAvailable = false)) :
    (self.addKey k).1 = .returned () ∧
    (self.addKey k).2.terminal = self.terminal ∧ (self.addKey k).2.val = self.val ∧
    (self.addKey k).2.ks = .null ∧
    (self.remKey k).1 = .raised .typeError ∧
    (self.remKey k).2.terminal = self.terminal ∧ (self.remKey k).2.val = self.val ∧
    (self.remKey k).2.ks = .null ∧
    (self.ks = .null → (self.addKey k).2 = self ∧ (self.remKey k).2 = self) := by
  rcases h with h | ⟨h, ha⟩
  · simp [AppMan.addKey, AppMan.addKeyBody, AppMan.remKey, h]
  · simp [AppMan.addKey, AppMan.addKeyBody, AppMan.remKey, AppMan.init, h, ha]

/-- Witness for C29: the module as loaded on a terminal without an application. -/
theorem key_operations_without_keyset_witness :
    (({ ks := .unset, app := .unset, val := 0,
        terminal := ⟨false, .storesAll, 0, []⟩ } : AppMan).remKey AppMan.RED).1 =
      .raised .typeError :=
  (key_operations_without_keyset
    { ks := .unset, app := .unset, val := 0, terminal := ⟨false, .storesAll, 0, []⟩ }
    AppMan.RED (Or.inr ⟨rfl, rfl⟩)).2.2.2.2.1

/-! ### Claim C23: the query string parser -/

theorem lookup_foldl_qsAssign (pairs init : List (String × String)) (key : String)
    (hk : key ≠ "__proto__") :
    (pairs.foldl qsAssign init).lookup key = (pairs.reverse ++ init).lookup key := by
  induction pairs generalizing init with
  | nil => rfl
  | cons p ps ih =>
    rw [List.foldl_cons, ih, List.reverse_cons, List.append_assoc, List.lookup_append,
      List.lookup_append]
    congr 1
    unfold qsAssign
    by_cases hp : p.1 = "__proto__"
    · rw [if_pos hp]
      have hne : (key == p.1) = false := by
        rw [hp]
        exact beq_false_of_ne hk
      obtain ⟨k, v⟩ := p
      simp only [List.singleton_append, List.lookup_cons]
      simp only at hne
      rw [hne]
    · rw [if_neg hp]
      rfl

/-- For a key that is no member name of `Object.prototype`, `get(key, def)` returns the value
of the last `key=v` pair of the query string, and `def` when there is none. -/
theorem qsGet_of_plain_key {α : Type} (search key : String) (d : α)
    (hk : key ∉ objectPrototypeMembers) :
    qsGet search key d =
      match (qsPairs search).reverse.lookup key with
      | some v => .value v
      | none => .fallback d := by
  have hne : key ≠ "__proto__" := by
    intro h
    apply hk
    rw [h]
    decide
  unfold qsGet qs_map
  rw [lookup_foldl_qsAssign _ _ _ hne, List.append_nil]
  cases (qsPairs search).reverse.lookup key with
  | some v => rfl
  | none => simp [hk]

/-- C23 (code defect): with the query string `?a=1`, `get("toString", def)` and
`get("constructor", def)` do not return `def`: the operator `in` finds the members that
`qs_map` inherits from `Object.prototype`, and `get` returns them; the same holds with an
empty query string. -/
theorem qsGet_inherited_member :
    (qsGet "?a=1" "toString" "def" : QsResult String) = .inherited "toString" ∧
    (qsGet "?a=1" "constructor" "def" : QsResult String) = .inherited "constructor" ∧
    (qsGet "" "toString" "def" : QsResult String) = .inherited "toString" ∧
    (qsGet "?a=1&b=2&a=3" "a" "def" : QsResult String) = .value "3" ∧
    (qsGet "?a=1&b=2&a=3" "c" "def" : QsResult String) = .fallback "def" := by
  decide

/-! ### Claims C21 and C22: the user-agent parser -/

theorem takeWhile_append_stop {p : Char → Bool} (xs : List Char) (y : Char) (ys : List Char)
    (hx : ∀ x ∈ xs, p x = true) (hy : p y = false) :
    (xs ++ y :: ys).takeWhile p = xs ∧ (xs ++ y :: ys).dropWhile p = y :: ys := by
  induction xs with
  | nil => simp [List.takeWhile, List.dropWhile, hy]
  | cons x xs ih =>
    have hx1 : p x = true := hx x (List.mem_cons_self x xs)
    have ih' := ih (fun z hz => hx z (List.mem_cons_of_mem x hz))
    simp [List.takeWhile, List.dropWhile, hx1, ih'.1, ih'.2]

theorem portionAt_portion (a b c : Char) (ws F post : List Char)
    (h : PortionParts a b c ws F) :
    portionAt (hbbtvPortion a b c ws F ++ post) =
      some ⟨hbbtvPortion a b c ws F, [a, '.', b, '.', c], F⟩ := by
  obtain ⟨ha, hb, hc, hws, hwsall, hF⟩ := h
  have e : hbbtvPortion a b c ws F ++ post =
      "HbbTV/".data ++ (a :: '.' :: b :: '.' :: c :: (ws ++ '(' :: (F ++ ')' :: post))) := by
    simp [hbbtvPortion]
  have hpre : "HbbTV/".data.isPrefixOf
      ("HbbTV/".data ++ (a :: '.' :: b :: '.' :: c :: (ws ++ '(' :: (F ++ ')' :: post)))) =
      true := List.isPrefixOf_iff_prefix.mpr (List.prefix_append _ _)
  have hdrop : ("HbbTV/".data ++
      (a :: '.' :: b :: '.' :: c :: (ws ++ '(' :: (F ++ ')' :: post)))).drop 6 =
      a :: '.' :: b :: '.' :: c :: (ws ++ '(' :: (F ++ ')' :: post)) := rfl
  have hw := takeWhile_append_stop (p := isStrWhiteSpaceChar) ws '(' (F ++ ')' :: post)
    hwsall (by decide)
  have hf := takeWhile_append_stop (p := fun x => x != ')') F ')' post
    (fun x hx => by simpa using hF x hx) (by decide)
  rw [e]
  unfold portionAt
  rw [hpre, if_pos rfl, hdrop]
  simp only [ha, hb, hc, Bool.and_self, decide_True, Bool.true_and, if_true, hw.1, hw.2, hws,
    if_false, hf.1, hf.2]
  simp [hbbtvPortion]

theorem portionAt_sound (s : List Char) (m : UAMatch) (h : portionAt s = some m) :
    ∃ a b c ws F post, PortionParts a b c ws F ∧ s = hbbtvPortion a b c ws F ++ post ∧
      m = ⟨hbbtvPortion a b c ws F, [a, '.', b, '.', c], F⟩ := by
  unfold portionAt at h
  split at h
  next hpre =>
    obtain ⟨t, ht⟩ := List.isPrefixOf_iff_prefix.mp hpre
    have hdrop : s.drop 6 = t := by
      rw [← ht]
      rfl
    rw [hdrop] at h
    split at h
    next _ a d1 b d2 c rest =>
      split at h
      next hcond =>
        simp only [Bool.and_eq_true, decide_eq_true_eq] at hcond
        obtain ⟨⟨⟨⟨ha, hd1⟩, hb⟩, hd2⟩, hc⟩ := hcond
        simp only [] at h
        split at h
        · cases h
        next hws =>
          split at h
          next inner hin =>
            split at h
            next tl htl =>
              simp only [Option.some.injEq] at h
              refine ⟨a, b, c, rest.takeWhile isStrWhiteSpaceChar,
                inner.takeWhile (fun x => x != ')'), tl, ?_, ?_, ?_⟩
              · refine ⟨ha, hb, hc, hws, ?_, ?_⟩
                · intro x hx
                  exact List.mem_takeWhile_imp hx
                · intro x hx
                  have := List.mem_takeWhile_imp hx
                  simpa using this
              · have e1 := List.takeWhile_append_dropWhile isStrWhiteSpaceChar rest
                have e2 := List.takeWhile_append_dropWhile (fun x => x != ')') inner
                rw [hin] at e1
                rw [htl] at e2
                rw [← ht, hd1, hd2]
                conv_lhs => rw [← e1, ← e2]
                simp [hbbtvPortion]
              · rw [← h]
                simp [hbbtvPortion]
            · cases h
          · cases h
      · cases h
    · cases h
  · cases h

theorem matchDotStar_none (s : List Char) (h : ∀ k, portionAt (s.drop k) = none) :
    matchDotStar s = none := by
  induction s with
  | nil => exact h 0
  | cons c cs ih =>
    have h0 : portionAt (c :: cs) = none := h 0
    have hcs : matchDotStar cs = none := ih (fun k => h (k + 1))
    unfold matchDotStar
    split
    · exact h0
    · rw [hcs]
      exact h0

theorem uaExec_none (s : List Char) (h : ∀ k, portionAt (s.drop k) = none) :
    uaExec s = none := by
  induction s with
  | nil => exact matchDotStar_none [] h
  | cons c cs ih =>
    unfold uaExec
    rw [matchDotStar_none (c :: cs) h]
    exact ih (fun k => h (k + 1))

theorem matchDotStar_sound (s : List Char) (m : UAMatch) (h : matchDotStar s = some m) :
    ∃ k, portionAt (s.drop k) = some m := by
  induction s with
  | nil => exact ⟨0, h⟩
  | cons c cs ih =>
    unfold matchDotStar at h
    split at h
    · exact ⟨0, h⟩
    · cases hm : matchDotStar cs with
      | some m' =>
        rw [hm] at h
        simp only [Option.some.injEq] at h
        subst h
        obtain ⟨k, hk⟩ := ih hm
        exact ⟨k + 1, hk⟩
      | none =>
        rw [hm] at h
        exact ⟨0, h⟩

theorem uaExec_sound (s : List Char) (m : UAMatch) (h : uaExec s = some m) :
    ∃ k, portionAt (s.drop k) = some m := by
  induction s with
  | nil => exact matchDotStar_sound [] m h
  | cons c cs ih =>
    unfold uaExec at h
    cases hm : matchDotStar (c :: cs) with
    | some m' =>
      rw [hm] at h
      simp only [Option.some.injEq] at h
      subst h
      exact matchDotStar_sound _ _ hm
    | none =>
      rw [hm] at h
      obtain ⟨k, hk⟩ := ih h
      exact ⟨k + 1, hk⟩

theorem matchDotStar_skip (pre rest : List Char) (m : UAMatch)
    (hpre : ∀ x ∈ pre, isLineTerminator x = false) (h : matchDotStar rest = some m) :
    matchDotStar (pre ++ rest) = some m := by
  induction pre with
  | nil => exact h
  | cons x xs ih =>
    have hx : isLineTerminator x = false := hpre x (List.mem_cons_self x xs)
    have ih' := ih (fun z hz => hpre z (List.mem_cons_of_mem x hz))
    show matchDotStar (x :: (xs ++ rest)) = some m
    unfold matchDotStar
    rw [hx, ih']
    rfl

theorem matchDotStar_here (c : Char) (cs : List Char) (m : UAMatch)
    (hlater : ∀ k, portionAt (cs.drop k) = none) (hp : portionAt (c :: cs) = some m) :
    matchDotStar (c :: cs) = some m := by
  unfold matchDotStar
  split
  · exact hp
  · rw [matchDotStar_none cs hlater]
    exact hp

theorem uaExec_of_matchDotStar (s : List Char) (m : UAMatch) (h : matchDotStar s = some m) :
    uaExec s = some m := by
  cases s with
  | nil => exact h
  | cons c cs =>
    unfold uaExec
    rw [h]

/-- The expression selects the last portion of a string whose text before that portion has
no line terminator. -/
theorem uaExec_last_portion (pre post : List Char) (a b c : Char) (ws F : List Char)
    (hparts : PortionParts a b c ws F)
    (hpre : ∀ x ∈ pre, isLineTerminator x = false)
    (hlast : ∀ k, 0 < k → portionAt ((hbbtvPortion a b c ws F ++ post).drop k) = none) :
    uaExec (pre ++ (hbbtvPortion a b c ws F ++ post)) =
      some ⟨hbbtvPortion a b c ws F, [a, '.', b, '.', c], F⟩ := by
  apply uaExec_of_matchDotStar
  apply matchDotStar_skip pre _ _ hpre
  have hp := portionAt_portion a b c ws F post hparts
  have hshape : ∃ t, hbbtvPortion a b c ws F ++ post = 'H' :: t := ⟨_, rfl⟩
  obtain ⟨t, ht⟩ := hshape
  rw [ht] at hp hlast ⊢
  exact matchDotStar_here 'H' t _ (fun k => hlast (k + 1) (Nat.succ_pos k)) hp

theorem digit_cases (a : Char) (h : isRegexDigit a = true) :
    a = '0' ∨ a = '1' ∨ a = '2' ∨ a = '3' ∨ a = '4' ∨ a = '5' ∨ a = '6' ∨ a = '7' ∨
      a = '8' ∨ a = '9' := by
  unfold isRegexDigit at h
  simp only [decide_eq_true_eq] at h
  have e : a = Char.ofNat a.toNat := (Char.ofNat_toNat a).symm
  have h1 : 48 ≤ a.toNat := h.1
  have h2 : a.toNat ≤ 57 := h.2
  generalize a.toNat = n at e h1 h2
  subst e
  interval_cases n <;> decide

theorem version_of_digits (a b c : Char) (ha : isRegexDigit a = true)
    (hb : isRegexDigit b = true) (hc : isRegexDigit c = true) :
    splitOnChar '.' [a, '.', b, '.', c] = [[a], [b], [c]] ∧
    parseIntChars [a] = .int (a.toNat - 48 : Nat) ∧
    parseIntChars [b] = .int (b.toNat - 48 : Nat) ∧
    parseIntChars [c] = .int (c.toNat - 48 : Nat) := by
  have hdig : ∀ x : Char, isRegexDigit x = true →
      x ≠ '.' ∧ parseIntChars [x] = .int (x.toNat - 48 : Nat) := by
    intro x hx
    rcases digit_cases x hx with h | h | h | h | h | h | h | h | h | h <;> subst h <;> decide
  refine ⟨?_, (hdig a ha).2, (hdig b hb).2, (hdig c hc).2⟩
  simp [splitOnChar, (hdig a ha).1, (hdig b hb).1, (hdig c hc).1]

theorem splitOnChar_ne_nil (sep : Char) (s : List Char) : splitOnChar sep s ≠ [] := by
  induction s with
  | nil => simp [splitOnChar]
  | cons c cs ih =>
    unfold splitOnChar
    split
    · simp
    · split <;> simp

theorem userAgentBody_of_match (ua : List Char) (a b c : Char) (ws F : List Char)
    (hparts : PortionParts a b c ws F)
    (h : uaExec ua = some ⟨hbbtvPortion a b c ws F, [a, '.', b, '.', c], F⟩) :
    userAgentBody ua =
      .returned (if 6 ≤ (splitOnChar ';' F).length then some (uaRecord a b c ws F)
        else none) := by
  obtain ⟨hv, ha, hb, hc⟩ := version_of_digits a b c hparts.1 hparts.2.1 hparts.2.2.1
  unfold userAgentBody
  rw [h]
  simp only [hv, ge_iff_le]
  by_cases hn : 6 ≤ (splitOnChar ';' F).length
  · rw [if_pos hn, if_pos hn]
    simp only [uaRecord, List.getD_cons_zero, List.getD_cons_succ, ha, hb, hc]
  · rw [if_neg hn, if_neg hn]

theorem toUTF16_append (x y : List Char) : toUTF16 (x ++ y) = toUTF16 x ++ toUTF16 y := by
  induction x with
  | nil => rfl
  | cons c cs ih => simp [toUTF16, ih]

theorem toUTF16_ne_nil (x : List Char) (h : x ≠ []) : toUTF16 x ≠ [] := by
  cases x with
  | nil => exact absurd rfl h
  | cons c cs =>
    unfold toUTF16 utf16Units
    split <;> simp

theorem plus_of_mem_utf16Units (c : Char) (h : 43 ∈ utf16Units c) : c = '+' := by
  unfold utf16Units at h
  split at h
  · simp only [List.mem_singleton] at h
    rw [← Char.ofNat_toNat c, ← h]
  · simp only [List.mem_cons, List.mem_singleton, List.not_mem_nil, or_false] at h
    omega

theorem plus_of_mem_toUTF16 (x : List Char) (h : 43 ∈ toUTF16 x) : '+' ∈ x := by
  induction x with
  | nil => simp [toUTF16] at h
  | cons c cs ih =>
    unfold toUTF16 at h
    rcases List.mem_append.mp h with h1 | h1
    · rw [plus_of_mem_utf16Units c h1]
      exact List.mem_cons_self _ _
    · exact List.mem_cons_of_mem c (ih h1)

theorem splitOnUnit_of_not_mem (sep : Nat) (x : List Nat) (h : sep ∉ x) :
    splitOnUnit sep x = [x] := by
  induction x with
  | nil => rfl
  | cons c cs ih =>
    have hc : c ≠ sep := fun e => h (e ▸ List.mem_cons_self c cs)
    have hcs : sep ∉ cs := fun hm => h (List.mem_cons_of_mem c hm)
    simp [splitOnUnit, hc, ih hcs]

theorem splitOnUnit_append_sep (sep : Nat) (x y : List Nat) (h : sep ∉ x) :
    splitOnUnit sep (x ++ sep :: y) = x :: splitOnUnit sep y := by
  induction x with
  | nil => simp [splitOnUnit]
  | cons c cs ih =>
    have hc : c ≠ sep := fun e => h (e ▸ List.mem_cons_self c cs)
    have hcs : sep ∉ cs := fun hm => h (List.mem_cons_of_mem c hm)
    simp [splitOnUnit, hc, ih hcs]

/-- Splitting the code units of `X1+...+Xm` on `+` gives the code units of the names. -/
theorem splitOnUnit_intercalate (names : List (List Char)) (hne : names ≠ [])
    (h : ∀ n ∈ names, '+' ∉ n) :
    splitOnUnit 43 (toUTF16 (List.intercalate ['+'] names)) = names.map toUTF16 := by
  induction names with
  | nil => exact absurd rfl hne
  | cons n rest ih =>
    have hn : 43 ∉ toUTF16 n := fun hm => h n (List.mem_cons_self n _) (plus_of_mem_toUTF16 n hm)
    cases rest with
    | nil =>
      have e : List.intercalate ['+'] [n] = n := by
        simp [List.intercalate]
      rw [e]
      exact splitOnUnit_of_not_mem 43 _ hn
    | cons m rest' =>
      have ih' := ih (by simp) (fun x hx => h x (List.mem_cons_of_mem n hx))
      have e : List.intercalate ['+'] (n :: m :: rest') =
          n ++ '+' :: List.intercalate ['+'] (m :: rest') := by
        simp [List.intercalate]
      have e2 : toUTF16 ('+' :: List.intercalate ['+'] (m :: rest')) =
          43 :: toUTF16 (List.intercalate ['+'] (m :: rest')) := rfl
      rw [e, toUTF16_append, e2, splitOnUnit_append_sep 43 _ _ hn, ih']
      rfl

theorem noPortionIn_drop (s : List Char) (h : noPortionIn s = true) (k : Nat) :
    portionAt (s.drop k) = none := by
  induction s generalizing k with
  | nil =>
    rw [List.drop_nil]
    decide
  | cons c cs ih =>
    simp only [noPortionIn, Bool.and_eq_true, Option.isNone_iff_eq_none] at h
    cases k with
    | zero => exact h.1
    | succ j => exact ih h.2 j

theorem userAgentParser_of_match (nav : Option String) (ua : List Char) (a b c : Char)
    (ws F : List Char) (hparts : PortionParts a b c ws F)
    (h : uaExec ua = some ⟨hbbtvPortion a b c ws F, [a, '.', b, '.', c], F⟩) :
    HbbTVUserAgentParser nav (some (String.mk ua)) =
      (if 6 ≤ (splitOnChar ';' F).length then some (uaRecord a b c ws F) else none) := by
  have hne : ua ≠ [] := by
    intro e
    rw [e] at h
    have : uaExec [] = none := by decide
    rw [this] at h
    cases h
  have ht : truthyStr (some (String.mk ua)) = true := by
    simp [truthyStr, hne]
  unfold HbbTVUserAgentParser
  simp only [ht, if_true, strOrUndefined]
  rw [userAgentBody_of_match ua a b c ws F hparts h]

theorem matchDotStar_none_of_terminated (s : List Char)
    (h : ∀ k, portionAt (s.drop k) ≠ none → ∃ x ∈ s.take k, isLineTerminator x = true) :
    matchDotStar s = none := by
  induction s with
  | nil =>
    by_contra hne
    obtain ⟨x, hx, _⟩ := h 0 hne
    simp at hx
  | cons c cs ih =>
    have h0 : portionAt (c :: cs) = none := by
      by_contra hne
      obtain ⟨x, hx, _⟩ := h 0 hne
      simp at hx
    unfold matchDotStar
    by_cases hc : isLineTerminator c = true
    · rw [if_pos hc]
      exact h0
    · rw [if_neg hc]
      have hcs : matchDotStar cs = none := by
        apply ih
        intro k hk
        obtain ⟨x, hx, hlt⟩ := h (k + 1) hk
        rw [List.take_succ_cons, List.mem_cons] at hx
        rcases hx with hx | hx
        · rw [hx] at hlt
          exact absurd hlt hc
        · exact ⟨x, hx, hlt⟩
      rw [hcs]
      exact h0

theorem matchDotStar_none_of_broken (pre rest : List Char)
    (hlt : ∃ x ∈ pre, isLineTerminator x = true)
    (h : ∀ k, k < pre.length → portionAt ((pre ++ rest).drop k) ≠ none →
      ∀ x ∈ pre.drop k, isLineTerminator x = false) :
    matchDotStar (pre ++ rest) = none := by
  induction pre with
  | nil =>
    obtain ⟨x, hx, _⟩ := hlt
    simp at hx
  | cons y ys ih =>
    have h0 : portionAt (y :: ys ++ rest) = none := by
      by_contra hne
      obtain ⟨x, hx, hxl⟩ := hlt
      have := h 0 (by simp) hne x hx
      rw [this] at hxl
      cases hxl
    show matchDotStar (y :: (ys ++ rest)) = none
    unfold matchDotStar
    by_cases hy : isLineTerminator y = true
    · rw [if_pos hy]
      exact h0
    · rw [if_neg hy]
      have hys : matchDotStar (ys ++ rest) = none := by
        apply ih
        · obtain ⟨x, hx, hxl⟩ := hlt
          rcases List.mem_cons.mp hx with hx | hx
          · rw [hx] at hxl
            exact absurd hxl hy
          · exact ⟨x, hx, hxl⟩
        · intro k hk hp
          exact h (k + 1) (by simpa using hk) hp
      rw [hys]
      exact h0

/-- The expression selects the portion at the head of `rest` in `pre ++ rest` when every
portion that starts in `pre` is followed in `pre` by no line terminator, and every portion
that starts later in `rest` has a line terminator before it in `rest`: the portion is the
last one that starts on the first line on which a portion starts. -/
theorem uaExec_selects (pre rest : List Char) (m : UAMatch) (hp : portionAt rest = some m)
    (hbefore : ∀ k, k < pre.length → portionAt ((pre ++ rest).drop k) ≠ none →
      ∀ x ∈ pre.drop k, isLineTerminator x = false)
    (hafter : ∀ k, 0 < k → portionAt (rest.drop k) ≠ none →
      ∃ x ∈ rest.take k, isLineTerminator x = true) :
    uaExec (pre ++ rest) = some m := by
  have hrest : matchDotStar rest = some m := by
    obtain ⟨a, b, c, ws, F, post, _, hs, _⟩ := portionAt_sound rest m hp
    have hshape : ∃ t, rest = 'H' :: t := ⟨_, hs⟩
    obtain ⟨t, ht⟩ := hshape
    subst ht
    have ht : matchDotStar t = none := by
      apply matchDotStar_none_of_terminated
      intro k hk
      obtain ⟨x, hx, hlt⟩ := hafter (k + 1) (Nat.succ_pos k) hk
      rw [List.take_succ_cons, List.mem_cons] at hx
      rcases hx with hx | hx
      · rw [hx] at hlt
        have hH : isLineTerminator 'H' = false := by decide
        rw [hH] at hlt
        cases hlt
      · exact ⟨x, hx, hlt⟩
    unfold matchDotStar
    rw [ht]
    exact hp
  induction pre with
  | nil => exact uaExec_of_matchDotStar rest m hrest
  | cons y ys ih =>
    by_cases hlt : ∃ x ∈ y :: ys, isLineTerminator x = true
    · have hnone := matchDotStar_none_of_broken (y :: ys) rest hlt hbefore
      show uaExec (y :: (ys ++ rest)) = some m
      unfold uaExec
      rw [show y :: (ys ++ rest) = (y :: ys) ++ rest from rfl, hnone]
      exact ih (fun k hk hpk => hbefore (k + 1) (by simpa using hk) hpk)
    · apply uaExec_of_matchDotStar
      apply matchDotStar_skip (y :: ys) rest m _ hrest
      intro x hx
      by_contra hne
      exact hlt ⟨x, hx, by simpa using hne⟩

/-- The parser returns the record `uaRecord` of the portion `HbbTV/a.b.c (F)` with at least
six fields when that portion is the last one that starts on the first line of `ua` on
which a portion starts; so it does when `ua` has one portion only. -/
theorem userAgent_parses_selected_portion (nav : Option String) (pre post : List Char)
    (a b c : Char) (ws F : List Char) (hparts : PortionParts a b c ws F)
    (hbefore : ∀ k, k < pre.length →
      portionAt ((pre ++ (hbbtvPortion a b c ws F ++ post)).drop k) ≠ none →
      ∀ x ∈ pre.drop k, isLineTerminator x = false)
    (hafter : ∀ k, 0 < k → portionAt ((hbbtvPortion a b c ws F ++ post).drop k) ≠ none →
      ∃ x ∈ (hbbtvPortion a b c ws F ++ post).take k, isLineTerminator x = true)
    (hn : 6 ≤ (splitOnChar ';' F).length) :
    HbbTVUserAgentParser nav (some (String.mk (pre ++ (hbbtvPortion a b c ws F ++ post)))) =
      some (uaRecord a b c ws F) := by
  rw [userAgentParser_of_match nav _ a b c ws F hparts
    (uaExec_selects pre _ _ (portionAt_portion a b c ws F post hparts) hbefore hafter),
    if_pos hn]

/-- The record of a portion: `options` are the names `X1..Xm` when the trimmed field 0 is
`+X1+...+Xm` and not just `+`, and `null` when the trimmed field 0 is empty. -/
theorem uaRecord_options (a b c : Char) (ws F : List Char) :
    (∀ names : List (List Char), names ≠ [] → (∀ n ∈ names, '+' ∉ n) →
      List.intercalate ['+'] names ≠ [] →
      jsTrim ((splitOnChar ';' F).getD 0 []) = '+' :: List.intercalate ['+'] names →
      (uaRecord a b c ws F).options = some (names.map toUTF16)) ∧
    (jsTrim ((splitOnChar ';' F).getD 0 []) = [] → (uaRecord a b c ws F).options = none) := by
  constructor
  · intro names hne hplus hjoin htrim
    have hf : uaFirstField ((splitOnChar ';' F).getD 0 []) =
        toUTF16 (List.intercalate ['+'] names) := by
      have e : toUTF16 ('+' :: List.intercalate ['+'] names) =
          43 :: toUTF16 (List.intercalate ['+'] names) := rfl
      unfold uaFirstField
      rw [htrim, e]
      simp
    have hlen : (toUTF16 (List.intercalate ['+'] names)).length > 0 :=
      List.length_pos.mpr (toUTF16_ne_nil _ hjoin)
    simp only [uaRecord, hf, hlen, if_true, splitOnUnit_intercalate names hne hplus]
  · intro htrim
    have hf : uaFirstField ((splitOnChar ';' F).getD 0 []) = [] := by
      unfold uaFirstField
      rw [htrim]
      rfl
    show (if (uaFirstField ((splitOnChar ';' F).getD 0 [])).length > 0 then _ else none) = none
    rw [hf]
    rfl

/-- The example of the module documentation, a portion after a line of other text, a
portion before a later line with a second portion, and a first field that begins with a
character outside the Basic Multilingual Plane, of which `substring(1)` leaves the
second surrogate. -/
theorem userAgent_examples :
    HbbTVUserAgentParser none (some uaExample) =
      some
        { str := "HbbTV/1.2.1 (+PVR+DL; Sonic; 40VX700WDR; 1.32.455; 2.002; test reserved)"
          version := ⟨.int 1, .int 2, .int 1⟩
          options := some [toUTF16 "PVR".data, toUTF16 "DL".data]
          vendor := " Sonic"
          model := " 40VX700WDR"
          swVersion := " 1.32.455"
          hwVersion := " 2.002"
          familyName := none
          reserved := " test reserved" } ∧
    HbbTVUserAgentParser none (some "abc\nHbbTV/2.0.0 (+DL;v;m;s;h;fam;res) y") =
      some (uaRecord '2' '0' '0' " ".data "+DL;v;m;s;h;fam;res".data) ∧
    HbbTVUserAgentParser none (some "HbbTV/2.0.0 (+DL;v;m;s;h;fam;res)\nHbbTV/1.1.1 (;;)") =
      some (uaRecord '2' '0' '0' " ".data "+DL;v;m;s;h;fam;res".data) ∧
    (HbbTVUserAgentParser none
        (some (String.mk ("HbbTV/2.0.0 (".data ++ [Char.ofNat 0x1F600] ++
          "X;v;m;s;h;r)".data)))).map (fun r => r.options) =
      some (some [[0xDE00, 88]]) := by
  decide

/-- C21 (code defect): the string contains the portion `HbbTV/1.1.1 (a;b;c;d;e;f)` with six
fields, followed on the same line by a second portion with three fields; the greedy `.*`
selects the second one and the parser returns `null`, where the claim and the
documentation of the function give the record of the first portion, which the parser
returns for that portion alone. -/
theorem userAgent_two_portions :
    PortionParts '1' '1' '1' " ".data "a;b;c;d;e;f".data ∧
    (splitOnChar ';' "a;b;c;d;e;f".data).length = 6 ∧
    "HbbTV/1.1.1 (a;b;c;d;e;f) HbbTV/2.0.0 (;;)".data =
      [] ++ hbbtvPortion '1' '1' '1' " ".data "a;b;c;d;e;f".data ++
        " HbbTV/2.0.0 (;;)".data ∧
    HbbTVUserAgentParser none (some "HbbTV/1.1.1 (a;b;c;d;e;f) HbbTV/2.0.0 (;;)") = none ∧
    HbbTVUserAgentParser none (some "HbbTV/1.1.1 (a;b;c;d;e;f)") =
      some (uaRecord '1' '1' '1' " ".data "a;b;c;d;e;f".data) := by
  unfold PortionParts
  decide

theorem uaExec_none_of_not_includes (ua : List Char) (h : ¬ IncludesHbbTVPortion ua) :
    uaExec ua = none := by
  apply uaExec_none
  intro k
  cases hp : portionAt (ua.drop k) with
  | none => rfl
  | some m =>
    exfalso
    obtain ⟨a, b, c, ws, F, post, hparts, hs, _⟩ := portionAt_sound _ m hp
    apply h
    refine ⟨ua.take k, post, a, b, c, ws, F, hparts, ?_⟩
    rw [List.append_assoc, ← hs, List.take_append_drop]

/-- C22: for a non-empty string `ua` the parser returns `null` or a record: the exception
its `try` block can raise is turned into `null`.  It returns `null` when `ua` includes no
portion `HbbTV/d.d.d`, white space, `(F)`, and when the field list of the portion the
expression selects has fewer than six `;`-separated fields. -/
theorem userAgent_null_cases (nav : Option String) (ua : String) (hne : ua.data ≠ []) :
    (HbbTVUserAgentParser nav (some ua) =
      match userAgentBody ua.data with
      | .returned r => r
      | .raised _ => none) ∧
    (¬ IncludesHbbTVPortion ua.data → HbbTVUserAgentParser nav (some ua) = none) ∧
    (∀ m, uaExec ua.data = some m → (splitOnChar ';' m.fields).length < 6 →
      HbbTVUserAgentParser nav (some ua) = none) ∧
    (∀ pre post a b c ws F, PortionParts a b c ws F →
      (∀ x ∈ pre, isLineTerminator x = false) →
      (∀ k, 0 < k → portionAt ((hbbtvPortion a b c ws F ++ post).drop k) = none) →
      ua.data = pre ++ (hbbtvPortion a b c ws F ++ post) →
      (splitOnChar ';' F).length < 6 →
      HbbTVUserAgentParser nav (some ua) = none) := by
  have ht : truthyStr (some ua) = true := by
    simp [truthyStr, hne]
  have hbody : HbbTVUserAgentParser nav (some ua) =
      match userAgentBody ua.data with
      | .returned r => r
      | .raised _ => none := by
    unfold HbbTVUserAgentParser
    simp only [ht, if_true, strOrUndefined]
  have hshort : ∀ m, uaExec ua.data = some m → (splitOnChar ';' m.fields).length < 6 →
      HbbTVUserAgentParser nav (some ua) = none := by
    intro m hm hlen
    rw [hbody]
    unfold userAgentBody
    rw [hm]
    simp only [List.length_set, ge_iff_le]
    rw [if_neg (by omega)]
  refine ⟨hbody, ?_, hshort, ?_⟩
  · intro hno
    rw [hbody]
    unfold userAgentBody
    rw [uaExec_none_of_not_includes ua.data hno]
  · intro pre post a b c ws F hparts hpre hlast hua hlen
    have hm := uaExec_last_portion pre post a b c ws F hparts hpre hlast
    rw [← hua] at hm
    exact hshort _ hm hlen

/-- Witness for C22: `Mozilla/5.0 (X11)` includes no HbbTV portion, and the portion of
`HbbTV/1.1.1 (a;b)` has two fields. -/
theorem userAgent_null_cases_witness :
    HbbTVUserAgentParser none (some "Mozilla/5.0 (X11)") = none ∧
    HbbTVUserAgentParser none (some "HbbTV/1.1.1 (a;b)") = none :=
  ⟨(userAgent_null_cases none "Mozilla/5.0 (X11)" (by decide)).2.1 (by
      rintro ⟨pre, post, a, b, c, ws, F, hparts, hs⟩
      have hp := portionAt_portion a b c ws F post hparts
      have hd : ("Mozilla/5.0 (X11)".data).drop pre.length =
          hbbtvPortion a b c ws F ++ post := by
        rw [hs, List.append_assoc, List.drop_left]
      rw [← hd] at hp
      have hnone := noPortionIn_drop "Mozilla/5.0 (X11)".data (by decide) pre.length
      rw [hnone] at hp
      cases hp),
   (userAgent_null_cases none "HbbTV/1.1.1 (a;b)" (by decide)).2.2.1
      ⟨"HbbTV/1.1.1 (a;b)".data, "1.1.1".data, "a;b".data⟩ (by decide) (by decide)⟩

end HbbTV
